import Mathlib

/-!
# APEX OMPT adapter: timing contexts, context slots and the event handlers

A shallow embedding of `src/apex/apex_ompt.cpp`.

* A `linked_timer` object lives in a heap indexed by its address; address `0`
  is the null pointer.  `new` hands out addresses from a counter and never
  reuses one, so an address names one context for ever.
* An `ompt_data_t` cell is the OMPT union of a 64-bit `value` and a `ptr`:
  one word, read either way.  Cells are owned by the runtime and named by
  their address; a pointer to a cell is `Option Nat` (`none` is `nullptr`).
* The measurement engine is external: every call made into it is appended to
  `State.trace`.
* Dereferencing a null or dead pointer, calling through a null function
  pointer, and a failed `APEX_ASSERT`, end the handler with a `Fault`.
* The thread registry (`apex_numthreads`, `apex_threadid`) and the statics that
  `ompt_initialize` sets are kept apart from `State`, in `Registry` and `Tool`:
  the event handlers other than thread begin do not touch them.
* `DEBUG_PRINT` is compiled out (`DEBUG` is not defined). `apex_ompt_idle`, which
  is never registered, is left out. A `sample_value` call records the value of
  the `double` it is given, which is an integer in every call the adapter makes.
-/

namespace Apex

/-- The `linked_timer` class: `prev` is the back-link (`void*`, `0` for null),
`tw` the task wrapper returned by the engine, `timing` the running flag. -/
structure linked_timer where
  prev : Nat
  tw : Nat
  timing : Bool
deriving DecidableEq

/-- A call made into the measurement engine. `new_task` also records the task
wrapper the engine answered with. -/
inductive Call where
  | new_task (name : String) (task_id : Nat) (parent : Option Nat) (tw : Nat)
  | start (tw : Nat)
  | yield (tw : Nat)
  | stop (tw : Nat)
  | sample_value (name : String) (value : Nat)
  | register_thread (name : String)
  | exit_thread
  | init (name : String) (comm_rank comm_size : Nat)
  | finalize
deriving DecidableEq

/-- The ways a handler can end without returning. -/
inductive Fault where
  | assertion
  | null_deref
  | bad_deref
deriving DecidableEq

/-- Machine state seen by the handlers.
`slots` is the word stored in each `ompt_data_t` cell, `heap` the live
`linked_timer` objects, `brk` the last address handed out by `new`, `tasks`
the last task wrapper handed out by the engine, `trace` the engine calls so
far (oldest first) and `freed` the addresses passed to `delete` so far. -/
structure State where
  slots : Nat → Nat
  heap : Nat → Option linked_timer
  brk : Nat
  tasks : Nat
  trace : List Call
  freed : List Nat

/-- The state before any event: every cell null, no context, no engine call. -/
def State.init : State :=
  { slots := fun _ => 0, heap := fun _ => none, brk := 0, tasks := 0, trace := [], freed := [] }

def UINT64_MAX : Nat := 2 ^ 64 - 1

/-- Reading through a `linked_timer*`. -/
def State.deref (st : State) (p : Nat) : Except Fault linked_timer :=
  if p = 0 then .error .null_deref
  else match st.heap p with
    | none => .error .bad_deref
    | some t => .ok t

/-- Reading through an `ompt_data_t*`. -/
def cell (p : Option Nat) : Except Fault Nat :=
  match p with
  | none => .error .null_deref
  | some d => .ok d

/-- Record one engine call. -/
def State.emit (st : State) (c : Call) : State :=
  { st with trace := st.trace ++ [c] }

/-- Store a `linked_timer` at an address. -/
def State.store (st : State) (p : Nat) (t : linked_timer) : State :=
  { st with heap := Function.update st.heap p (some t) }

/-- Write the `ptr` member of a cell. -/
def State.setPtr (st : State) (d : Nat) (v : Nat) : State :=
  { st with slots := Function.update st.slots d v }

/-- Modelled from the spec: `apex::new_task` (declared in `apex_api.hpp`, which
is not among the sources) belongs to the measurement engine; it is recorded in
the trace and answered with the next unused task wrapper. -/
def apex_new_task (st : State) (name : String) (task_id : Nat) (parent : Option Nat) :
    Nat × State :=
  let tw := st.tasks + 1
  (tw, { st with tasks := tw, trace := st.trace ++ [Call.new_task name task_id parent tw] })

/-- Method `linked_timer::start`: `apex::start(tw); timing = true;`. -/
def linked_timer.start (st : State) (this : Nat) : Except Fault State := do
  let t ← st.deref this
  pure ((st.emit (Call.start t.tw)).store this { t with timing := true })

/-- Method `linked_timer::yield`: `apex::yield(tw); timing = false;`. -/
def linked_timer.yield (st : State) (this : Nat) : Except Fault State := do
  let t ← st.deref this
  pure ((st.emit (Call.yield t.tw)).store this { t with timing := false })

/-- Method `linked_timer::stop`: `apex::stop(tw); timing = false;`. -/
def linked_timer.stop (st : State) (this : Nat) : Except Fault State := do
  let t ← st.deref this
  pure ((st.emit (Call.stop t.tw)).store this { t with timing := false })

/-- The expression `new linked_timer(name, task_id, p, parent, auto_start)`:
allocation followed by the constructor. Returns the new address. -/
def new_linked_timer (st : State) (name : String) (task_id : Nat) (p : Nat)
    (parent : Option Nat) (auto_start : Bool) : Except Fault (Nat × State) := do
  let this := st.brk + 1
  let st0 : State := { st with brk := this }
  let r := if task_id = 0 then apex_new_task st0 name UINT64_MAX parent
           else apex_new_task st0 name task_id parent
  let st1 := r.2.store this { prev := p, tw := r.1, timing := auto_start }
  if auto_start then
    let st2 ← linked_timer.start st1 this
    pure (this, st2)
  else
    pure (this, st1)

/-- The expression `delete p` on a `linked_timer*`: the destructor stops the
interval when `timing` is set, then the object is released. -/
def delete_linked_timer (st : State) (p : Nat) : Except Fault State :=
  if p = 0 then .ok st
  else match st.heap p with
    | none => .error .bad_deref
    | some t =>
      let st1 := if t.timing then st.emit (Call.stop t.tw) else st
      .ok { st1 with heap := Function.update st1.heap p none, freed := st1.freed ++ [p] }

/-- Helper `apex_ompt_start`. -/
def apex_ompt_start (st : State) (state : String) (ompt_data region_data : Option Nat)
    (auto_start : Bool) : Except Fault State := do
  let d ← cell ompt_data
  let (tmp, st1) ←
    if st.slots d = 0 ∧ region_data ≠ none then do
      let r ← cell region_data
      let parent := st.slots r
      if parent ≠ 0 then do
        let pt ← st.deref parent
        new_linked_timer st state (st.slots d) (st.slots d) (some pt.tw) auto_start
      else
        new_linked_timer st state (st.slots d) (st.slots d) none auto_start
    else
      new_linked_timer st state (st.slots d) (st.slots d) none auto_start
  pure (st1.setPtr d tmp)

/-- Helper `apex_ompt_stop`. `APEX_ASSERT` comes from `apex_assert.h`, which is
not among the sources: `asserts` says whether the build checks it. -/
def apex_ompt_stop (asserts : Bool) (st : State) (ompt_data : Option Nat) :
    Except Fault State := do
  let d ← cell ompt_data
  let ptr := st.slots d
  if asserts && ptr == 0 then throw Fault.assertion
  let t ← st.deref ptr
  let tmp := t.prev
  let st1 ← delete_linked_timer st ptr
  pure (st1.setPtr d tmp)

/-! The enumerators of `ompt_task_status_t`. They are declared in the OpenMP runtime header
`ompt.h`, which is not among the sources; the values are those of OpenMP 5.0. -/

def ompt_task_complete : Int := 1
def ompt_task_yield : Int := 2
def ompt_task_cancel : Int := 3
def ompt_task_detach : Int := 4
def ompt_task_early_fulfill : Int := 5
def ompt_task_late_fulfill : Int := 6
def ompt_task_switch : Int := 7

/-! The enumerators of `ompt_task_flag_t`, from the same header. -/

def ompt_task_initial : Int := 0x00000001
def ompt_task_implicit : Int := 0x00000002
def ompt_task_explicit : Int := 0x00000004
def ompt_task_target : Int := 0x00000008
def ompt_task_undeferred : Int := 0x08000000
def ompt_task_untied : Int := 0x10000000
def ompt_task_final : Int := 0x20000000
def ompt_task_mergeable : Int := 0x40000000
/-- The `%p` conversion of `sprintf` as glibc prints it. -/
def fmt_p (p : Nat) : String :=
  if p = 0 then "(nil)" else "0x" ++ String.mk (Nat.toDigits 16 p)

/-- The label `switch` of `apex_task_create`. -/
def task_create_type_str (type : Int) : String :=
  if type = ompt_task_initial then "OpenMP Initial Task"
  else if type = ompt_task_implicit then "OpenMP Implicit Task"
  else if type = ompt_task_explicit then "OpenMP Explicit Task"
  else if type = ompt_task_target then "OpenMP Target Task"
  else if type = ompt_task_undeferred then "OpenMP Undeferred Task"
  else if type = ompt_task_untied then "OpenMP Untied Task"
  else if type = ompt_task_final then "OpenMP Final Task"
  else if type = ompt_task_mergeable then "OpenMP Mergable Task"
  else "OpenMP Merged Task"

/-- Event #5, task create. -/
def apex_task_create (st : State) (encountering_task_data new_task_data : Option Nat)
    (type : Int) (codeptr_ra : Nat) : Except Fault State :=
  let type_str := task_create_type_str type
  if codeptr_ra ≠ 0 then
    let regionIDstr := type_str ++ ": UNRESOLVED ADDR " ++ fmt_p codeptr_ra
    apex_ompt_start st regionIDstr new_task_data encountering_task_data false
  else
    apex_ompt_start st type_str new_task_data encountering_task_data false

/-- Event #6, task schedule. -/
def apex_task_schedule (st : State) (prior_task_data : Option Nat) (prior_task_status : Int)
    (next_task_data : Option Nat) : Except Fault State := do
  let st1 ← (match prior_task_data with
    | some pd =>
      let prior := st.slots pd
      if prior ≠ 0 then
        if prior_task_status = ompt_task_yield ∨ prior_task_status = ompt_task_detach
            ∨ prior_task_status = ompt_task_switch then
          linked_timer.yield st prior
        else do
          let t ← st.deref prior
          let tmp := t.prev
          let st' ← delete_linked_timer st prior
          pure (st'.setPtr pd tmp)
      else pure st
    | none => pure st)
  let nd ← cell next_task_data
  let next := st1.slots nd
  if next ≠ 0 then linked_timer.start st1 next else pure st1

/-! The enumerators of `ompt_scope_endpoint_t`, `ompt_thread_t`, `ompt_sync_region_t`,
`ompt_work_t` and `ompt_cancel_flag_t`, from the same header. -/

def ompt_scope_begin : Int := 1
def ompt_scope_end : Int := 2

def ompt_thread_initial : Int := 1
def ompt_thread_worker : Int := 2
def ompt_thread_other : Int := 3
def ompt_thread_unknown : Int := 4

def ompt_sync_region_barrier : Int := 1
def ompt_sync_region_barrier_implicit : Int := 2
def ompt_sync_region_barrier_explicit : Int := 3
def ompt_sync_region_barrier_implementation : Int := 4
def ompt_sync_region_taskwait : Int := 5
def ompt_sync_region_taskgroup : Int := 6
def ompt_sync_region_reduction : Int := 7

def ompt_work_loop : Int := 1
def ompt_work_sections : Int := 2
def ompt_work_single_executor : Int := 3
def ompt_work_single_other : Int := 4
def ompt_work_workshare : Int := 5
def ompt_work_distribute : Int := 6
def ompt_work_taskloop : Int := 7

def ompt_cancel_parallel : Int := 0x01
def ompt_cancel_sections : Int := 0x02
def ompt_cancel_loop : Int := 0x04
def ompt_cancel_taskgroup : Int := 0x08
def ompt_cancel_activated : Int := 0x10
def ompt_cancel_detected : Int := 0x20
def ompt_cancel_discarded_task : Int := 0x40

/-- The enumerators of `ompt_callbacks_t` that `ompt_initialize` names. -/
inductive ompt_callbacks_t where
  | ompt_callback_thread_begin
  | ompt_callback_thread_end
  | ompt_callback_parallel_begin
  | ompt_callback_parallel_end
  | ompt_callback_task_create
  | ompt_callback_task_schedule
  | ompt_callback_implicit_task
  | ompt_callback_sync_region_wait
  | ompt_callback_work
  | ompt_callback_master
  | ompt_callback_sync_region
  | ompt_callback_flush
  | ompt_callback_cancel
deriving DecidableEq

/-- The thread registry: the global counter `apex_numthreads` (64 bits) and the value of the
thread-local `apex_threadid` in every thread; threads are named by numbers. -/
structure Registry where
  apex_numthreads : Nat
  apex_threadid : Nat → Nat

/-- The registry at program start: `apex_numthreads(0)`, `apex_threadid(-1)`. -/
def Registry.init : Registry :=
  { apex_numthreads := 0, apex_threadid := fun _ => UINT64_MAX }

/-- The locked block `apex_threadid = apex_numthreads++;`, run by thread `self`. -/
def apex_threadid_assign (reg : Registry) (self : Nat) : Registry :=
  { apex_numthreads := (reg.apex_numthreads + 1) % 2 ^ 64
    apex_threadid := Function.update reg.apex_threadid self reg.apex_numthreads }

/-- Event #1, thread begin, delivered on thread `self`. -/
def apex_thread_begin (reg : Registry) (st : State) (self : Nat) (thread_type : Int) :
    Registry × State :=
  let reg1 := apex_threadid_assign reg self
  if thread_type = ompt_thread_initial then
    (reg1, (st.emit (Call.register_thread "OpenMP Initial Thread")).emit
      (Call.sample_value "OpenMP Initial Thread" 1))
  else if thread_type = ompt_thread_worker then
    (reg1, (st.emit (Call.register_thread "OpenMP Worker Thread")).emit
      (Call.sample_value "OpenMP Worker Thread" 1))
  else if thread_type = ompt_thread_other then
    (reg1, (st.emit (Call.register_thread "OpenMP Other Thread")).emit
      (Call.sample_value "OpenMP Other Thread" 1))
  else
    (reg1, (st.emit (Call.register_thread "OpenMP Unknown Thread")).emit
      (Call.sample_value "OpenMP Unknown Thread" 1))

/-- Event #2, thread end. -/
def apex_thread_end (st : State) : State :=
  st.emit Call.exit_thread

/-- Event #3, parallel region begin. -/
def apex_parallel_region_begin (st : State) (encountering_task_data parallel_data : Option Nat)
    (codeptr_ra : Nat) : Except Fault State :=
  let regionIDstr := "OpenMP Parallel Region: UNRESOLVED ADDR " ++ fmt_p codeptr_ra
  apex_ompt_start st regionIDstr parallel_data encountering_task_data true

/-- Event #4, parallel region end. -/
def apex_parallel_region_end (asserts : Bool) (st : State) (parallel_data : Option Nat) :
    Except Fault State :=
  apex_ompt_stop asserts st parallel_data

/-- Event #7, implicit task. -/
def apex_implicit_task (asserts : Bool) (st : State) (endpoint : Int)
    (parallel_data task_data : Option Nat) (flags : Int) : Except Fault State :=
  if endpoint = ompt_scope_begin then
    if flags = ompt_task_initial then
      apex_ompt_start st "OpenMP Initial Task" task_data parallel_data true
    else
      apex_ompt_start st "OpenMP Implicit Task" task_data parallel_data true
  else
    apex_ompt_stop asserts st task_data

/-- The label `switch` of `apex_sync_region_wait`. -/
def sync_region_wait_str (kind : Int) : String :=
  if kind = ompt_sync_region_barrier then "Barrier Wait"
  else if kind = ompt_sync_region_barrier_implicit then "Implicit Barrier Wait"
  else if kind = ompt_sync_region_barrier_explicit then "Explicit Barrier Wait"
  else if kind = ompt_sync_region_barrier_implementation then "Barrier Implementation Wait"
  else if kind = ompt_sync_region_taskwait then "Task Wait"
  else if kind = ompt_sync_region_taskgroup then "Task Group Wait"
  else if kind = ompt_sync_region_reduction then "Reduction Wait"
  else "Unknown Wait"

/-- Event #16, sync region wait. -/
def apex_sync_region_wait (asserts : Bool) (st : State) (kind endpoint : Int)
    (parallel_data task_data : Option Nat) (codeptr_ra : Nat) : Except Fault State :=
  let tmp_str := sync_region_wait_str kind
  if endpoint = ompt_scope_begin then
    if codeptr_ra ≠ 0 then
      let regionIDstr := "OpenMP " ++ tmp_str ++ ": UNRESOLVED ADDR " ++ fmt_p codeptr_ra
      apex_ompt_start st regionIDstr task_data parallel_data true
    else
      let regionIDstr := "OpenMP " ++ tmp_str
      apex_ompt_start st regionIDstr task_data parallel_data true
  else
    apex_ompt_stop asserts st task_data

/-- The label `switch` of `apex_ompt_work`: the work kind. -/
def work_str (wstype : Int) : String :=
  if wstype = ompt_work_loop then "Loop"
  else if wstype = ompt_work_sections then "Sections"
  else if wstype = ompt_work_single_executor then "Single Executor"
  else if wstype = ompt_work_single_other then "Single Other"
  else if wstype = ompt_work_workshare then "Workshare"
  else if wstype = ompt_work_distribute then "Distribute"
  else if wstype = ompt_work_taskloop then "Taskloop"
  else "Unknown"

/-- The label `switch` of `apex_ompt_work`: the name of what `count` counts. -/
def work_count_type (wstype : Int) : String :=
  if wstype = ompt_work_loop then "Iterations"
  else if wstype = ompt_work_sections then "Sections"
  else if wstype = ompt_work_single_executor then "Single"
  else if wstype = ompt_work_single_other then "Single"
  else if wstype = ompt_work_workshare then "Units of Work"
  else if wstype = ompt_work_distribute then "Iterations"
  else if wstype = ompt_work_taskloop then "Iterations (collapsed)"
  else "Iterations"

/-- The number of low bits a conversion to `double` drops: the least `e`, from the given one
upwards and within `fuel` steps, with `n / 2 ^ e < 2 ^ 53`. -/
def double_shift (n : Nat) : Nat → Nat → Nat
  | 0, e => e
  | fuel + 1, e => if n / 2 ^ e < 2 ^ 53 then e else double_shift n fuel (e + 1)

/-- The implicit conversion of a `uint64_t` argument (`n < 2 ^ 64`) to a `double` parameter,
as IEEE 754 hardware does it in the default rounding mode: the value is rounded to a 53-bit
significand, to nearest, ties to even. The value of the resulting `double` is an integer and
is given as such. -/
def uint64_to_double (n : Nat) : Nat :=
  let e := double_shift n 11 0
  let q := n / 2 ^ e
  let r := n % 2 ^ e
  if 2 * r < 2 ^ e ∨ (2 * r = 2 ^ e ∧ q % 2 = 0) then q * 2 ^ e else (q + 1) * 2 ^ e

/-- Event #20, work begin or end. `apex::sample_value` takes its value as a `double`
(`apex_sample_value (const char *, double)` in `apex.h`): `count` is converted. -/
def apex_ompt_work (asserts : Bool) (st : State) (wstype endpoint : Int)
    (parallel_data task_data : Option Nat) (count : Nat) (codeptr_ra : Nat) :
    Except Fault State :=
  let tmp_str := work_str wstype
  let count_type := work_count_type wstype
  if endpoint = ompt_scope_begin then
    if codeptr_ra ≠ 0 then do
      let regionIDstr := "OpenMP Work " ++ tmp_str ++ ": UNRESOLVED ADDR " ++ fmt_p codeptr_ra
      let st1 ← apex_ompt_start st regionIDstr task_data parallel_data true
      pure (st1.emit (Call.sample_value (count_type ++ ": " ++ regionIDstr)
        (uint64_to_double count)))
    else do
      let regionIDstr := "OpenMP Work " ++ tmp_str
      let st1 ← apex_ompt_start st regionIDstr task_data parallel_data true
      pure (st1.emit (Call.sample_value (count_type ++ ": " ++ regionIDstr)
        (uint64_to_double count)))
  else
    apex_ompt_stop asserts st task_data

/-- Event #21, master begin or end. -/
def apex_ompt_master (asserts : Bool) (st : State) (endpoint : Int)
    (parallel_data task_data : Option Nat) (codeptr_ra : Nat) : Except Fault State :=
  if endpoint = ompt_scope_begin then
    if codeptr_ra ≠ 0 then
      let regionIDstr := "OpenMP Master: UNRESOLVED ADDR " ++ fmt_p codeptr_ra
      apex_ompt_start st regionIDstr task_data parallel_data true
    else
      apex_ompt_start st "OpenMP Master" task_data parallel_data true
  else
    apex_ompt_stop asserts st task_data

/-- The label `switch` of `apex_ompt_sync_region`. -/
def sync_region_str (kind : Int) : String :=
  if kind = ompt_sync_region_barrier then "Barrier"
  else if kind = ompt_sync_region_barrier_implicit then "Implicit Barrier"
  else if kind = ompt_sync_region_barrier_explicit then "Explicit Barrier"
  else if kind = ompt_sync_region_barrier_implementation then "Barrier Implementation"
  else if kind = ompt_sync_region_taskwait then "Task"
  else if kind = ompt_sync_region_taskgroup then "Task Group"
  else if kind = ompt_sync_region_reduction then "Reduction"
  else "Unknown"

/-- Event #23, sync region begin or end. -/
def apex_ompt_sync_region (asserts : Bool) (st : State) (kind endpoint : Int)
    (parallel_data task_data : Option Nat) (codeptr_ra : Nat) : Except Fault State :=
  let tmp_str := sync_region_str kind
  if endpoint = ompt_scope_begin then
    if codeptr_ra ≠ 0 then
      let regionIDstr := "OpenMP " ++ tmp_str ++ ": UNRESOLVED ADDR " ++ fmt_p codeptr_ra
      apex_ompt_start st regionIDstr task_data parallel_data true
    else
      let regionIDstr := "OpenMP " ++ tmp_str
      apex_ompt_start st regionIDstr task_data parallel_data true
  else
    apex_ompt_stop asserts st task_data

/-- Event #29, flush. -/
def apex_ompt_flush (st : State) (codeptr_ra : Nat) : State :=
  if codeptr_ra ≠ 0 then
    let regionIDstr := "OpenMP Flush: UNRESOLVED ADDR " ++ fmt_p codeptr_ra
    st.emit (Call.sample_value regionIDstr 1)
  else
    st.emit (Call.sample_value "OpenMP Flush" 1)

/-- One `if (flags & flag)` block of `apex_ompt_cancel`: a sample named after the flag. -/
def cancel_sample (st : State) (flags flag : Int) (base : String) (codeptr_ra : Nat) : State :=
  if Int.land flags flag ≠ 0 then
    if codeptr_ra ≠ 0 then
      let regionIDstr := base ++ ": UNRESOLVED ADDR " ++ fmt_p codeptr_ra
      st.emit (Call.sample_value regionIDstr 1)
    else
      st.emit (Call.sample_value base 1)
  else st

/-- Event #30, cancel. -/
def apex_ompt_cancel (asserts : Bool) (st : State) (task_data : Option Nat) (flags : Int)
    (codeptr_ra : Nat) : Except Fault State :=
  let st1 := cancel_sample st flags ompt_cancel_parallel "OpenMP Cancel Parallel" codeptr_ra
  let st2 := cancel_sample st1 flags ompt_cancel_sections "OpenMP Cancel Sections" codeptr_ra
  let st3 := cancel_sample st2 flags ompt_cancel_loop "OpenMP Cancel Do" codeptr_ra
  let st4 := cancel_sample st3 flags ompt_cancel_taskgroup "OpenMP Cancel Taskgroup" codeptr_ra
  let st5 := cancel_sample st4 flags ompt_cancel_activated "OpenMP Cancel Activated" codeptr_ra
  let st6 := cancel_sample st5 flags ompt_cancel_detected "OpenMP Cancel Detected" codeptr_ra
  let st7 := cancel_sample st6 flags ompt_cancel_discarded_task "OpenMP Cancel Discarded Task"
    codeptr_ra
  apex_ompt_stop asserts st7 task_data

/-- The statics of the tool side. `fn` says which of the function-pointer globals
(`ompt_set_callback`, `ompt_finalize_tool`, ...) are non-null, by name; `requests` lists the
`ompt_set_callback` calls made so far; `stderr` the messages printed. -/
structure Tool where
  fn : String → Bool
  requests : List ompt_callbacks_t
  stderr : List String

/-- The tool before `ompt_initialize`: every function pointer null. -/
def Tool.init : Tool :=
  { fn := fun _ => false, requests := [], stderr := [] }

/-- The OpenMP runtime and the configuration as `ompt_initialize` sees them: which entry
points `lookup` resolves, what `ompt_set_callback` answers for each event (`0` is failure),
and the two options `apex_options::ompt_high_overhead_events()` and
`apex_options::ompt_required_events_only()`. -/
structure Runtime where
  lookup : String → Bool
  set_callback : ompt_callbacks_t → Int
  ompt_high_overhead_events : Bool
  ompt_required_events_only : Bool

/-- Function `apex_ompt_register`: one `ompt_set_callback` call through the global pointer,
a message when it answers `0`. -/
def apex_ompt_register (rt : Runtime) (tool : Tool) (e : ompt_callbacks_t) (name : String) :
    Except Fault Tool :=
  if tool.fn "ompt_set_callback" then
    let tool1 := { tool with requests := tool.requests ++ [e] }
    if rt.set_callback e = 0 then
      .ok { tool1 with
        stderr := tool1.stderr ++ ["\n\tFailed to register OMPT callback " ++ name ++ "!\n"] }
    else .ok tool1
  else .error Fault.null_deref

/-- The names `ompt_initialize` passes to `lookup`, one per function-pointer global. -/
def looked_up : List String :=
  ["ompt_finalize_tool", "ompt_set_callback", "ompt_get_callback", "ompt_get_task_info",
   "ompt_get_task_memory", "ompt_get_thread_data", "ompt_get_parallel_info",
   "ompt_get_unique_id", "ompt_get_num_places", "ompt_get_num_devices", "ompt_get_num_procs",
   "ompt_get_place_proc_ids", "ompt_get_place_num", "ompt_get_partition_place_nums",
   "ompt_get_proc_id", "ompt_get_target_info", "ompt_enumerate_states",
   "ompt_enumerate_mutex_impls"]

/-- Function `ompt_initialize`, run by thread `self`. Returns its result code with the new
registry, tool statics and state. -/
def ompt_initialize (rt : Runtime) (self : Nat) (reg : Registry) (tool : Tool) (st : State) :
    Except Fault (Int × Registry × Tool × State) := do
  let reg1 := apex_threadid_assign reg self
  let tool0 : Tool :=
    { tool with fn := fun name => if name ∈ looked_up then rt.lookup name else tool.fn name }
  let st1 := st.emit (Call.init "OpenMP Program" 0 1)
  let t1 ← apex_ompt_register rt tool0 .ompt_callback_thread_begin "thread_begin"
  let t2 ← apex_ompt_register rt t1 .ompt_callback_thread_end "thread_end"
  let t3 ← apex_ompt_register rt t2 .ompt_callback_parallel_begin "parallel_begin"
  let t4 ← apex_ompt_register rt t3 .ompt_callback_parallel_end "parallel_end"
  let t7 ←
    if rt.ompt_high_overhead_events then do
      let t5 ← apex_ompt_register rt t4 .ompt_callback_task_create "task_create"
      let t6 ← apex_ompt_register rt t5 .ompt_callback_task_schedule "task_schedule"
      apex_ompt_register rt t6 .ompt_callback_implicit_task "implicit_task"
    else pure t4
  let t13 ←
    if ¬ rt.ompt_required_events_only then do
      let t8 ← apex_ompt_register rt t7 .ompt_callback_work "work"
      let t9 ← apex_ompt_register rt t8 .ompt_callback_master "master"
      let t10 ← apex_ompt_register rt t9 .ompt_callback_flush "flush"
      let t11 ← apex_ompt_register rt t10 .ompt_callback_cancel "cancel"
      if rt.ompt_high_overhead_events then do
        let t12 ← apex_ompt_register rt t11 .ompt_callback_sync_region_wait "sync_region_wait"
        apex_ompt_register rt t12 .ompt_callback_sync_region "sync_region"
      else pure t11
    else pure t7
  pure (1, reg1, t13, st1)

/-- One callback as the runtime delivers it: the handler and its arguments. -/
inductive Event where
  | thread_begin (thread_type : Int)
  | thread_end
  | parallel_begin (encountering_task_data parallel_data : Option Nat) (codeptr_ra : Nat)
  | parallel_end (parallel_data : Option Nat)
  | task_create (encountering_task_data new_task_data : Option Nat) (type : Int)
      (codeptr_ra : Nat)
  | task_schedule (prior_task_data : Option Nat) (prior_task_status : Int)
      (next_task_data : Option Nat)
  | implicit_task (endpoint : Int) (parallel_data task_data : Option Nat) (flags : Int)
  | sync_region_wait (kind endpoint : Int) (parallel_data task_data : Option Nat)
      (codeptr_ra : Nat)
  | work (wstype endpoint : Int) (parallel_data task_data : Option Nat) (count : Nat)
      (codeptr_ra : Nat)
  | master (endpoint : Int) (parallel_data task_data : Option Nat) (codeptr_ra : Nat)
  | sync_region (kind endpoint : Int) (parallel_data task_data : Option Nat)
      (codeptr_ra : Nat)
  | flush (codeptr_ra : Nat)
  | cancel (task_data : Option Nat) (flags : Int) (codeptr_ra : Nat)

/-- The runtime delivering one callback on thread `self`. -/
def dispatch (asserts : Bool) (self : Nat) (reg : Registry) (st : State) :
    Event → Except Fault (Registry × State)
  | .thread_begin thread_type => .ok (apex_thread_begin reg st self thread_type)
  | .thread_end => .ok (reg, apex_thread_end st)
  | .parallel_begin enc par codeptr_ra =>
    (apex_parallel_region_begin st enc par codeptr_ra).map fun s => (reg, s)
  | .parallel_end par => (apex_parallel_region_end asserts st par).map fun s => (reg, s)
  | .task_create enc new type codeptr_ra =>
    (apex_task_create st enc new type codeptr_ra).map fun s => (reg, s)
  | .task_schedule prior status next =>
    (apex_task_schedule st prior status next).map fun s => (reg, s)
  | .implicit_task endpoint par task flags =>
    (apex_implicit_task asserts st endpoint par task flags).map fun s => (reg, s)
  | .sync_region_wait kind endpoint par task codeptr_ra =>
    (apex_sync_region_wait asserts st kind endpoint par task codeptr_ra).map fun s => (reg, s)
  | .work wstype endpoint par task count codeptr_ra =>
    (apex_ompt_work asserts st wstype endpoint par task count codeptr_ra).map fun s => (reg, s)
  | .master endpoint par task codeptr_ra =>
    (apex_ompt_master asserts st endpoint par task codeptr_ra).map fun s => (reg, s)
  | .sync_region kind endpoint par task codeptr_ra =>
    (apex_ompt_sync_region asserts st kind endpoint par task codeptr_ra).map fun s => (reg, s)
  | .flush codeptr_ra => .ok (reg, apex_ompt_flush st codeptr_ra)
  | .cancel task flags codeptr_ra =>
    (apex_ompt_cancel asserts st task flags codeptr_ra).map fun s => (reg, s)

/-- Function `apex::ompt_force_shutdown`: the call through `ompt_finalize_tool` when that
pointer is not null. `finalize_tool_calls` counts the calls the runtime has received on its
`ompt_finalize_tool` entry point; the new count is returned. -/
def ompt_force_shutdown (tool : Tool) (finalize_tool_calls : Nat) : Nat :=
  if tool.fn "ompt_finalize_tool" then finalize_tool_calls + 1 else finalize_tool_calls

/-! ## Vocabulary of the statements -/

/-- A pointer that may be dereferenced or tested: null, or the address of a live context. -/
def State.okPtr (st : State) (p : Nat) : Prop := p = 0 ∨ ∃ t, st.heap p = some t

/-- The task wrappers of the `start` calls of a trace, in order. -/
def starts (T : List Call) : List Nat :=
  T.filterMap fun c => match c with
    | Call.start h => some h
    | _ => none

/-- The task wrappers of the `yield` calls of a trace, in order. -/
def yields (T : List Call) : List Nat :=
  T.filterMap fun c => match c with
    | Call.yield h => some h
    | _ => none

/-- The task wrappers of the `stop` calls of a trace, in order. -/
def stops (T : List Call) : List Nat :=
  T.filterMap fun c => match c with
    | Call.stop h => some h
    | _ => none

/-- The parent task wrapper `apex_ompt_start` passes to the engine. -/
def engine_parent (st : State) (d : Nat) (region : Option Nat) : Option Nat :=
  match region with
  | some r =>
    if st.slots d = 0 ∧ st.slots r ≠ 0 then (st.heap (st.slots r)).map (fun t => t.tw)
    else none
  | none => none

/-- The state `apex_ompt_start` returns. -/
def started (st : State) (name : String) (d : Nat) (parent : Option Nat) (auto_start : Bool) :
    State :=
  { slots := Function.update st.slots d (st.brk + 1)
    heap := Function.update st.heap (st.brk + 1) (some ⟨st.slots d, st.tasks + 1, auto_start⟩)
    brk := st.brk + 1
    tasks := st.tasks + 1
    trace := st.trace ++ Call.new_task name (if st.slots d = 0 then UINT64_MAX else st.slots d)
      parent (st.tasks + 1) :: (if auto_start then [Call.start (st.tasks + 1)] else [])
    freed := st.freed }

/-- The state `apex_ompt_stop` returns on a slot whose context is `t` at address `c`. -/
def stopped (st : State) (d c : Nat) (t : linked_timer) : State :=
  { slots := Function.update st.slots d t.prev
    heap := Function.update st.heap c none
    brk := st.brk
    tasks := st.tasks
    trace := st.trace ++ (if t.timing then [Call.stop t.tw] else [])
    freed := st.freed ++ [c] }

/-- The state after `linked_timer::yield` on the context `t` at address `c`. -/
def yielded (st : State) (c : Nat) (t : linked_timer) : State :=
  { st with trace := st.trace ++ [Call.yield t.tw]
            heap := Function.update st.heap c (some { t with timing := false }) }

/-- The second half of `apex_task_schedule`: start the context of the next task. -/
def start_next (st : State) (next_task_data : Option Nat) : Except Fault State := do
  let nd ← cell next_task_data
  if st.slots nd ≠ 0 then linked_timer.start st (st.slots nd) else pure st

/-- The label `apex_task_create` gives the new timer. -/
def task_create_label (type : Int) (codeptr_ra : Nat) : String :=
  if codeptr_ra ≠ 0 then task_create_type_str type ++ ": UNRESOLVED ADDR " ++ fmt_p codeptr_ra
  else task_create_type_str type

/-- An event on one Context Slot: `Begin` is `apex_ompt_start` with `auto_start = true`
(label and enclosing slot as given), `End` is `apex_ompt_stop`. -/
inductive Ev where
  | Begin (name : String) (region : Option Nat)
  | End

/-- Deliver one event to the slot `d`. -/
def deliver (asserts : Bool) (d : Nat) (st : State) : Ev → Except Fault State
  | Ev.Begin name region => apex_ompt_start st name (some d) region true
  | Ev.End => apex_ompt_stop asserts st (some d)

/-- Deliver events to the slot `d` in order, stopping at the first fault. -/
def run_events (asserts : Bool) (d : Nat) (st : State) : List Ev → Except Fault State
  | [] => .ok st
  | e :: es =>
    match deliver asserts d st e with
    | .ok st1 => run_events asserts d st1 es
    | .error f => .error f

/-- Well-nested event sequences: empty, a well-nested sequence between a `Begin` and its
`End`, or two well-nested sequences one after the other. -/
inductive WellNested : List Ev → Prop
  | nil : WellNested []
  | nest (name : String) (region : Option Nat) {es : List Ev} :
      WellNested es → WellNested (Ev.Begin name region :: (es ++ [Ev.End]))
  | seq {a b : List Ev} : WellNested a → WellNested b → WellNested (a ++ b)

/-- The depth check for well-nested sequences: no `End` without an open `Begin`, and nothing
left open at the end. -/
def nested_from (depth : Nat) : List Ev → Bool
  | [] => depth == 0
  | Ev.Begin _ _ :: es => nested_from (depth + 1) es
  | Ev.End :: es =>
    match depth with
    | 0 => false
    | k + 1 => nested_from k es

/-- The number of `Begin` events of a sequence. -/
def begins : List Ev → Nat
  | [] => 0
  | Ev.Begin _ _ :: es => begins es + 1
  | Ev.End :: es => begins es

/-- What a well-nested sequence leaves behind: slots and live contexts as before, the
contexts it created (addresses `st.brk + 1 .. st.brk + begins es`) each deleted once, and
as many `stop` calls as `start` calls. -/
structure Balanced (es : List Ev) (st st' : State) : Prop where
  slots : st'.slots = st.slots
  heap : st'.heap = st.heap
  brk : st'.brk = st.brk + begins es
  freed : ∃ F, st'.freed = st.freed ++ F ∧ F.Nodup ∧
    ∀ a, a ∈ F ↔ (st.brk < a ∧ a ≤ st.brk + begins es)
  trace : ∃ T, st'.trace = st.trace ++ T ∧ (starts T).length = (stops T).length

/-- An example state: slot `1` (a parallel region) holds a running context (address `1`,
task wrapper `1`), slot `2` (its implicit task) holds a running context (address `2`, task
wrapper `2`), every other slot is null. -/
def two_running : State :=
  { slots := fun d => if d = 1 then 1 else if d = 2 then 2 else 0
    heap := fun a => if a = 1 then some ⟨0, 1, true⟩ else if a = 2 then some ⟨0, 2, true⟩ else none
    brk := 2
    tasks := 2
    trace := [Call.new_task "OpenMP Parallel Region" UINT64_MAX none 1, Call.start 1,
      Call.new_task "OpenMP Implicit Task" UINT64_MAX (some 1) 2, Call.start 2]
    freed := [] }

/-- Thread-begin events delivered one after the other; each entry names the thread the event
is delivered on and its `thread_type`. -/
def thread_begins (reg : Registry) (st : State) : List (Nat × Int) → Registry × State
  | [] => (reg, st)
  | e :: rest => thread_begins (apex_thread_begin reg st e.1 e.2).1
      (apex_thread_begin reg st e.1 e.2).2 rest

/-- The label `switch` of `apex_thread_begin`. -/
def thread_begin_str (thread_type : Int) : String :=
  if thread_type = ompt_thread_initial then "OpenMP Initial Thread"
  else if thread_type = ompt_thread_worker then "OpenMP Worker Thread"
  else if thread_type = ompt_thread_other then "OpenMP Other Thread"
  else "OpenMP Unknown Thread"

/-- The events the subscription policy of the spec selects, in the order of registration. -/
def subscription (high_overhead required_only : Bool) : List ompt_callbacks_t :=
  [.ompt_callback_thread_begin, .ompt_callback_thread_end, .ompt_callback_parallel_begin,
   .ompt_callback_parallel_end]
  ++ (if high_overhead then [.ompt_callback_task_create, .ompt_callback_task_schedule,
        .ompt_callback_implicit_task] else [])
  ++ (if required_only then [] else [.ompt_callback_work, .ompt_callback_master,
        .ompt_callback_flush, .ompt_callback_cancel])
  ++ (if high_overhead ∧ ¬ required_only then [.ompt_callback_sync_region_wait,
        .ompt_callback_sync_region] else [])

/-- The message `apex_ompt_register` prints when `ompt_set_callback` answers `0`. -/
def register_failure (rt : Runtime) (e : ompt_callbacks_t) (name : String) : List String :=
  if rt.set_callback e = 0 then ["\n\tFailed to register OMPT callback " ++ name ++ "!\n"]
  else []

/-- The names `ompt_initialize` gives the events, in the order of `subscription`. -/
def callback_name : ompt_callbacks_t → String
  | .ompt_callback_thread_begin => "thread_begin"
  | .ompt_callback_thread_end => "thread_end"
  | .ompt_callback_parallel_begin => "parallel_begin"
  | .ompt_callback_parallel_end => "parallel_end"
  | .ompt_callback_task_create => "task_create"
  | .ompt_callback_task_schedule => "task_schedule"
  | .ompt_callback_implicit_task => "implicit_task"
  | .ompt_callback_sync_region_wait => "sync_region_wait"
  | .ompt_callback_work => "work"
  | .ompt_callback_master => "master"
  | .ompt_callback_sync_region => "sync_region"
  | .ompt_callback_flush => "flush"
  | .ompt_callback_cancel => "cancel"

/-- The tool statics after `ompt_initialize` has looked the entry points up and requested
the events `es`. -/
def subscribed (rt : Runtime) (tool : Tool) (es : List ompt_callbacks_t) : Tool :=
  { fn := fun name => if name ∈ looked_up then rt.lookup name else tool.fn name
    requests := tool.requests ++ es
    stderr := tool.stderr ++ (es.map fun e => register_failure rt e (callback_name e)).flatten }

/-- An example runtime: every entry point resolved, every registration accepted, only the
mandatory events requested. -/
def plain_runtime : Runtime :=
  { lookup := fun _ => true
    set_callback := fun _ => 1
    ompt_high_overhead_events := false
    ompt_required_events_only := true }

/-- The cancel flags in the order `apex_ompt_cancel` tests them, each with its label. -/
def cancel_flag_labels : List (Int × String) :=
  [(ompt_cancel_parallel, "OpenMP Cancel Parallel"),
   (ompt_cancel_sections, "OpenMP Cancel Sections"),
   (ompt_cancel_loop, "OpenMP Cancel Do"),
   (ompt_cancel_taskgroup, "OpenMP Cancel Taskgroup"),
   (ompt_cancel_activated, "OpenMP Cancel Activated"),
   (ompt_cancel_detected, "OpenMP Cancel Detected"),
   (ompt_cancel_discarded_task, "OpenMP Cancel Discarded Task")]

/-- A base label, with the call-site suffix when the address is not null. -/
def with_addr (base : String) (codeptr_ra : Nat) : String :=
  if codeptr_ra ≠ 0 then base ++ ": UNRESOLVED ADDR " ++ fmt_p codeptr_ra else base

/-- One sample of value `1` per cancel flag set in `flags`, in the order of the flags. -/
def cancel_samples (flags : Int) (codeptr_ra : Nat) : List Call :=
  (cancel_flag_labels.filter fun p => Int.land flags p.1 ≠ 0).map
    fun p => Call.sample_value (with_addr p.2 codeptr_ra) 1

/-- The `sample_value` calls of a trace, in order. -/
def samples (T : List Call) : List (String × Nat) :=
  T.filterMap fun c => match c with
    | Call.sample_value name value => some (name, value)
    | _ => none

/-- The value of a hexadecimal digit as `%p` prints it. -/
def hex_value (c : Char) : Nat :=
  if c = '0' then 0 else if c = '1' then 1 else if c = '2' then 2 else if c = '3' then 3
  else if c = '4' then 4 else if c = '5' then 5 else if c = '6' then 6 else if c = '7' then 7
  else if c = '8' then 8 else if c = '9' then 9 else if c = 'a' then 10
  else if c = 'b' then 11 else if c = 'c' then 12 else if c = 'd' then 13
  else if c = 'e' then 14 else 15

/-- Reading a string of hexadecimal digits back, most significant digit first. -/
def read_hex (cs : List Char) : Nat :=
  cs.foldl (fun acc c => acc * 16 + hex_value c) 0

/-- The strings a trace hands to the engine as labels, in order: the names of `new_task`,
`sample_value`, `register_thread` and `init` calls. -/
def names (T : List Call) : List String :=
  T.filterMap fun c => match c with
    | Call.new_task name _ _ _ => some name
    | Call.sample_value name _ => some name
    | Call.register_thread name => some name
    | Call.init name _ _ => some name
    | _ => none

/-- Between `st` and `st'` the engine was handed exactly the labels `l`. -/
def passes (st st' : State) (l : List String) : Prop :=
  ∃ T, st'.trace = st.trace ++ T ∧ names T = l

/-- What is left of an event when the Context Slot pointers and the work count are
forgotten: the event kind, its subkind or flags, its endpoint and its call-site address. -/
def Event.signature : Event → Event
  | .thread_begin thread_type => .thread_begin thread_type
  | .thread_end => .thread_end
  | .parallel_begin _ _ codeptr_ra => .parallel_begin none none codeptr_ra
  | .parallel_end _ => .parallel_end none
  | .task_create _ _ type codeptr_ra => .task_create none none type codeptr_ra
  | .task_schedule _ status _ => .task_schedule none status none
  | .implicit_task endpoint _ _ flags => .implicit_task endpoint none none flags
  | .sync_region_wait kind endpoint _ _ codeptr_ra =>
    .sync_region_wait kind endpoint none none codeptr_ra
  | .work wstype endpoint _ _ _ codeptr_ra => .work wstype endpoint none none 0 codeptr_ra
  | .master endpoint _ _ codeptr_ra => .master endpoint none none codeptr_ra
  | .sync_region kind endpoint _ _ codeptr_ra => .sync_region kind endpoint none none codeptr_ra
  | .flush codeptr_ra => .flush codeptr_ra
  | .cancel _ flags codeptr_ra => .cancel none flags codeptr_ra

/-- The labels an event hands to the engine, read off its kind, flags, endpoint and call-site
address. -/
def event_names : Event → List String
  | .thread_begin thread_type => [thread_begin_str thread_type, thread_begin_str thread_type]
  | .thread_end => []
  | .parallel_begin _ _ codeptr_ra =>
    ["OpenMP Parallel Region: UNRESOLVED ADDR " ++ fmt_p codeptr_ra]
  | .parallel_end _ => []
  | .task_create _ _ type codeptr_ra => [with_addr (task_create_type_str type) codeptr_ra]
  | .task_schedule _ _ _ => []
  | .implicit_task endpoint _ _ flags =>
    if endpoint = ompt_scope_begin then
      [if flags = ompt_task_initial then "OpenMP Initial Task" else "OpenMP Implicit Task"]
    else []
  | .sync_region_wait kind endpoint _ _ codeptr_ra =>
    if endpoint = ompt_scope_begin then
      [with_addr ("OpenMP " ++ sync_region_wait_str kind) codeptr_ra]
    else []
  | .work wstype endpoint _ _ _ codeptr_ra =>
    if endpoint = ompt_scope_begin then
      [with_addr ("OpenMP Work " ++ work_str wstype) codeptr_ra,
       work_count_type wstype ++ ": " ++ with_addr ("OpenMP Work " ++ work_str wstype) codeptr_ra]
    else []
  | .master endpoint _ _ codeptr_ra =>
    if endpoint = ompt_scope_begin then [with_addr "OpenMP Master" codeptr_ra] else []
  | .sync_region kind endpoint _ _ codeptr_ra =>
    if endpoint = ompt_scope_begin then
      [with_addr ("OpenMP " ++ sync_region_str kind) codeptr_ra]
    else []
  | .flush codeptr_ra => [with_addr "OpenMP Flush" codeptr_ra]
  | .cancel _ flags codeptr_ra =>
    (cancel_flag_labels.filter fun p => Int.land flags p.1 ≠ 0).map
      fun p => with_addr p.2 codeptr_ra

/-- The base labels of the events that take a call-site address: what `event_names` gives
before the address is appended. -/
def event_bases : Event → List String
  | .parallel_begin _ _ _ => ["OpenMP Parallel Region"]
  | .task_create _ _ type _ => [task_create_type_str type]
  | .sync_region_wait kind endpoint _ _ _ =>
    if endpoint = ompt_scope_begin then ["OpenMP " ++ sync_region_wait_str kind] else []
  | .work wstype endpoint _ _ _ _ =>
    if endpoint = ompt_scope_begin then
      ["OpenMP Work " ++ work_str wstype,
       work_count_type wstype ++ ": " ++ ("OpenMP Work " ++ work_str wstype)]
    else []
  | .master endpoint _ _ _ => if endpoint = ompt_scope_begin then ["OpenMP Master"] else []
  | .sync_region kind endpoint _ _ _ =>
    if endpoint = ompt_scope_begin then ["OpenMP " ++ sync_region_str kind] else []
  | .flush _ => ["OpenMP Flush"]
  | .cancel _ flags _ =>
    (cancel_flag_labels.filter fun p => Int.land flags p.1 ≠ 0).map fun p => p.2
  | _ => []

/-- Whether the event kind takes a call-site address. -/
def Event.has_codeptr : Event → Bool
  | .parallel_begin _ _ _ => true
  | .task_create _ _ _ _ => true
  | .sync_region_wait _ _ _ _ _ => true
  | .work _ _ _ _ _ _ => true
  | .master _ _ _ _ => true
  | .sync_region _ _ _ _ _ => true
  | .flush _ => true
  | .cancel _ _ _ => true
  | _ => false

/-- The same event delivered from the call site `a`. -/
def Event.at_codeptr (a : Nat) : Event → Event
  | .parallel_begin enc par _ => .parallel_begin enc par a
  | .task_create enc new type _ => .task_create enc new type a
  | .sync_region_wait kind endpoint par task _ => .sync_region_wait kind endpoint par task a
  | .work wstype endpoint par task count _ => .work wstype endpoint par task count a
  | .master endpoint par task _ => .master endpoint par task a
  | .sync_region kind endpoint par task _ => .sync_region kind endpoint par task a
  | .flush _ => .flush a
  | .cancel task flags _ => .cancel task flags a
  | e => e

/-- Deliver callbacks in order, each on the thread named with it, stopping at the first
fault. -/
def run_dispatch (asserts : Bool) (reg : Registry) (st : State) :
    List (Nat × Event) → Except Fault (Registry × State)
  | [] => .ok (reg, st)
  | (self, e) :: es =>
    match dispatch asserts self reg st e with
    | .ok (r, s) => run_dispatch asserts r s es
    | .error f => .error f

/-- Following parent links: `st.reaches a b` when the pointer `a` is not null and `b` is `a`
itself or is met by following `prev` from `a` through live contexts. -/
inductive State.reaches (st : State) : Nat → Nat → Prop
  | here {a : Nat} : a ≠ 0 → st.reaches a a
  | link {a b : Nat} {t : linked_timer} :
      a ≠ 0 → st.heap a = some t → st.reaches t.prev b → st.reaches a b

/-- The context at address `a` is reachable from the Context Slot `d`: through the slot's
content and parent links. -/
def State.owns (st : State) (d a : Nat) : Prop := st.reaches (st.slots d) a

/-- The shape of the slots and the contexts: the contexts form chains through `prev`, each
chain hangs from one slot, and nothing live was deleted. -/
structure SlotChains (st : State) : Prop where
  live : ∀ a t, st.heap a = some t → a ≠ 0 ∧ a ≤ st.brk ∧ t.prev < a ∧ st.okPtr t.prev
  slot : ∀ d, st.okPtr (st.slots d)
  slot_inj : ∀ d d', st.slots d = st.slots d' → st.slots d ≠ 0 → d = d'
  prev_inj : ∀ a b ta tb, st.heap a = some ta → st.heap b = some tb → ta.prev = tb.prev →
    ta.prev ≠ 0 → a = b
  slot_prev : ∀ d a t, st.heap a = some t → t.prev ≠ 0 → st.slots d ≠ t.prev
  referred : ∀ a t, st.heap a = some t →
    (∃ d, st.slots d = a) ∨ ∃ b tb, st.heap b = some tb ∧ tb.prev = a
  freed : ∀ a, a ∈ st.freed → st.heap a = none ∧ a ≤ st.brk

/-- What a handler does to the slots and the contexts, engine calls aside: nothing; a new
context pushed on a slot; the context of a slot deleted and the slot rewound to its parent
link; the running flag of a live context written; or several of these in a row. -/
inductive Moves : State → State → Prop
  | same {a b : State} : b.slots = a.slots → b.heap = a.heap → b.brk = a.brk →
      b.freed = a.freed → Moves a b
  | push {a b : State} (d tw : Nat) (running : Bool) :
      b.slots = Function.update a.slots d (a.brk + 1) →
      b.heap = Function.update a.heap (a.brk + 1) (some ⟨a.slots d, tw, running⟩) →
      b.brk = a.brk + 1 → b.freed = a.freed → Moves a b
  | pop {a b : State} (d : Nat) (t : linked_timer) :
      a.slots d ≠ 0 → a.heap (a.slots d) = some t →
      b.slots = Function.update a.slots d t.prev →
      b.heap = Function.update a.heap (a.slots d) none →
      b.brk = a.brk → b.freed = a.freed ++ [a.slots d] → Moves a b
  | retime {a b : State} (c : Nat) (t : linked_timer) (running : Bool) :
      c ≠ 0 → a.heap c = some t → b.slots = a.slots →
      b.heap = Function.update a.heap c (some { t with timing := running }) →
      b.brk = a.brk → b.freed = a.freed → Moves a b
  | trans {a b c : State} : Moves a b → Moves b c → Moves a c

/-- The Begin callbacks of the paired events on the Context Slot `d`: parallel region begin
with `d` as its parallel slot, and implicit task, sync region wait, work, master and sync
region with endpoint begin and `d` as their task slot. -/
def Event.begins_on (d : Nat) : Event → Bool
  | .parallel_begin _ par _ => decide (par = some d)
  | .implicit_task endpoint _ task _ => decide (endpoint = ompt_scope_begin ∧ task = some d)
  | .sync_region_wait _ endpoint _ task _ =>
    decide (endpoint = ompt_scope_begin ∧ task = some d)
  | .work _ endpoint _ task _ _ => decide (endpoint = ompt_scope_begin ∧ task = some d)
  | .master endpoint _ task _ => decide (endpoint = ompt_scope_begin ∧ task = some d)
  | .sync_region _ endpoint _ task _ => decide (endpoint = ompt_scope_begin ∧ task = some d)
  | _ => false

/-- The End callbacks of the paired events on the Context Slot `d`: parallel region end, and
the other five with any endpoint but begin (the `else` branch of the handlers). -/
def Event.ends_on (d : Nat) : Event → Bool
  | .parallel_end par => decide (par = some d)
  | .implicit_task endpoint _ task _ => decide (endpoint ≠ ompt_scope_begin ∧ task = some d)
  | .sync_region_wait _ endpoint _ task _ =>
    decide (endpoint ≠ ompt_scope_begin ∧ task = some d)
  | .work _ endpoint _ task _ _ => decide (endpoint ≠ ompt_scope_begin ∧ task = some d)
  | .master endpoint _ task _ => decide (endpoint ≠ ompt_scope_begin ∧ task = some d)
  | .sync_region _ endpoint _ task _ => decide (endpoint ≠ ompt_scope_begin ∧ task = some d)
  | _ => false

/-- The enclosing slot a Begin callback hands to `apex_ompt_start`: the encountering task
for a parallel region, the parallel region for the others. -/
def Event.enclosing : Event → Option Nat
  | .parallel_begin enc _ _ => enc
  | .implicit_task _ par _ _ => par
  | .sync_region_wait _ _ par _ _ => par
  | .work _ _ par _ _ _ => par
  | .master _ par _ _ => par
  | .sync_region _ _ par _ _ => par
  | _ => none

/-- A string of at most `n` characters, each of them a one-byte (ASCII) character. -/
def fits (n : Nat) (s : String) : Prop := s.length ≤ n ∧ ∀ c ∈ s.data, c.toNat < 128

/-! ## What each operation returns -/

/-- Reading through the address of a live context succeeds. -/
theorem deref_live {st : State} {p : Nat} {t : linked_timer} (hp : p ≠ 0)
    (h : st.heap p = some t) : st.deref p = .ok t := by
  simp [State.deref, hp, h]

/-- The expression `new linked_timer(...)` always succeeds; this is the state it returns. -/
theorem new_linked_timer_eq (st : State) (name : String) (task_id p : Nat)
    (parent : Option Nat) (auto_start : Bool) :
    new_linked_timer st name task_id p parent auto_start =
      .ok (st.brk + 1,
        { slots := st.slots
          heap := Function.update st.heap (st.brk + 1) (some ⟨p, st.tasks + 1, auto_start⟩)
          brk := st.brk + 1
          tasks := st.tasks + 1
          trace := st.trace ++ Call.new_task name (if task_id = 0 then UINT64_MAX else task_id)
            parent (st.tasks + 1) :: (if auto_start then [Call.start (st.tasks + 1)] else [])
          freed := st.freed }) := by
  cases auto_start <;> by_cases h : task_id = 0 <;>
    simp [new_linked_timer, apex_new_task, linked_timer.start, State.store, State.emit,
      State.deref, h, bind, Except.bind, pure, Except.pure]

/-- Deleting a live context: one `stop` call when it is timing, then it is released. -/
theorem delete_linked_timer_eq {st : State} {p : Nat} {t : linked_timer} (hp : p ≠ 0)
    (h : st.heap p = some t) :
    delete_linked_timer st p =
      .ok { slots := st.slots
            heap := Function.update st.heap p none
            brk := st.brk
            tasks := st.tasks
            trace := st.trace ++ (if t.timing then [Call.stop t.tw] else [])
            freed := st.freed ++ [p] } := by
  cases ht : t.timing <;> simp [delete_linked_timer, hp, h, ht, State.emit]

/-- The helper `apex_ompt_start` succeeds whenever the enclosing slot it reads is null or
holds a live context. -/
theorem apex_ompt_start_eq (st : State) (name : String) (d : Nat) (region : Option Nat)
    (auto_start : Bool)
    (hreg : ∀ r, region = some r → st.slots d = 0 → st.okPtr (st.slots r)) :
    apex_ompt_start st name (some d) region auto_start =
      .ok (started st name d (engine_parent st d region) auto_start) := by
  cases region with
  | none =>
    simp [apex_ompt_start, cell, new_linked_timer_eq, engine_parent, started, State.setPtr,
      bind, Except.bind, pure, Except.pure]
  | some r =>
    by_cases hd : st.slots d = 0
    · by_cases hr : st.slots r = 0
      · simp [apex_ompt_start, cell, new_linked_timer_eq, engine_parent, started, State.setPtr,
          bind, Except.bind, pure, Except.pure, hd, hr]
      · rcases hreg r rfl hd with h0 | ⟨t, ht⟩
        · exact absurd h0 hr
        · simp [apex_ompt_start, cell, new_linked_timer_eq, engine_parent, started,
            State.setPtr, bind, Except.bind, pure, Except.pure, hd, hr, deref_live hr ht, ht]
    · simp [apex_ompt_start, cell, new_linked_timer_eq, engine_parent, started, State.setPtr,
        bind, Except.bind, pure, Except.pure, hd]

/-- The helper `apex_ompt_stop` on a slot holding a live context. -/
theorem apex_ompt_stop_eq (asserts : Bool) {st : State} {d : Nat} {t : linked_timer}
    (hc : st.slots d ≠ 0) (hlive : st.heap (st.slots d) = some t) :
    apex_ompt_stop asserts st (some d) = .ok (stopped st d (st.slots d) t) := by
  cases asserts <;>
    simp [apex_ompt_stop, cell, hc, deref_live hc hlive, delete_linked_timer_eq hc hlive,
      stopped, State.setPtr, bind, Except.bind, pure, Except.pure]

/-- The method `linked_timer::start` on a live context. -/
theorem linked_timer_start_eq {st : State} {p : Nat} {t : linked_timer} (hp : p ≠ 0)
    (h : st.heap p = some t) :
    linked_timer.start st p =
      .ok { st with trace := st.trace ++ [Call.start t.tw]
                    heap := Function.update st.heap p (some { t with timing := true }) } := by
  simp [linked_timer.start, deref_live hp h, State.emit, State.store, bind, Except.bind, pure,
    Except.pure]

/-- The method `linked_timer::yield` on a live context. -/
theorem linked_timer_yield_eq {st : State} {p : Nat} {t : linked_timer} (hp : p ≠ 0)
    (h : st.heap p = some t) :
    linked_timer.yield st p =
      .ok { st with trace := st.trace ++ [Call.yield t.tw]
                    heap := Function.update st.heap p (some { t with timing := false }) } := by
  simp [linked_timer.yield, deref_live hp h, State.emit, State.store, bind, Except.bind, pure,
    Except.pure]

/-- The example state is what a parallel-region begin on slot `1` followed by an
implicit-task begin on slot `2` (enclosing slot `1`) produce from the initial state. -/
theorem two_running_reachable :
    ∃ st1, apex_ompt_start State.init "OpenMP Parallel Region" (some 1) none true = .ok st1 ∧
      apex_ompt_start st1 "OpenMP Implicit Task" (some 2) (some 1) true = .ok two_running := by
  have h1 := apex_ompt_start_eq State.init "OpenMP Parallel Region" 1 none true
    (fun r hr _ => by cases hr)
  have h2 := apex_ompt_start_eq
    (started State.init "OpenMP Parallel Region" 1 (engine_parent State.init 1 none) true)
    "OpenMP Implicit Task" 2 (some 1) true
    (fun r hr _ => by cases hr; exact Or.inr ⟨⟨0, 1, true⟩, rfl⟩)
  refine ⟨_, h1, ?_⟩
  rw [h2]
  have h : ∀ (a b : State), a.slots = b.slots → a.heap = b.heap → a.brk = b.brk →
      a.tasks = b.tasks → a.trace = b.trace → a.freed = b.freed → a = b := by
    intro a b e1 e2 e3 e4 e5 e6
    cases a
    cases b
    simp_all
  refine congrArg Except.ok (h _ _ ?_ ?_ rfl rfl rfl rfl)
  · funext d
    show Function.update (Function.update (fun _ => 0) 1 1) 2 2 d = _
    by_cases h2 : d = 2
    · subst h2
      rfl
    · by_cases h1 : d = 1
      · subst h1
        rfl
      · simp [Function.update, h1, h2, two_running]
  · funext a
    show Function.update (Function.update (fun _ => none) 1
      (some (linked_timer.mk 0 1 true))) 2 (some (linked_timer.mk 0 2 true)) a = _
    by_cases h2 : a = 2
    · subst h2
      rfl
    · by_cases h1 : a = 1
      · subst h1
        rfl
      · simp [Function.update, h1, h2, two_running]

/-- Task create is `apex_ompt_start` with its label and `auto_start = false`. -/
theorem apex_task_create_eq (st : State) (enc new : Option Nat) (type : Int)
    (codeptr_ra : Nat) :
    apex_task_create st enc new type codeptr_ra =
      apex_ompt_start st (task_create_label type codeptr_ra) new enc false := by
  by_cases h : codeptr_ra = 0 <;> simp [apex_task_create, task_create_label, h]

/-- With no prior context, `apex_task_schedule` is its second half alone. -/
theorem schedule_prior_absent (st : State) (pr : Option Nat) (s : Int) (nx : Option Nat)
    (hpr : ∀ q, pr = some q → st.slots q = 0) :
    apex_task_schedule st pr s nx = start_next st nx := by
  cases pr with
  | none => simp [apex_task_schedule, start_next, bind, Except.bind, pure, Except.pure]
  | some q =>
    simp [apex_task_schedule, start_next, hpr q rfl, bind, Except.bind, pure, Except.pure]

/-- With a live prior context and status yield, detach or switch, the first half of
`apex_task_schedule` suspends that context. -/
theorem schedule_prior_yield {st : State} {p : Nat} {t : linked_timer} {s : Int}
    (nx : Option Nat)
    (hs : s = ompt_task_yield ∨ s = ompt_task_detach ∨ s = ompt_task_switch)
    (hp : st.slots p ≠ 0) (hlive : st.heap (st.slots p) = some t) :
    apex_task_schedule st (some p) s nx = start_next (yielded st (st.slots p) t) nx := by
  simp [apex_task_schedule, start_next, yielded, hp, hs, linked_timer_yield_eq hp hlive, bind,
    Except.bind, pure, Except.pure]

/-- With a live prior context and any other status, the first half of `apex_task_schedule`
deletes that context and rewinds its slot. -/
theorem schedule_prior_terminal {st : State} {p : Nat} {t : linked_timer} {s : Int}
    (nx : Option Nat)
    (hs : ¬ (s = ompt_task_yield ∨ s = ompt_task_detach ∨ s = ompt_task_switch))
    (hp : st.slots p ≠ 0) (hlive : st.heap (st.slots p) = some t) :
    apex_task_schedule st (some p) s nx = start_next (stopped st p (st.slots p) t) nx := by
  simp [apex_task_schedule, start_next, stopped, hp, hs, deref_live hp hlive,
    delete_linked_timer_eq hp hlive, State.setPtr, bind, Except.bind, pure, Except.pure]

/-- A null next slot: nothing is started. -/
theorem start_next_null {st : State} {n : Nat} (hn : st.slots n = 0) :
    start_next st (some n) = .ok st := by
  simp [start_next, cell, hn, bind, Except.bind, pure, Except.pure]

/-- A next slot holding a live context: that context is started. -/
theorem start_next_live {st : State} {n : Nat} {t : linked_timer} (hn : st.slots n ≠ 0)
    (hlive : st.heap (st.slots n) = some t) :
    start_next st (some n) =
      .ok { st with trace := st.trace ++ [Call.start t.tw]
                    heap := Function.update st.heap (st.slots n) (some { t with timing := true }) } := by
  simp [start_next, cell, hn, linked_timer_start_eq hn hlive, bind, Except.bind, pure,
    Except.pure]

/-- The `start` calls of two traces put together. -/
theorem starts_append (A B : List Call) : starts (A ++ B) = starts A ++ starts B := by
  simp [starts, List.filterMap_append]

/-- The `stop` calls of two traces put together. -/
theorem stops_append (A B : List Call) : stops (A ++ B) = stops A ++ stops B := by
  simp [stops, List.filterMap_append]

/-- Suspending and then starting a running context gives the context back. -/
theorem resume_timer (c : linked_timer) (hrun : c.timing = true) :
    ({ ({ c with timing := false } : linked_timer) with timing := true } : linked_timer) = c := by
  cases c
  simp_all

/-- Whatever the first half of `apex_task_schedule` does to another context, the second half
makes the one `start` call of the event, on the context held in the next slot. -/
theorem schedule_starts_next (st : State) (p : Nat) (x : linked_timer) (pr : Option Nat)
    (s : Int) (hp : st.slots p ≠ 0) (hlive : st.heap (st.slots p) = some x)
    (hpr : ∀ q, pr = some q → st.slots q = 0 ∨
      (st.slots q ≠ st.slots p ∧ ∃ t, st.heap (st.slots q) = some t)) :
    ∃ st2 T, apex_task_schedule st pr s (some p) = .ok st2 ∧
      st2.trace = st.trace ++ T ∧ starts T = [x.tw] ∧
      st2.heap (st.slots p) = some { x with timing := true } ∧ st2.slots p = st.slots p := by
  have next_half : ∀ (sm : State) (T0 : List Call), sm.slots p = st.slots p →
      sm.heap (st.slots p) = some x → sm.trace = st.trace ++ T0 → starts T0 = [] →
      ∃ st2 T, start_next sm (some p) = .ok st2 ∧
        st2.trace = st.trace ++ T ∧ starts T = [x.tw] ∧
        st2.heap (st.slots p) = some { x with timing := true } ∧
        st2.slots p = st.slots p := by
    intro sm T0 hs1 hh1 htr hst
    have hp1 : sm.slots p ≠ 0 := by rw [hs1]; exact hp
    have hheap1 : sm.heap (sm.slots p) = some x := by rw [hs1]; exact hh1
    rw [start_next_live hp1 hheap1]
    refine ⟨_, T0 ++ [Call.start x.tw], rfl, ?_, ?_, ?_, hs1⟩
    · show sm.trace ++ _ = _
      rw [htr, List.append_assoc]
    · rw [starts_append, hst]
      rfl
    · show Function.update sm.heap (sm.slots p) _ (st.slots p) = _
      rw [hs1, Function.update_same]
  by_cases habs : ∀ q, pr = some q → st.slots q = 0
  · rw [schedule_prior_absent st pr s _ habs]
    exact next_half st [] rfl hlive (by simp) rfl
  · obtain ⟨q, hq, hq0⟩ : ∃ q, pr = some q ∧ st.slots q ≠ 0 := by
      by_contra hcon
      exact habs fun q hq => by
        by_contra h0
        exact hcon ⟨q, hq, h0⟩
    subst hq
    rcases hpr q rfl with h0 | ⟨hne, t, ht⟩
    · exact absurd h0 hq0
    · by_cases hs' : s = ompt_task_yield ∨ s = ompt_task_detach ∨ s = ompt_task_switch
      · rw [schedule_prior_yield _ hs' hq0 ht]
        refine next_half _ [Call.yield t.tw] rfl ?_ rfl rfl
        show Function.update st.heap (st.slots q) _ (st.slots p) = _
        rw [Function.update_noteq (fun h => hne h.symm)]
        exact hlive
      · have hqp : p ≠ q := by
          intro h
          subst h
          exact hne rfl
        rw [schedule_prior_terminal _ hs' hq0 ht]
        refine next_half _ (if t.timing then [Call.stop t.tw] else []) ?_ ?_ rfl ?_
        · show Function.update st.slots q _ p = _
          rw [Function.update_noteq hqp]
        · show Function.update st.heap (st.slots q) _ (st.slots p) = _
          rw [Function.update_noteq (fun h => hne h.symm)]
          exact hlive
        · cases t.timing <;> rfl

/-- The `Begin` events of two sequences put together. -/
theorem begins_append (a b : List Ev) : begins (a ++ b) = begins a + begins b := by
  induction a with
  | nil => simp [begins]
  | cons e es ih =>
    cases e with
    | Begin name region => simp [begins, ih]; omega
    | End => simp [begins, ih]

/-- Running two sequences one after the other. -/
theorem run_events_append (asserts : Bool) (d : Nat) (a b : List Ev) :
    ∀ (st st1 : State), run_events asserts d st a = .ok st1 →
      run_events asserts d st (a ++ b) = run_events asserts d st1 b := by
  induction a with
  | nil =>
    intro st st1 h
    simp only [run_events, Except.ok.injEq] at h
    subst h
    rfl
  | cons e es ih =>
    intro st st1 h
    simp only [run_events, List.cons_append] at h ⊢
    cases hd : deliver asserts d st e with
    | error f => rw [hd] at h; cases h
    | ok s =>
      rw [hd] at h
      simp only at h ⊢
      exact ih s st1 h

/-- Every well-nested sequence runs to the end and is balanced. The allocator never hands
out a live address (`halloc`), and the enclosing slots named by the `Begin` events hold null
or a live context. -/
theorem run_well_nested (asserts : Bool) (d : Nat) {es : List Ev} (hes : WellNested es) :
    ∀ st : State, (∀ a, st.brk < a → st.heap a = none) →
      (∀ name r, Ev.Begin name (some r) ∈ es → st.okPtr (st.slots r)) →
      ∃ st', run_events asserts d st es = .ok st' ∧ Balanced es st st' := by
  induction hes with
  | nil =>
    intro st _ _
    exact ⟨st, rfl, rfl, rfl, rfl, ⟨[], by simp, by simp, by simp [begins]⟩,
      ⟨[], by simp, rfl⟩⟩
  | @nest name region es _ ih =>
    intro st halloc hreg
    have hbegin := apex_ompt_start_eq st name d region true
      (fun r hr _ => hreg name r (by rw [hr]; exact List.mem_cons_self _ _))
    generalize hst1 : started st name d (engine_parent st d region) true = st1 at hbegin
    have h1alloc : ∀ a, st1.brk < a → st1.heap a = none := by
      intro a ha
      subst hst1
      have ha' : st.brk + 1 < a := ha
      show Function.update st.heap (st.brk + 1) _ a = none
      rw [Function.update_noteq (by omega)]
      exact halloc a (by omega)
    have h1heap : st1.heap (st.brk + 1) = some ⟨st.slots d, st.tasks + 1, true⟩ := by
      subst hst1
      show Function.update st.heap (st.brk + 1) _ (st.brk + 1) = _
      rw [Function.update_same]
    have h1reg : ∀ name' r, Ev.Begin name' (some r) ∈ es → st1.okPtr (st1.slots r) := by
      intro name' r hr
      by_cases hrd : r = d
      · right
        subst hst1
        refine ⟨⟨st.slots d, st.tasks + 1, true⟩, ?_⟩
        show Function.update st.heap (st.brk + 1) _ (Function.update st.slots d _ r) = _
        rw [hrd, Function.update_same, Function.update_same]
      · have hsl : st1.slots r = st.slots r := by
          subst hst1
          show Function.update st.slots d _ r = _
          rw [Function.update_noteq hrd]
        rw [hsl]
        rcases hreg name' r (List.mem_cons_of_mem _ (List.mem_append_left _ hr)) with h0 | ⟨t, ht⟩
        · exact Or.inl h0
        · right
          refine ⟨t, ?_⟩
          have hne : st.slots r ≠ st.brk + 1 := by
            intro h
            rw [h, halloc (st.brk + 1) (Nat.lt_succ_self _)] at ht
            cases ht
          subst hst1
          show Function.update st.heap (st.brk + 1) _ (st.slots r) = _
          rw [Function.update_noteq hne]
          exact ht
    obtain ⟨st2, hrun2, hb⟩ := ih st1 h1alloc h1reg
    obtain ⟨F, hF, hFnd, hFmem⟩ := hb.freed
    obtain ⟨T, hT, hTc⟩ := hb.trace
    have h1brk : st1.brk = st.brk + 1 := by subst hst1; rfl
    have h1slots : st1.slots = Function.update st.slots d (st.brk + 1) := by subst hst1; rfl
    have h1hp : st1.heap = Function.update st.heap (st.brk + 1)
        (some ⟨st.slots d, st.tasks + 1, true⟩) := by subst hst1; rfl
    have h1freed : st1.freed = st.freed := by subst hst1; rfl
    have h1trace : st1.trace = st.trace ++ [Call.new_task name
        (if st.slots d = 0 then UINT64_MAX else st.slots d) (engine_parent st d region)
        (st.tasks + 1), Call.start (st.tasks + 1)] := by subst hst1; rfl
    have h2slot : st2.slots d = st.brk + 1 := by
      rw [hb.slots, h1slots, Function.update_same]
    have h2ne : st2.slots d ≠ 0 := by rw [h2slot]; exact Nat.succ_ne_zero _
    have h2live : st2.heap (st2.slots d) = some ⟨st.slots d, st.tasks + 1, true⟩ := by
      rw [h2slot, hb.heap]
      exact h1heap
    have hend := apex_ompt_stop_eq asserts h2ne h2live
    refine ⟨stopped st2 d (st2.slots d) ⟨st.slots d, st.tasks + 1, true⟩, ?_, ?_, ?_, ?_, ?_, ?_⟩
    · have hd1 : deliver asserts d st (Ev.Begin name region) = .ok st1 := hbegin
      have hd2 : run_events asserts d st2 [Ev.End]
          = .ok (stopped st2 d (st2.slots d) ⟨st.slots d, st.tasks + 1, true⟩) := by
        simp only [run_events, deliver, hend]
      simp only [run_events, hd1]
      rw [run_events_append asserts d es [Ev.End] st1 st2 hrun2, hd2]
    · show Function.update st2.slots d (st.slots d) = st.slots
      rw [hb.slots, h1slots, Function.update_idem, Function.update_eq_self]
    · show Function.update st2.heap (st2.slots d) none = st.heap
      rw [h2slot, hb.heap, h1hp, Function.update_idem, Function.update_eq_self_iff]
      exact (halloc _ (Nat.lt_succ_self _)).symm
    · show st2.brk = _
      rw [hb.brk, h1brk]
      simp only [begins, begins_append]
      omega
    · refine ⟨F ++ [st.brk + 1], ?_, ?_, ?_⟩
      · show st2.freed ++ [st2.slots d] = _
        rw [hF, h1freed, h2slot, List.append_assoc]
      · rw [List.nodup_append]
        refine ⟨hFnd, List.nodup_singleton _, ?_⟩
        intro a ha hb'
        rw [List.mem_singleton] at hb'
        have := (hFmem a).1 ha
        rw [h1brk] at this
        omega
      · intro a
        rw [List.mem_append, List.mem_singleton, hFmem a, h1brk]
        simp only [begins, begins_append]
        omega
    · refine ⟨[Call.new_task name (if st.slots d = 0 then UINT64_MAX else st.slots d)
        (engine_parent st d region) (st.tasks + 1), Call.start (st.tasks + 1)] ++ T
        ++ [Call.stop (st.tasks + 1)], ?_, ?_⟩
      · show st2.trace ++ [Call.stop (st.tasks + 1)] = _
        rw [hT, h1trace]
        simp
      · rw [starts_append, starts_append, stops_append, stops_append]
        simp only [List.length_append, hTc]
        have e1 : (starts [Call.new_task name (if st.slots d = 0 then UINT64_MAX else st.slots d)
            (engine_parent st d region) (st.tasks + 1), Call.start (st.tasks + 1)]).length = 1 :=
          rfl
        have e2 : (stops [Call.new_task name (if st.slots d = 0 then UINT64_MAX else st.slots d)
            (engine_parent st d region) (st.tasks + 1), Call.start (st.tasks + 1)]).length = 0 :=
          rfl
        have e3 : (starts [Call.stop (st.tasks + 1)]).length = 0 := rfl
        have e4 : (stops [Call.stop (st.tasks + 1)]).length = 1 := rfl
        rw [e1, e2, e3, e4]
        omega
  | @seq a b _ _ iha ihb =>
    intro st halloc hreg
    obtain ⟨st1, hrun1, hb1⟩ := iha st halloc
      (fun name r hr => hreg name r (List.mem_append_left _ hr))
    have h1alloc : ∀ x, st1.brk < x → st1.heap x = none := by
      intro x hx
      rw [hb1.heap]
      exact halloc x (by rw [hb1.brk] at hx; omega)
    have h1reg : ∀ name r, Ev.Begin name (some r) ∈ b → st1.okPtr (st1.slots r) := by
      intro name r hr
      have := hreg name r (List.mem_append_right _ hr)
      unfold State.okPtr at this ⊢
      rw [hb1.slots, hb1.heap]
      exact this
    obtain ⟨st2, hrun2, hb2⟩ := ihb st1 h1alloc h1reg
    obtain ⟨F1, hF1, hF1nd, hF1mem⟩ := hb1.freed
    obtain ⟨F2, hF2, hF2nd, hF2mem⟩ := hb2.freed
    obtain ⟨T1, hT1, hT1c⟩ := hb1.trace
    obtain ⟨T2, hT2, hT2c⟩ := hb2.trace
    refine ⟨st2, ?_, ?_, ?_, ?_, ?_, ?_⟩
    · rw [run_events_append asserts d a b st st1 hrun1, hrun2]
    · rw [hb2.slots, hb1.slots]
    · rw [hb2.heap, hb1.heap]
    · rw [hb2.brk, hb1.brk, begins_append]
      omega
    · refine ⟨F1 ++ F2, ?_, ?_, ?_⟩
      · rw [hF2, hF1, List.append_assoc]
      · rw [List.nodup_append]
        refine ⟨hF1nd, hF2nd, ?_⟩
        intro x hx1 hx2
        have h1 := (hF1mem x).1 hx1
        have h2 := (hF2mem x).1 hx2
        rw [hb1.brk] at h2
        omega
      · intro x
        rw [List.mem_append, hF1mem x, hF2mem x, hb1.brk, begins_append]
        omega
    · refine ⟨T1 ++ T2, ?_, ?_⟩
      · rw [hT2, hT1, List.append_assoc]
      · rw [starts_append, stops_append, List.length_append, List.length_append, hT1c, hT2c]

/-- A sequence accepted from depth `k + 1` closes its first open `Begin` after a well-nested
beginning; one accepted from depth `0` is well nested. -/
theorem nested_from_split (n : Nat) :
    ∀ (es : List Ev) (k : Nat), es.length ≤ n → nested_from k es = true →
      (k = 0 → WellNested es) ∧
      (∀ j, k = j + 1 → ∃ a b, es = a ++ Ev.End :: b ∧ WellNested a ∧
        nested_from j b = true ∧ b.length < es.length) := by
  induction n with
  | zero =>
    intro es k hlen h
    have : es = [] := List.length_eq_zero.mp (Nat.le_zero.mp hlen)
    subst this
    have hk : k = 0 := by simpa [nested_from] using h
    exact ⟨fun _ => WellNested.nil, fun j hj => by omega⟩
  | succ n ih =>
    intro es k hlen h
    cases es with
    | nil =>
      have hk : k = 0 := by simpa [nested_from] using h
      exact ⟨fun _ => WellNested.nil, fun j hj => by omega⟩
    | cons e es' =>
      have hlen' : es'.length ≤ n := by
        simp only [List.length_cons] at hlen
        omega
      cases e with
      | Begin name region =>
        have h' : nested_from (k + 1) es' = true := h
        obtain ⟨a, b, hes', hwa, hb, hblen⟩ := (ih es' (k + 1) hlen' h').2 k rfl
        have hbn : b.length ≤ n := by omega
        have hb2 := ih b k hbn hb
        constructor
        · intro hk
          have hwb := hb2.1 hk
          have : Ev.Begin name region :: es' = (Ev.Begin name region :: (a ++ [Ev.End])) ++ b := by
            rw [hes']
            simp
          rw [this]
          exact WellNested.seq (WellNested.nest name region hwa) hwb
        · intro j hj
          obtain ⟨a', b', hbe, hwa', hb', hb'len⟩ := hb2.2 j hj
          refine ⟨(Ev.Begin name region :: (a ++ [Ev.End])) ++ a', b', ?_,
            WellNested.seq (WellNested.nest name region hwa) hwa', hb', ?_⟩
          · rw [hes', hbe]
            simp
          · simp only [List.length_cons]
            omega
      | End =>
        cases k with
        | zero => simp [nested_from] at h
        | succ k' =>
          have h' : nested_from k' es' = true := h
          refine ⟨fun hk => by omega, fun j hj => ?_⟩
          have hjk : j = k' := by omega
          subst hjk
          exact ⟨[], es', rfl, WellNested.nil, h', by simp⟩

/-- The depth check accepts only well-nested sequences. -/
theorem wellNested_of_nested_from {es : List Ev} (h : nested_from 0 es = true) :
    WellNested es :=
  (nested_from_split es.length es 0 (Nat.le_refl _) h).1 rfl

/-! ## The properties -/

/-- Claim C1, stack balance. For every slot `d`, whatever it holds, and every well-nested
sequence `es` of `Begin` (`apex_ompt_start` with `auto_start = true`) and `End`
(`apex_ompt_stop`) events delivered to `d`, the run reaches the end without a fault and
afterwards: every slot, `d` included, holds what it held before; the live contexts are those
that were live before; the contexts created by the sequence (addresses `st.brk + 1` to
`st.brk + begins es`) are exactly the members of the list `F` of deletions the sequence made,
and `F` has no duplicate; the engine calls `T` of the sequence contain as many `stop` as
`start` calls. Assumed: `new` never returns the address of a live context, and each enclosing
slot named by a `Begin` holds null or a live context. -/
theorem stack_balance (asserts : Bool) (d : Nat) (es : List Ev) (st : State)
    (hes : nested_from 0 es = true)
    (halloc : ∀ a, st.brk < a → st.heap a = none)
    (hreg : ∀ name r, Ev.Begin name (some r) ∈ es → st.okPtr (st.slots r)) :
    ∃ st', run_events asserts d st es = .ok st' ∧
      st'.slots = st.slots ∧ st'.heap = st.heap ∧ st'.brk = st.brk + begins es ∧
      (∃ F, st'.freed = st.freed ++ F ∧ F.Nodup ∧
        ∀ a, a ∈ F ↔ (st.brk < a ∧ a ≤ st.brk + begins es)) ∧
      ∃ T, st'.trace = st.trace ++ T ∧ (starts T).length = (stops T).length := by
  obtain ⟨st', hrun, hb⟩ := run_well_nested asserts d (wellNested_of_nested_from hes) st
    halloc hreg
  exact ⟨st', hrun, hb.slots, hb.heap, hb.brk, hb.freed, hb.trace⟩

/-- Instance of C1: two nested pairs followed by a third pair on slot `1` of `two_running`. -/
theorem stack_balance_witness :
    nested_from 0 [Ev.Begin "a" none, Ev.Begin "b" (some 2), Ev.End, Ev.End,
      Ev.Begin "c" (some 1), Ev.End] = true ∧
    ∃ st', run_events true 1 two_running [Ev.Begin "a" none, Ev.Begin "b" (some 2), Ev.End,
        Ev.End, Ev.Begin "c" (some 1), Ev.End] = .ok st' ∧
      st'.slots 1 = 1 ∧ st'.brk = 5 :=
  ⟨rfl,
    let ⟨s, h1, h2, _, h3, _⟩ := stack_balance true 1
      [Ev.Begin "a" none, Ev.Begin "b" (some 2), Ev.End, Ev.End, Ev.Begin "c" (some 1), Ev.End]
      two_running rfl
      (fun a ha => by
        have h2 : 2 < a := ha
        show (if a = 1 then some _ else if a = 2 then some _ else none) = none
        rw [if_neg (by omega), if_neg (by omega)])
      (fun name r hr => by
        simp only [List.mem_cons, Ev.Begin.injEq, Option.some.injEq, List.mem_singleton,
          reduceCtorEq, and_false, false_or, or_false, List.not_mem_nil] at hr
        rcases hr with ⟨_, rfl⟩ | ⟨_, rfl⟩
        · exact Or.inr ⟨⟨0, 2, true⟩, rfl⟩
        · exact Or.inr ⟨⟨0, 1, true⟩, rfl⟩)
    ⟨s, h1, by rw [h2]; rfl, by rw [h3]; rfl⟩⟩

/-- Claim C3, yield does not finalize. Let slot `p` hold a running context `c`. A schedule
with `p` as prior and status yield, detach or switch (the next slot `n` holding null or a
live context other than `c`) makes exactly one `yield` call, on the task wrapper of `c`, and
no `stop` call; `c` is then not timing and still at its address, the slots are unchanged,
nothing is allocated (`brk`) and nothing is deleted (`freed`). From every later state in
which slot `p` still holds the suspended `c`, a schedule with `p` as next (its prior context
absent or another live context) makes exactly one `start` call, on the same task wrapper,
and `c` is running again in the same slot. -/
theorem yield_does_not_finalize (st : State) (p n : Nat) (c : linked_timer) (s : Int)
    (hs : s = ompt_task_yield ∨ s = ompt_task_detach ∨ s = ompt_task_switch)
    (hp : st.slots p ≠ 0) (hlive : st.heap (st.slots p) = some c) (hrun : c.timing = true)
    (hn : st.slots n = 0 ∨ (st.slots n ≠ st.slots p ∧ ∃ t, st.heap (st.slots n) = some t)) :
    (∃ st1 T, apex_task_schedule st (some p) s (some n) = .ok st1 ∧
      st1.trace = st.trace ++ T ∧ yields T = [c.tw] ∧ stops T = [] ∧
      st1.heap (st.slots p) = some { c with timing := false } ∧
      st1.slots = st.slots ∧ st1.brk = st.brk ∧ st1.freed = st.freed) ∧
    ∀ (st1 : State) (pr : Option Nat) (s' : Int),
      st1.slots p = st.slots p → st1.heap (st.slots p) = some { c with timing := false } →
      (∀ q, pr = some q → st1.slots q = 0 ∨
        (st1.slots q ≠ st.slots p ∧ ∃ t, st1.heap (st1.slots q) = some t)) →
      ∃ st2 T, apex_task_schedule st1 pr s' (some p) = .ok st2 ∧
        st2.trace = st1.trace ++ T ∧ starts T = [c.tw] ∧
        st2.heap (st.slots p) = some c ∧ st2.slots p = st.slots p := by
  constructor
  · rw [schedule_prior_yield _ hs hp hlive]
    have hy : (yielded st (st.slots p) c).heap (st.slots p)
        = some { c with timing := false } := by
      show Function.update st.heap (st.slots p) _ (st.slots p) = _
      rw [Function.update_same]
    by_cases hn0 : st.slots n = 0
    · have hn1 : (yielded st (st.slots p) c).slots n = 0 := hn0
      rw [start_next_null hn1]
      exact ⟨_, [Call.yield c.tw], rfl, rfl, rfl, rfl, hy, rfl, rfl, rfl⟩
    · rcases hn with hn | ⟨hne, t, ht⟩
      · exact absurd hn hn0
      · have hn1 : (yielded st (st.slots p) c).slots n ≠ 0 := hn0
        have hheap1 : (yielded st (st.slots p) c).heap ((yielded st (st.slots p) c).slots n)
            = some t := by
          show Function.update st.heap (st.slots p) _ (st.slots n) = _
          rw [Function.update_noteq hne]
          exact ht
        rw [start_next_live hn1 hheap1]
        refine ⟨_, [Call.yield c.tw, Call.start t.tw], rfl, ?_, rfl, rfl, ?_, rfl, rfl, rfl⟩
        · show (st.trace ++ _) ++ _ = _
          rw [List.append_assoc]
          rfl
        · show Function.update (Function.update st.heap (st.slots p) _) (st.slots n) _
            (st.slots p) = _
          rw [Function.update_noteq (fun h => hne h.symm), Function.update_same]
  · intro st1 pr s' hslot hheap hpr
    have hp1 : st1.slots p ≠ 0 := by rw [hslot]; exact hp
    have hheap1 : st1.heap (st1.slots p) = some { c with timing := false } := by
      rw [hslot]; exact hheap
    have hpr1 : ∀ q, pr = some q → st1.slots q = 0 ∨
        (st1.slots q ≠ st1.slots p ∧ ∃ t, st1.heap (st1.slots q) = some t) := by
      rw [hslot]; exact hpr
    obtain ⟨st2, T, h1, h2, h3, h4, h5⟩ :=
      schedule_starts_next st1 p _ pr s' hp1 hheap1 hpr1
    refine ⟨st2, T, h1, h2, h3, ?_, ?_⟩
    · rw [hslot, resume_timer c hrun] at h4
      exact h4
    · rw [h5, hslot]

/-- Instance of C3: the task of slot `1` of `two_running` yields to the empty slot `3`. -/
theorem yield_does_not_finalize_witness :
    two_running.slots 1 ≠ 0 ∧ two_running.slots 3 = 0 ∧
    ∃ st1 T, apex_task_schedule two_running (some 1) ompt_task_yield (some 3) = .ok st1 ∧
      st1.trace = two_running.trace ++ T ∧ yields T = [1] ∧ stops T = [] ∧
      st1.heap 1 = some ⟨0, 1, false⟩ ∧ st1.slots = two_running.slots :=
  ⟨by decide, rfl,
    let ⟨st1, T, h1, h2, h3, h4, h5, h6, _⟩ :=
      (yield_does_not_finalize two_running 1 3 ⟨0, 1, true⟩ ompt_task_yield (Or.inl rfl)
        (by decide) rfl rfl (Or.inl rfl)).1
    ⟨st1, T, h1, h2, h3, h4, h5, h6⟩⟩

/-- Claim C4 fails as stated: in `two_running` the enclosing slot `1` holds a context with
task wrapper `1`, yet a `Begin` on the occupied slot `2` hands the engine no parent. -/
theorem parent_preservation_counterexample :
    two_running.heap (two_running.slots 1) = some ⟨0, 1, true⟩ ∧
    ∃ st' id, apex_ompt_start two_running "OpenMP Work Loop" (some 2) (some 1) true = .ok st' ∧
      st'.trace = two_running.trace ++
        [Call.new_task "OpenMP Work Loop" id none 3, Call.start 3] :=
  ⟨rfl, _, _, rfl, rfl⟩

/-- Claim C4 as amended, parent of a new context. For `apex_ompt_start` on slot `d`, with any
`auto_start`: when `d` holds null and the enclosing slot `r` holds a live context `pt`, the
parent handed to the engine is the task wrapper of `pt`; when `d` already holds a context, no
parent is handed over, whatever the enclosing slot holds; when there is no enclosing slot or
it holds null, no parent is handed over. Task create is `apex_ompt_start` with
`auto_start = false`, the created task's slot as `d` and the encountering task's slot as the
enclosing slot. -/
theorem parent_is_enclosing_context (st : State) (name : String) (d : Nat)
    (auto_start : Bool) :
    (∀ (r : Nat) (pt : linked_timer), st.slots d = 0 → st.slots r ≠ 0 →
      st.heap (st.slots r) = some pt →
      ∃ st' id, apex_ompt_start st name (some d) (some r) auto_start = .ok st' ∧
        st'.trace = st.trace ++ Call.new_task name id (some pt.tw) (st.tasks + 1) ::
          (if auto_start then [Call.start (st.tasks + 1)] else [])) ∧
    (∀ region : Option Nat, st.slots d ≠ 0 →
      ∃ st' id, apex_ompt_start st name (some d) region auto_start = .ok st' ∧
        st'.trace = st.trace ++ Call.new_task name id none (st.tasks + 1) ::
          (if auto_start then [Call.start (st.tasks + 1)] else [])) ∧
    (∀ region : Option Nat, (∀ r, region = some r → st.slots r = 0) →
      ∃ st' id, apex_ompt_start st name (some d) region auto_start = .ok st' ∧
        st'.trace = st.trace ++ Call.new_task name id none (st.tasks + 1) ::
          (if auto_start then [Call.start (st.tasks + 1)] else [])) ∧
    ∀ (enc new : Option Nat) (type : Int) (codeptr_ra : Nat),
      ∃ label, apex_task_create st enc new type codeptr_ra =
        apex_ompt_start st label new enc false := by
  refine ⟨?_, ?_, ?_, ?_⟩
  · intro r pt hd hr hpt
    have h := apex_ompt_start_eq st name d (some r) auto_start
      (fun r' hr' _ => by cases hr'; exact Or.inr ⟨pt, hpt⟩)
    have hp : engine_parent st d (some r) = some pt.tw := by
      simp [engine_parent, hd, hr, hpt]
    rw [hp] at h
    exact ⟨_, _, h, rfl⟩
  · intro region hd
    have h := apex_ompt_start_eq st name d region auto_start (fun _ _ h0 => absurd h0 hd)
    have hp : engine_parent st d region = none := by
      cases region <;> simp [engine_parent, hd]
    rw [hp] at h
    exact ⟨_, _, h, rfl⟩
  · intro region hreg
    have h := apex_ompt_start_eq st name d region auto_start
      (fun r hr _ => Or.inl (hreg r hr))
    have hp : engine_parent st d region = none := by
      cases region with
      | none => rfl
      | some r => simp [engine_parent, hreg r rfl]
    rw [hp] at h
    exact ⟨_, _, h, rfl⟩
  · intro enc new type codeptr_ra
    exact ⟨_, apex_task_create_eq st enc new type codeptr_ra⟩

/-- Instance of C4 as amended: a task created on the null slot `3` under slot `1`. -/
theorem parent_is_enclosing_context_witness :
    two_running.slots 3 = 0 ∧ two_running.slots 1 ≠ 0 ∧
    two_running.heap (two_running.slots 1) = some ⟨0, 1, true⟩ ∧
    ∃ st' id, apex_ompt_start two_running "OpenMP Explicit Task" (some 3) (some 1) false
        = .ok st' ∧
      st'.trace = two_running.trace ++ [Call.new_task "OpenMP Explicit Task" id (some 1) 3] :=
  ⟨rfl, by decide, rfl,
    (parent_is_enclosing_context two_running "OpenMP Explicit Task" 3 false).1 1 ⟨0, 1, true⟩
      rfl (by decide) rfl⟩

/-- Claim C5, finalize. On a slot `d` holding a live context `c`, `apex_ompt_stop` succeeds;
it makes one `stop` call on the task wrapper of `c` when `c` is timing and no engine call
otherwise, removes `c` from the live contexts (one deletion), and stores `c.prev` in `d`,
leaving every other slot alone. -/
theorem finalize_stops_and_rewinds (asserts : Bool) (st : State) (d : Nat) (c : linked_timer)
    (hc : st.slots d ≠ 0) (hlive : st.heap (st.slots d) = some c) :
    ∃ st', apex_ompt_stop asserts st (some d) = .ok st' ∧
      st'.trace = st.trace ++ (if c.timing then [Call.stop c.tw] else []) ∧
      st'.heap = Function.update st.heap (st.slots d) none ∧
      st'.freed = st.freed ++ [st.slots d] ∧
      st'.slots = Function.update st.slots d c.prev ∧
      st'.brk = st.brk ∧ st'.tasks = st.tasks :=
  ⟨_, apex_ompt_stop_eq asserts hc hlive, rfl, rfl, rfl, rfl, rfl, rfl⟩

/-- Instance of C5: the end of the region of slot `2` of `two_running`. -/
theorem finalize_stops_and_rewinds_witness :
    two_running.slots 2 ≠ 0 ∧ two_running.heap (two_running.slots 2) = some ⟨0, 2, true⟩ ∧
    ∃ st', apex_ompt_stop true two_running (some 2) = .ok st' ∧
      st'.trace = two_running.trace ++ [Call.stop 2] ∧ st'.freed = [2] :=
  ⟨by decide, rfl,
    let ⟨s, h1, h2, _, h3, _⟩ :=
      finalize_stops_and_rewinds true two_running 2 ⟨0, 2, true⟩ (by decide) rfl
    ⟨s, h1, h2, h3⟩⟩

/-- Claim C6, create and `auto_start`. `apex_ompt_start` on slot `d` makes one `new_task`
call, answered with the task wrapper `st.tasks + 1`, followed by exactly one `start` call on
that task wrapper when `auto_start` is true and by nothing when it is false; the new context
(address `st.brk + 1`) has the flag `timing = auto_start`, its `prev` is what slot `d` held,
and slot `d` then holds the new context. `apex_task_create` always passes
`auto_start = false`. Assumed: when `d` holds null, the enclosing slot holds null or a live
context. -/
theorem create_auto_start (st : State) (name : String) (d : Nat) (region : Option Nat)
    (auto_start : Bool)
    (hreg : ∀ r, region = some r → st.slots d = 0 → st.okPtr (st.slots r)) :
    (∃ st' id parent, apex_ompt_start st name (some d) region auto_start = .ok st' ∧
      st'.trace = st.trace ++ Call.new_task name id parent (st.tasks + 1) ::
        (if auto_start then [Call.start (st.tasks + 1)] else []) ∧
      st'.heap (st.brk + 1) = some ⟨st.slots d, st.tasks + 1, auto_start⟩ ∧
      st'.slots d = st.brk + 1) ∧
    ∀ (enc new : Option Nat) (type : Int) (codeptr_ra : Nat),
      ∃ label, apex_task_create st enc new type codeptr_ra =
        apex_ompt_start st label new enc false := by
  refine ⟨⟨_, _, _, apex_ompt_start_eq st name d region auto_start hreg, rfl, ?_, ?_⟩, ?_⟩
  · simp [started]
  · simp [started]
  · intro enc new type codeptr_ra
    by_cases h : codeptr_ra = 0
    · exact ⟨task_create_type_str type, by simp [apex_task_create, h]⟩
    · exact ⟨task_create_type_str type ++ ": UNRESOLVED ADDR " ++ fmt_p codeptr_ra,
        by simp [apex_task_create, h]⟩

/-- Instance of C6: a master region begun on the null slot `3` under slot `2`. -/
theorem create_auto_start_witness :
    ∃ st' id parent, apex_ompt_start two_running "OpenMP Master" (some 3) (some 2) true
        = .ok st' ∧
      st'.trace = two_running.trace ++ [Call.new_task "OpenMP Master" id parent 3, Call.start 3] ∧
      st'.heap 3 = some ⟨0, 3, true⟩ ∧ st'.slots 3 = 3 :=
  (create_auto_start two_running "OpenMP Master" 3 (some 2) true
    (fun r hr _ => by cases hr; exact Or.inr ⟨⟨0, 2, true⟩, rfl⟩)).1

/-- Claim C7, absent contexts in a schedule transition. When the prior pointer is null or the
prior slot holds null, and the next slot holds null, `apex_task_schedule` returns the state
unchanged (no engine call, no slot written, no fault), for every status. -/
theorem schedule_absent_contexts (st : State) (pr : Option Nat) (s : Int) (n : Nat)
    (hpr : ∀ q, pr = some q → st.slots q = 0) (hn : st.slots n = 0) :
    apex_task_schedule st pr s (some n) = .ok st := by
  rw [schedule_prior_absent st pr s _ hpr, start_next_null hn]

/-- Instance of C7: a cancelled prior task and a next task, both without context. -/
theorem schedule_absent_contexts_witness :
    two_running.slots 3 = 0 ∧ two_running.slots 4 = 0 ∧
    apex_task_schedule two_running (some 3) ompt_task_cancel (some 4) = .ok two_running :=
  ⟨rfl, rfl,
    schedule_absent_contexts two_running (some 3) ompt_task_cancel 4
      (fun q hq => by cases hq; rfl) rfl⟩

/-- Claim C8 fails as stated: on a null slot `apex_ompt_stop` does not return, with the
assertion checked (it fails) and with the assertion compiled out (null is dereferenced). -/
theorem stop_on_null_counterexample :
    State.init.slots 1 = 0 ∧
    apex_ompt_stop true State.init (some 1) = .error Fault.assertion ∧
    apex_ompt_stop false State.init (some 1) = .error Fault.null_deref :=
  ⟨rfl, rfl, rfl⟩

/-- Claim C8 as amended, finalize on a null context. On a slot holding null
`apex_ompt_stop` faults before any engine call or write: the assertion failure when
`APEX_ASSERT` is checked, the dereference of the null context when it is not. -/
theorem stop_on_null_faults (asserts : Bool) (st : State) (d : Nat) (h : st.slots d = 0) :
    apex_ompt_stop asserts st (some d) =
      .error (if asserts then Fault.assertion else Fault.null_deref) := by
  cases asserts <;>
    simp [apex_ompt_stop, cell, h, State.deref, bind, Except.bind, pure, Except.pure, throw,
      throwThe, MonadExceptOf.throw]

/-- Instance of C8 as amended: an `End` on the null slot `3`, assertions compiled out. -/
theorem stop_on_null_faults_witness :
    two_running.slots 3 = 0 ∧
    apex_ompt_stop false two_running (some 3) = .error Fault.null_deref :=
  ⟨rfl, stop_on_null_faults false two_running 3 rfl⟩

/-- Claim C10, terminal statuses are equivalent. For every state, every prior and next
pointer and every status other than yield, detach and switch, `apex_task_schedule` returns
what it returns for status complete (same state and trace, or same fault). And with such a
status, when the prior slot `p` holds a live context `c` and the next slot holds, after the
rewinding of `p`, null or a live context other than `c`: the event succeeds, `c` is deleted
(one `stop` call on its task wrapper when it was timing, no `yield` call) and slot `p` holds
`c.prev`. -/
theorem terminal_statuses_equivalent (st : State) (pr nx : Option Nat) (s : Int)
    (hy : s ≠ ompt_task_yield) (hd : s ≠ ompt_task_detach) (hw : s ≠ ompt_task_switch) :
    apex_task_schedule st pr s nx = apex_task_schedule st pr ompt_task_complete nx ∧
    ∀ (p n : Nat) (c : linked_timer), pr = some p → nx = some n →
      st.slots p ≠ 0 → st.heap (st.slots p) = some c →
      (Function.update st.slots p c.prev n = 0 ∨
        (Function.update st.slots p c.prev n ≠ st.slots p ∧
          ∃ t, st.heap (Function.update st.slots p c.prev n) = some t)) →
      ∃ st' T, apex_task_schedule st pr s nx = .ok st' ∧
        st'.trace = st.trace ++ T ∧ stops T = (if c.timing then [c.tw] else []) ∧
        yields T = [] ∧ st'.heap (st.slots p) = none ∧ st'.freed = st.freed ++ [st.slots p] ∧
        st'.slots p = c.prev := by
  have hs : ¬ (s = ompt_task_yield ∨ s = ompt_task_detach ∨ s = ompt_task_switch) := by
    rintro (h | h | h)
    · exact hy h
    · exact hd h
    · exact hw h
  have hc : ¬ (ompt_task_complete = ompt_task_yield ∨ ompt_task_complete = ompt_task_detach
      ∨ ompt_task_complete = ompt_task_switch) := by decide
  constructor
  · simp only [apex_task_schedule, hs, hc, if_false]
  · intro p n c hpr hnx hp hlive hn
    subst hpr hnx
    rw [schedule_prior_terminal _ hs hp hlive]
    have hsl : (stopped st p (st.slots p) c).slots p = c.prev := by
      show Function.update st.slots p c.prev p = _
      rw [Function.update_same]
    have hhp : (stopped st p (st.slots p) c).heap (st.slots p) = none := by
      show Function.update st.heap (st.slots p) none (st.slots p) = _
      rw [Function.update_same]
    by_cases hn0 : Function.update st.slots p c.prev n = 0
    · have hn1 : (stopped st p (st.slots p) c).slots n = 0 := hn0
      rw [start_next_null hn1]
      refine ⟨_, _, rfl, rfl, ?_, ?_, hhp, rfl, hsl⟩
      · cases c.timing <;> rfl
      · cases c.timing <;> rfl
    · rcases hn with hn | ⟨hne, t, ht⟩
      · exact absurd hn hn0
      · have hn1 : (stopped st p (st.slots p) c).slots n ≠ 0 := hn0
        have hheap1 : (stopped st p (st.slots p) c).heap ((stopped st p (st.slots p) c).slots n)
            = some t := by
          show Function.update st.heap (st.slots p) none (Function.update st.slots p c.prev n) = _
          rw [Function.update_noteq hne]
          exact ht
        rw [start_next_live hn1 hheap1]
        refine ⟨_, (if c.timing then [Call.stop c.tw] else []) ++ [Call.start t.tw], rfl,
          ?_, ?_, ?_, ?_, rfl, hsl⟩
        · show (st.trace ++ _) ++ _ = _
          rw [List.append_assoc]
        · cases c.timing <;> rfl
        · cases c.timing <;> rfl
        · show Function.update (Function.update st.heap (st.slots p) none)
            (Function.update st.slots p c.prev n) _ (st.slots p) = _
          rw [Function.update_noteq (fun h => hne h.symm), Function.update_same]

/-- Instance of C10: the unrecognised status `42` behaves as complete. -/
theorem terminal_statuses_equivalent_witness :
    (42 : Int) ≠ ompt_task_yield ∧ (42 : Int) ≠ ompt_task_detach ∧
    (42 : Int) ≠ ompt_task_switch ∧
    apex_task_schedule two_running (some 1) 42 (some 2) =
      apex_task_schedule two_running (some 1) ompt_task_complete (some 2) :=
  ⟨by decide, by decide, by decide,
    (terminal_statuses_equivalent two_running (some 1) (some 2) 42 (by decide) (by decide)
      (by decide)).1⟩

/-! ## Labels, samples, the thread registry and the subscriptions -/

/-- What `apex_thread_begin` returns: the registry after the id assignment, and two engine
calls under the label of the thread type. -/
theorem apex_thread_begin_eq (reg : Registry) (st : State) (self : Nat) (thread_type : Int) :
    apex_thread_begin reg st self thread_type =
      (apex_threadid_assign reg self,
        { st with trace := st.trace ++ [Call.register_thread (thread_begin_str thread_type),
            Call.sample_value (thread_begin_str thread_type) 1] }) := by
  unfold apex_thread_begin thread_begin_str
  split_ifs <;> simp [State.emit]

/-- The registry after a run of thread-begin events of distinct threads that does not wrap
the counter. -/
theorem thread_begins_registry (ts : List (Nat × Int)) :
    ∀ (reg : Registry) (st : State), (ts.map Prod.fst).Nodup →
      reg.apex_numthreads + ts.length < 2 ^ 64 →
      (thread_begins reg st ts).1.apex_numthreads = reg.apex_numthreads + ts.length ∧
      (∀ i t ty, ts[i]? = some (t, ty) →
        (thread_begins reg st ts).1.apex_threadid t = reg.apex_numthreads + i) ∧
      ∀ t, t ∉ ts.map Prod.fst →
        (thread_begins reg st ts).1.apex_threadid t = reg.apex_threadid t := by
  induction ts with
  | nil =>
    intro reg st _ _
    exact ⟨rfl, fun i t ty h => by simp at h, fun t _ => rfl⟩
  | cons e rest ih =>
    intro reg st hnd hlt
    have hnd' : (rest.map Prod.fst).Nodup := (List.nodup_cons.mp hnd).2
    have hhead : e.1 ∉ rest.map Prod.fst := (List.nodup_cons.mp hnd).1
    have hlen : reg.apex_numthreads + (rest.length + 1) < 2 ^ 64 := hlt
    have hcount : (apex_thread_begin reg st e.1 e.2).1.apex_numthreads
        = reg.apex_numthreads + 1 := by
      rw [apex_thread_begin_eq]
      show (reg.apex_numthreads + 1) % 2 ^ 64 = _
      exact Nat.mod_eq_of_lt (by omega)
    have hid : ∀ t, (apex_thread_begin reg st e.1 e.2).1.apex_threadid t
        = if t = e.1 then reg.apex_numthreads else reg.apex_threadid t := by
      intro t
      rw [apex_thread_begin_eq]
      show Function.update reg.apex_threadid e.1 reg.apex_numthreads t = _
      by_cases h : t = e.1
      · rw [h, Function.update_same, if_pos rfl]
      · rw [Function.update_noteq h, if_neg h]
    obtain ⟨h1, h2, h3⟩ := ih (apex_thread_begin reg st e.1 e.2).1
      (apex_thread_begin reg st e.1 e.2).2 hnd' (by rw [hcount]; omega)
    refine ⟨?_, ?_, ?_⟩
    · show (thread_begins _ _ rest).1.apex_numthreads = _
      rw [h1, hcount, List.length_cons]
      omega
    · intro i t ty hi
      show (thread_begins _ _ rest).1.apex_threadid t = _
      cases i with
      | zero =>
        simp only [List.getElem?_cons_zero, Option.some.injEq] at hi
        have ht : e.1 = t := by rw [hi]
        rw [← ht, h3 e.1 hhead, hid, if_pos rfl]
        rfl
      | succ j =>
        simp only [List.getElem?_cons_succ] at hi
        rw [h2 j t ty hi, hcount]
        omega
    · intro t ht
      show (thread_begins _ _ rest).1.apex_threadid t = _
      have ht1 : t ≠ e.1 := fun h => ht (by rw [h]; exact List.mem_cons_self _ _)
      have ht2 : t ∉ rest.map Prod.fst := fun h => ht (List.mem_cons_of_mem _ h)
      rw [h3 t ht2, hid, if_neg ht1]

/-- One registration through a resolved `ompt_set_callback`. -/
theorem apex_ompt_register_eq (rt : Runtime) (tool : Tool) (e : ompt_callbacks_t)
    (name : String) (h : tool.fn "ompt_set_callback" = true) :
    apex_ompt_register rt tool e name =
      .ok { tool with requests := tool.requests ++ [e]
                      stderr := tool.stderr ++ register_failure rt e name } := by
  unfold apex_ompt_register register_failure
  rw [if_pos h]
  split_ifs <;> simp

/-- What `ompt_initialize` returns when the runtime resolves `ompt_set_callback`. -/
theorem ompt_initialize_eq (rt : Runtime) (self : Nat) (reg : Registry) (tool : Tool)
    (st : State) (h : rt.lookup "ompt_set_callback" = true) :
    ( ompt_initialize rt self reg tool st) =
      .ok (1, apex_threadid_assign reg self,
        subscribed rt tool (subscription rt.ompt_high_overhead_events
          rt.ompt_required_events_only),
        st.emit (Call.init "OpenMP Program" 0 1)) := by
  have hmem : "ompt_set_callback" ∈ looked_up := by decide
  have reg_eq : ∀ (t : Tool) (e : ompt_callbacks_t) (name : String),
      t.fn "ompt_set_callback" = true →
      apex_ompt_register rt t e name =
        .ok { fn := t.fn, requests := t.requests ++ [e],
              stderr := t.stderr ++ register_failure rt e name } :=
    fun t e name ht => apex_ompt_register_eq rt t e name ht
  have h0 : (fun name => if name ∈ looked_up then rt.lookup name else tool.fn name)
      "ompt_set_callback" = true := by
    show (if "ompt_set_callback" ∈ looked_up then _ else _) = true
    rw [if_pos hmem]
    exact h
  cases hh : rt.ompt_high_overhead_events <;> cases hr : rt.ompt_required_events_only <;>
    simp [ ompt_initialize, reg_eq, h0, hh, hr, subscribed, subscription, callback_name,
      bind, Except.bind, pure, Except.pure, List.append_assoc]

/-- One flag block of `apex_ompt_cancel`. -/
theorem cancel_sample_eq (st : State) (flags flag : Int) (base : String) (codeptr_ra : Nat) :
    cancel_sample st flags flag base codeptr_ra =
      { st with trace := st.trace ++ (if Int.land flags flag ≠ 0 then
          [Call.sample_value (with_addr base codeptr_ra) 1] else []) } := by
  unfold cancel_sample with_addr
  split_ifs <;> simp [State.emit]

/-- Consecutive flag blocks of `apex_ompt_cancel` append one sample per flag set. -/
theorem cancel_fold (flags : Int) (codeptr_ra : Nat) (ps : List (Int × String)) :
    ∀ st : State, ps.foldl (fun s p => cancel_sample s flags p.1 p.2 codeptr_ra) st =
      { st with trace := (st.trace ++ (ps.filter fun p => Int.land flags p.1 ≠ 0).map
          (fun p => Call.sample_value (with_addr p.2 codeptr_ra) 1)) } := by
  induction ps with
  | nil => intro st; simp
  | cons p ps ih =>
    intro st
    rw [List.foldl_cons, ih, cancel_sample_eq]
    by_cases h : Int.land flags p.1 = 0
    · simp [List.filter_cons, h]
    · simp [List.filter_cons, h]

/-- The handler `apex_ompt_cancel` is its samples followed by `apex_ompt_stop`. -/
theorem apex_ompt_cancel_eq (asserts : Bool) (st : State) (task_data : Option Nat)
    (flags : Int) (codeptr_ra : Nat) :
    apex_ompt_cancel asserts st task_data flags codeptr_ra =
      apex_ompt_stop asserts { st with trace := st.trace ++ cancel_samples flags codeptr_ra }
        task_data := by
  have h := cancel_fold flags codeptr_ra cancel_flag_labels st
  unfold cancel_samples
  rw [← h]
  rfl

/-- The samples of two traces put together. -/
theorem samples_append (A B : List Call) : samples (A ++ B) = samples A ++ samples B := by
  simp [samples, List.filterMap_append]

/-- The samples among the calls of the cancel flag blocks. -/
theorem samples_cancel_samples (flags : Int) (codeptr_ra : Nat) :
    samples (cancel_samples flags codeptr_ra) =
      (cancel_flag_labels.filter fun p => Int.land flags p.1 ≠ 0).map
        fun p => (with_addr p.2 codeptr_ra, 1) := by
  unfold cancel_samples
  induction (cancel_flag_labels.filter fun p => Int.land flags p.1 ≠ 0) with
  | nil => rfl
  | cons p ps ih =>
    show samples ([Call.sample_value (with_addr p.2 codeptr_ra) 1] ++ ps.map _) = _
    rw [samples_append, ih]
    rfl

/-- Reading back one printed digit. -/
theorem hex_value_digitChar (d : Nat) (h : d < 16) : hex_value (Nat.digitChar d) = d := by
  interval_cases d <;> decide

/-- Reading one more digit. -/
theorem read_hex_append_singleton (cs : List Char) (c : Char) :
    read_hex (cs ++ [c]) = read_hex cs * 16 + hex_value c := by
  simp [read_hex, List.foldl_append]

/-- The digits printed for `n` read back as `n`. -/
theorem toDigitsCore_hex (fuel : Nat) :
    ∀ (n : Nat) (ds : List Char), n < fuel →
      ∃ pre, Nat.toDigitsCore 16 fuel n ds = pre ++ ds ∧ read_hex pre = n := by
  induction fuel with
  | zero => intro n ds h; omega
  | succ fuel ih =>
    intro n ds h
    by_cases h0 : n / 16 = 0
    · refine ⟨[Nat.digitChar (n % 16)], ?_, ?_⟩
      · simp [Nat.toDigitsCore, h0]
      · have hn : n < 16 := by omega
        show 0 * 16 + hex_value (Nat.digitChar (n % 16)) = n
        rw [hex_value_digitChar _ (Nat.mod_lt _ (by decide))]
        omega
    · have hlt : n / 16 < fuel := by omega
      obtain ⟨pre, hpre, hval⟩ := ih (n / 16) (Nat.digitChar (n % 16) :: ds) hlt
      refine ⟨pre ++ [Nat.digitChar (n % 16)], ?_, ?_⟩
      · simp [Nat.toDigitsCore, h0, hpre]
      · rw [read_hex_append_singleton, hval,
          hex_value_digitChar _ (Nat.mod_lt _ (by decide))]
        omega

/-- The hexadecimal digits of a number determine it. -/
theorem read_hex_toDigits (n : Nat) : read_hex (Nat.toDigits 16 n) = n := by
  obtain ⟨pre, hpre, hval⟩ := toDigitsCore_hex (n + 1) n [] (Nat.lt_succ_self n)
  unfold Nat.toDigits
  rw [hpre, List.append_nil, hval]

/-- The conversion `%p` gives different strings for different non-null addresses. -/
theorem fmt_p_injective {a b : Nat} (ha : a ≠ 0) (hb : b ≠ 0) (h : fmt_p a = fmt_p b) :
    a = b := by
  unfold fmt_p at h
  rw [if_neg ha, if_neg hb] at h
  have h1 := congrArg String.data h
  simp only [String.data_append] at h1
  have h2 := List.append_cancel_left h1
  rw [← read_hex_toDigits a, ← read_hex_toDigits b, h2]

/-- A base label followed by the suffixes of two different call sites. -/
theorem label_injective (base : String) {a b : Nat} (ha : a ≠ 0) (hb : b ≠ 0) (hab : a ≠ b) :
    base ++ ": UNRESOLVED ADDR " ++ fmt_p a ≠ base ++ ": UNRESOLVED ADDR " ++ fmt_p b := by
  intro h
  have h1 := congrArg String.data h
  simp only [String.data_append] at h1
  have h2 := List.append_cancel_left h1
  exact hab (fmt_p_injective ha hb (String.ext h2))

/-- The labels of two traces put together. -/
theorem names_append (A B : List Call) : names (A ++ B) = names A ++ names B := by
  simp [names, List.filterMap_append]

/-- No engine call, no label. -/
theorem passes_refl (st : State) : passes st st [] := ⟨[], by simp, rfl⟩

/-- Labels handed over in two consecutive steps. -/
theorem passes_trans {a b c : State} {l1 l2 : List String} (h1 : passes a b l1)
    (h2 : passes b c l2) : passes a c (l1 ++ l2) := by
  obtain ⟨T1, e1, n1⟩ := h1
  obtain ⟨T2, e2, n2⟩ := h2
  exact ⟨T1 ++ T2, by rw [e2, e1, List.append_assoc], by rw [names_append, n1, n2]⟩

/-- The labels of the calls a step appended. -/
theorem passes_names {st st' : State} {l : List String} (h : passes st st' l) :
    names (st'.trace.drop st.trace.length) = l := by
  obtain ⟨T, e, n⟩ := h
  rw [e, List.drop_left, n]

/-- A successful read through a pointer: it was not null and the context is live. -/
theorem deref_ok {st : State} {p : Nat} {t : linked_timer} (h : st.deref p = .ok t) :
    p ≠ 0 ∧ st.heap p = some t := by
  unfold State.deref at h
  by_cases hp : p = 0
  · rw [if_pos hp] at h; cases h
  · rw [if_neg hp] at h
    cases hh : st.heap p with
    | none => rw [hh] at h; cases h
    | some t' =>
      rw [hh] at h
      simp only [Except.ok.injEq] at h
      exact ⟨hp, by rw [h]⟩

/-- A sequence of two steps that succeeds: both steps succeeded. -/
theorem bind_ok {α β : Type} {x : Except Fault α} {f : α → Except Fault β} {b : β}
    (h : (x >>= f) = .ok b) : ∃ a, x = .ok a ∧ f a = .ok b := by
  cases x with
  | error e => cases h
  | ok a => exact ⟨a, rfl, h⟩

/-- A mapped result that succeeds. -/
theorem map_ok {α β : Type} {x : Except Fault α} {f : α → β} {b : β}
    (h : x.map f = .ok b) : ∃ a, x = .ok a ∧ f a = b := by
  cases x with
  | error e => cases h
  | ok a =>
    simp only [Except.map, Except.ok.injEq] at h
    exact ⟨a, rfl, h⟩

/-- The method `linked_timer::start` hands over no label. -/
theorem linked_timer_start_passes {st st' : State} {p : Nat}
    (h : linked_timer.start st p = .ok st') : passes st st' [] := by
  obtain ⟨t, ht, hs⟩ := bind_ok h
  obtain ⟨hp, hl⟩ := deref_ok ht
  rw [linked_timer_start_eq hp hl] at h
  simp only [Except.ok.injEq] at h
  subst h
  exact ⟨[Call.start t.tw], rfl, rfl⟩

/-- The method `linked_timer::yield` hands over no label. -/
theorem linked_timer_yield_passes {st st' : State} {p : Nat}
    (h : linked_timer.yield st p = .ok st') : passes st st' [] := by
  obtain ⟨t, ht, hs⟩ := bind_ok h
  obtain ⟨hp, hl⟩ := deref_ok ht
  rw [linked_timer_yield_eq hp hl] at h
  simp only [Except.ok.injEq] at h
  subst h
  exact ⟨[Call.yield t.tw], rfl, rfl⟩

/-- Deleting a context hands over no label. -/
theorem delete_linked_timer_passes {st st' : State} {p : Nat}
    (h : delete_linked_timer st p = .ok st') : passes st st' [] := by
  by_cases hp : p = 0
  · simp only [delete_linked_timer, hp, if_true, Except.ok.injEq] at h
    subst h
    exact passes_refl st
  · cases hh : st.heap p with
    | none => simp [delete_linked_timer, hp, hh] at h
    | some t =>
      rw [delete_linked_timer_eq hp hh] at h
      simp only [Except.ok.injEq] at h
      subst h
      refine ⟨if t.timing then [Call.stop t.tw] else [], rfl, ?_⟩
      cases t.timing <;> rfl

/-- Writing a slot does not touch the trace. -/
theorem setPtr_passes {a b : State} {l : List String} (d v : Nat) (h : passes a b l) :
    passes a (b.setPtr d v) l := h

/-- The helper `apex_ompt_stop` hands over no label. -/
theorem apex_ompt_stop_passes {asserts : Bool} {st st' : State} {od : Option Nat}
    (h : apex_ompt_stop asserts st od = .ok st') : passes st st' [] := by
  unfold apex_ompt_stop at h
  obtain ⟨d, _, h⟩ := bind_ok h
  by_cases hc : (asserts && st.slots d == 0) = true
  · simp [hc, bind, Except.bind, throw, throwThe, MonadExceptOf.throw] at h
  · simp only [hc] at h
    obtain ⟨_, _, h⟩ := bind_ok h
    obtain ⟨t, _, h⟩ := bind_ok h
    obtain ⟨s1, hdel, h⟩ := bind_ok h
    simp only [pure, Except.pure, Except.ok.injEq] at h
    subst h
    exact setPtr_passes _ _ (delete_linked_timer_passes hdel)

/-- The expression `new linked_timer(...)` hands over its label. -/
theorem new_linked_timer_passes (st : State) (name : String) (task_id p : Nat)
    (parent : Option Nat) (auto_start : Bool) {r : Nat × State}
    (h : new_linked_timer st name task_id p parent auto_start = .ok r) :
    passes st r.2 [name] := by
  rw [new_linked_timer_eq] at h
  simp only [Except.ok.injEq] at h
  subst h
  refine ⟨_, rfl, ?_⟩
  cases auto_start <;> rfl

/-- The helper `apex_ompt_start` hands over its label and nothing else. -/
theorem apex_ompt_start_passes {st st' : State} {name : String} {od rd : Option Nat}
    {auto_start : Bool} (h : apex_ompt_start st name od rd auto_start = .ok st') :
    passes st st' [name] := by
  unfold apex_ompt_start at h
  obtain ⟨d, _, h⟩ := bind_ok h
  have key : ∀ (parent : Option Nat) (id p : Nat),
      (new_linked_timer st name id p parent auto_start >>= fun r =>
        (pure (r.2.setPtr d r.1) : Except Fault State)) = .ok st' → passes st st' [name] := by
    intro parent id p hk
    obtain ⟨r, hr, hk⟩ := bind_ok hk
    simp only [pure, Except.pure, Except.ok.injEq] at hk
    subst hk
    exact setPtr_passes _ _ (new_linked_timer_passes _ _ _ _ _ _ hr)
  by_cases hc : st.slots d = 0 ∧ rd ≠ none
  · simp only [hc, and_self, ne_eq, not_false_eq_true, if_true] at h
    obtain ⟨r, _, h⟩ := bind_ok h
    by_cases hp : st.slots r = 0
    · simp only [hp, not_true_eq_false, if_false] at h
      exact key none _ _ h
    · simp only [hp, not_false_eq_true, if_true] at h
      obtain ⟨pt, _, h⟩ := bind_ok h
      exact key (some pt.tw) _ _ h
  · simp only [hc, if_false] at h
    exact key none _ _ h

/-- The handler `apex_task_schedule` hands over no label. -/
theorem apex_task_schedule_passes {st st' : State} {pr nx : Option Nat} {s : Int}
    (h : apex_task_schedule st pr s nx = .ok st') : passes st st' [] := by
  unfold apex_task_schedule at h
  obtain ⟨s1, hprior, h⟩ := bind_ok h
  obtain ⟨nd, _, h⟩ := bind_ok h
  have h1 : passes st s1 [] := by
    cases pr with
    | none =>
      simp only [pure, Except.pure, Except.ok.injEq] at hprior
      subst hprior
      exact passes_refl st
    | some pd =>
      simp only at hprior
      by_cases hp : st.slots pd = 0
      · simp only [hp, ne_eq, not_true_eq_false, if_false, pure, Except.pure,
          Except.ok.injEq] at hprior
        subst hprior
        exact passes_refl st
      · simp only [hp, ne_eq, not_false_eq_true, if_true] at hprior
        by_cases hs : s = ompt_task_yield ∨ s = ompt_task_detach ∨ s = ompt_task_switch
        · simp only [hs, if_true] at hprior
          exact linked_timer_yield_passes hprior
        · simp only [hs, if_false] at hprior
          obtain ⟨t, _, hprior⟩ := bind_ok hprior
          obtain ⟨s2, hdel, hprior⟩ := bind_ok hprior
          simp only [pure, Except.pure, Except.ok.injEq] at hprior
          subst hprior
          exact setPtr_passes _ _ (delete_linked_timer_passes hdel)
  have h2 : passes s1 st' [] := by
    simp only at h
    by_cases hn : s1.slots nd = 0
    · simp only [hn, ne_eq, not_true_eq_false, if_false, pure, Except.pure,
        Except.ok.injEq] at h
      subst h
      exact passes_refl s1
    · simp only [hn, ne_eq, not_false_eq_true, if_true] at h
      exact linked_timer_start_passes h
  exact passes_trans h1 h2

/-- The labels among the calls of the cancel flag blocks. -/
theorem names_cancel_samples (flags : Int) (codeptr_ra : Nat) :
    names (cancel_samples flags codeptr_ra) =
      (cancel_flag_labels.filter fun p => Int.land flags p.1 ≠ 0).map
        fun p => with_addr p.2 codeptr_ra := by
  unfold cancel_samples
  induction (cancel_flag_labels.filter fun p => Int.land flags p.1 ≠ 0) with
  | nil => rfl
  | cons p ps ih =>
    show names ([Call.sample_value (with_addr p.2 codeptr_ra) 1] ++ ps.map _) = _
    rw [names_append, ih]
    rfl

/-- The labels of an event depend on its signature only. -/
theorem event_names_signature (e : Event) : event_names e.signature = event_names e := by
  cases e <;> rfl

/-- The handler `apex_ompt_work` hands over the timer label and the derived sample name. -/
theorem apex_ompt_work_passes {asserts : Bool} {st st' : State} {wstype endpoint : Int}
    {par task : Option Nat} {count codeptr_ra : Nat}
    (h : apex_ompt_work asserts st wstype endpoint par task count codeptr_ra = .ok st') :
    passes st st' (event_names (.work wstype endpoint par task count codeptr_ra)) := by
  unfold apex_ompt_work at h
  unfold event_names with_addr
  by_cases he : endpoint = ompt_scope_begin
  · simp only [he, if_true] at h ⊢
    by_cases hc : codeptr_ra = 0
    · simp only [hc, ne_eq, not_true_eq_false, if_false] at h ⊢
      obtain ⟨s1, hs, h⟩ := bind_ok h
      simp only [pure, Except.pure, Except.ok.injEq] at h
      subst h
      exact passes_trans (apex_ompt_start_passes hs) ⟨[_], rfl, rfl⟩
    · simp only [hc, ne_eq, not_false_eq_true, if_true] at h ⊢
      obtain ⟨s1, hs, h⟩ := bind_ok h
      simp only [pure, Except.pure, Except.ok.injEq] at h
      subst h
      exact passes_trans (apex_ompt_start_passes hs) ⟨[_], rfl, rfl⟩
  · simp only [he, if_false] at h ⊢
    exact apex_ompt_stop_passes h

/-- Every handler that returns has handed the engine the labels of its event. -/
theorem dispatch_passes {asserts : Bool} {self : Nat} {reg r : Registry} {st st' : State}
    {e : Event} (h : dispatch asserts self reg st e = .ok (r, st')) :
    passes st st' (event_names e) := by
  cases e with
  | thread_begin thread_type =>
    simp only [dispatch, Except.ok.injEq] at h
    rw [apex_thread_begin_eq] at h
    simp only [Prod.mk.injEq] at h
    obtain ⟨_, rfl⟩ := h
    exact ⟨_, rfl, rfl⟩
  | thread_end =>
    simp only [dispatch, Except.ok.injEq, Prod.mk.injEq] at h
    obtain ⟨_, rfl⟩ := h
    exact ⟨[Call.exit_thread], rfl, rfl⟩
  | parallel_begin enc par codeptr_ra =>
    obtain ⟨s, hs, he⟩ := map_ok h
    simp only [Prod.mk.injEq] at he
    obtain ⟨_, rfl⟩ := he
    exact apex_ompt_start_passes hs
  | parallel_end par =>
    obtain ⟨s, hs, he⟩ := map_ok h
    simp only [Prod.mk.injEq] at he
    obtain ⟨_, rfl⟩ := he
    exact apex_ompt_stop_passes hs
  | task_create enc new type codeptr_ra =>
    obtain ⟨s, hs, he⟩ := map_ok h
    simp only [Prod.mk.injEq] at he
    obtain ⟨_, rfl⟩ := he
    rw [apex_task_create_eq] at hs
    exact apex_ompt_start_passes hs
  | task_schedule prior status next =>
    obtain ⟨s, hs, he⟩ := map_ok h
    simp only [Prod.mk.injEq] at he
    obtain ⟨_, rfl⟩ := he
    exact apex_task_schedule_passes hs
  | implicit_task endpoint par task flags =>
    obtain ⟨s, hs, he⟩ := map_ok h
    simp only [Prod.mk.injEq] at he
    obtain ⟨_, rfl⟩ := he
    unfold apex_implicit_task at hs
    unfold event_names
    by_cases hb : endpoint = ompt_scope_begin
    · simp only [hb, if_true] at hs ⊢
      by_cases hf : flags = ompt_task_initial
      · simp only [hf, if_true] at hs ⊢
        exact apex_ompt_start_passes hs
      · simp only [hf, if_false] at hs ⊢
        exact apex_ompt_start_passes hs
    · simp only [hb, if_false] at hs ⊢
      exact apex_ompt_stop_passes hs
  | sync_region_wait kind endpoint par task codeptr_ra =>
    obtain ⟨s, hs, he⟩ := map_ok h
    simp only [Prod.mk.injEq] at he
    obtain ⟨_, rfl⟩ := he
    unfold apex_sync_region_wait at hs
    unfold event_names with_addr
    by_cases hb : endpoint = ompt_scope_begin
    · simp only [hb, if_true] at hs ⊢
      by_cases hc : codeptr_ra = 0
      · simp only [hc, ne_eq, not_true_eq_false, if_false] at hs ⊢
        exact apex_ompt_start_passes hs
      · simp only [hc, ne_eq, not_false_eq_true, if_true] at hs ⊢
        exact apex_ompt_start_passes hs
    · simp only [hb, if_false] at hs ⊢
      exact apex_ompt_stop_passes hs
  | work wstype endpoint par task count codeptr_ra =>
    obtain ⟨s, hs, he⟩ := map_ok h
    simp only [Prod.mk.injEq] at he
    obtain ⟨_, rfl⟩ := he
    exact apex_ompt_work_passes hs
  | master endpoint par task codeptr_ra =>
    obtain ⟨s, hs, he⟩ := map_ok h
    simp only [Prod.mk.injEq] at he
    obtain ⟨_, rfl⟩ := he
    unfold apex_ompt_master at hs
    unfold event_names with_addr
    by_cases hb : endpoint = ompt_scope_begin
    · simp only [hb, if_true] at hs ⊢
      by_cases hc : codeptr_ra = 0
      · simp only [hc, ne_eq, not_true_eq_false, if_false] at hs ⊢
        exact apex_ompt_start_passes hs
      · simp only [hc, ne_eq, not_false_eq_true, if_true] at hs ⊢
        exact apex_ompt_start_passes hs
    · simp only [hb, if_false] at hs ⊢
      exact apex_ompt_stop_passes hs
  | sync_region kind endpoint par task codeptr_ra =>
    obtain ⟨s, hs, he⟩ := map_ok h
    simp only [Prod.mk.injEq] at he
    obtain ⟨_, rfl⟩ := he
    unfold apex_ompt_sync_region at hs
    unfold event_names with_addr
    by_cases hb : endpoint = ompt_scope_begin
    · simp only [hb, if_true] at hs ⊢
      by_cases hc : codeptr_ra = 0
      · simp only [hc, ne_eq, not_true_eq_false, if_false] at hs ⊢
        exact apex_ompt_start_passes hs
      · simp only [hc, ne_eq, not_false_eq_true, if_true] at hs ⊢
        exact apex_ompt_start_passes hs
    · simp only [hb, if_false] at hs ⊢
      exact apex_ompt_stop_passes hs
  | flush codeptr_ra =>
    simp only [dispatch, Except.ok.injEq, Prod.mk.injEq] at h
    obtain ⟨_, rfl⟩ := h
    unfold apex_ompt_flush event_names with_addr
    by_cases hc : codeptr_ra = 0
    · simp only [hc, ne_eq, not_true_eq_false, if_false]
      exact ⟨[_], rfl, rfl⟩
    · simp only [hc, ne_eq, not_false_eq_true, if_true]
      exact ⟨[_], rfl, rfl⟩
  | cancel task flags codeptr_ra =>
    obtain ⟨s, hs, he⟩ := map_ok h
    simp only [Prod.mk.injEq] at he
    obtain ⟨_, rfl⟩ := he
    rw [apex_ompt_cancel_eq] at hs
    have h1 : passes st { st with trace := st.trace ++ cancel_samples flags codeptr_ra }
        (event_names (.cancel task flags codeptr_ra)) :=
      ⟨cancel_samples flags codeptr_ra, rfl, names_cancel_samples flags codeptr_ra⟩
    have h2 := passes_trans h1 (apex_ompt_stop_passes hs)
    rw [List.append_nil] at h2
    exact h2

/-- From a non-null call site, the labels are the base labels with the suffix appended. -/
theorem event_names_at_codeptr (e : Event) (a : Nat) (he : e.has_codeptr = true)
    (ha : a ≠ 0) :
    event_names (e.at_codeptr a) =
      (event_bases e).map fun base => base ++ ": UNRESOLVED ADDR " ++ fmt_p a := by
  cases e with
  | thread_begin thread_type => cases he
  | thread_end => cases he
  | parallel_end par => cases he
  | task_schedule prior status next => cases he
  | implicit_task endpoint par task flags => cases he
  | parallel_begin enc par codeptr_ra => rfl
  | task_create enc new type codeptr_ra =>
    simp [Event.at_codeptr, event_names, event_bases, with_addr, ha]
  | sync_region_wait kind endpoint par task codeptr_ra =>
    by_cases hb : endpoint = ompt_scope_begin <;>
      simp [Event.at_codeptr, event_names, event_bases, with_addr, ha, hb]
  | work wstype endpoint par task count codeptr_ra =>
    by_cases hb : endpoint = ompt_scope_begin <;>
      simp [Event.at_codeptr, event_names, event_bases, with_addr, ha, hb,
        String.append_assoc]
  | master endpoint par task codeptr_ra =>
    by_cases hb : endpoint = ompt_scope_begin <;>
      simp [Event.at_codeptr, event_names, event_bases, with_addr, ha, hb]
  | sync_region kind endpoint par task codeptr_ra =>
    by_cases hb : endpoint = ompt_scope_begin <;>
      simp [Event.at_codeptr, event_names, event_bases, with_addr, ha, hb]
  | flush codeptr_ra =>
    simp [Event.at_codeptr, event_names, event_bases, with_addr, ha]
  | cancel task flags codeptr_ra =>
    simp [Event.at_codeptr, event_names, event_bases, with_addr, ha, List.map_map,
      Function.comp]

/-! ## The properties of the labels, the samples and the registry -/

/-- Claim C12, label determinism. Two deliveries of events with the same kind, subkind or
flags, endpoint and call-site address hand the engine the same labels, whatever the two
states (Context Slots, live contexts, traces), the slot pointers of the events, the work
count, the delivering threads and the two registries; the labels are those `event_names`
reads off the signature. -/
theorem label_determinism (a1 a2 : Bool) (self1 self2 : Nat) (reg1 reg2 r1 r2 : Registry)
    (st1 st2 st1' st2' : State) (e1 e2 : Event)
    (hsig : e1.signature = e2.signature)
    (h1 : dispatch a1 self1 reg1 st1 e1 = .ok (r1, st1'))
    (h2 : dispatch a2 self2 reg2 st2 e2 = .ok (r2, st2')) :
    names (st1'.trace.drop st1.trace.length) = names (st2'.trace.drop st2.trace.length) ∧
    names (st1'.trace.drop st1.trace.length) = event_names e1.signature := by
  have n1 := passes_names (dispatch_passes h1)
  have n2 := passes_names (dispatch_passes h2)
  rw [n1, n2, event_names_signature, ← event_names_signature e2, ← hsig,
    event_names_signature]
  exact ⟨rfl, rfl⟩

/-- Instance of C12: a work-loop begin from call site `5`, delivered in `two_running` and in
the initial state with other slots, count, thread and registry. -/
theorem label_determinism_witness :
    ∃ r1 s1 r2 s2,
      dispatch true 0 Registry.init two_running
        (.work ompt_work_loop ompt_scope_begin (some 1) (some 3) 10 5) = .ok (r1, s1) ∧
      dispatch false 4 { apex_numthreads := 9, apex_threadid := fun _ => 3 } State.init
        (.work ompt_work_loop ompt_scope_begin none (some 1) 99 5) = .ok (r2, s2) ∧
      names (s1.trace.drop two_running.trace.length)
        = names (s2.trace.drop State.init.trace.length) :=
  ⟨_, _, _, _, rfl, rfl,
    (label_determinism true false 0 4 Registry.init
      { apex_numthreads := 9, apex_threadid := fun _ => 3 } _ _ two_running State.init _ _
      (.work ompt_work_loop ompt_scope_begin (some 1) (some 3) 10 5)
      (.work ompt_work_loop ompt_scope_begin none (some 1) 99 5) rfl rfl rfl).1⟩

/-- Claim C13, call sites are not aliased. For every event kind with a call-site address and
every two distinct non-null addresses `a` and `b`: the labels handed to the engine from `a`
are the base labels of the kind, each followed by ": UNRESOLVED ADDR " and `%p` of `a`,
likewise for `b` with the same base labels, and a base label followed by the two suffixes
gives two different strings. -/
theorem call_sites_not_aliased (e : Event) (a b : Nat) (he : e.has_codeptr = true)
    (ha : a ≠ 0) (hb : b ≠ 0) (hab : a ≠ b) :
    (∀ (asserts : Bool) (self : Nat) (reg r : Registry) (st st' : State),
      dispatch asserts self reg st (e.at_codeptr a) = .ok (r, st') →
      names (st'.trace.drop st.trace.length) =
        (event_bases e).map fun base => base ++ ": UNRESOLVED ADDR " ++ fmt_p a) ∧
    (∀ (asserts : Bool) (self : Nat) (reg r : Registry) (st st' : State),
      dispatch asserts self reg st (e.at_codeptr b) = .ok (r, st') →
      names (st'.trace.drop st.trace.length) =
        (event_bases e).map fun base => base ++ ": UNRESOLVED ADDR " ++ fmt_p b) ∧
    ∀ base : String,
      base ++ ": UNRESOLVED ADDR " ++ fmt_p a ≠ base ++ ": UNRESOLVED ADDR " ++ fmt_p b := by
  refine ⟨?_, ?_, fun base => label_injective base ha hb hab⟩
  · intro asserts self reg r st st' h
    rw [passes_names (dispatch_passes h), event_names_at_codeptr e a he ha]
  · intro asserts self reg r st st' h
    rw [passes_names (dispatch_passes h), event_names_at_codeptr e b he hb]

/-- Instance of C13: a barrier begun from the call sites `0x1000` and `0x1010`. -/
theorem call_sites_not_aliased_witness :
    ∃ ra sa rb sb,
      dispatch true 0 Registry.init two_running
        (.sync_region ompt_sync_region_barrier ompt_scope_begin (some 1) (some 3) 4096)
        = .ok (ra, sa) ∧
      dispatch true 0 Registry.init two_running
        (.sync_region ompt_sync_region_barrier ompt_scope_begin (some 1) (some 3) 4112)
        = .ok (rb, sb) ∧
      names (sa.trace.drop two_running.trace.length)
        = ["OpenMP Barrier: UNRESOLVED ADDR 0x1000"] ∧
      names (sb.trace.drop two_running.trace.length)
        = ["OpenMP Barrier: UNRESOLVED ADDR 0x1010"] :=
  have h := call_sites_not_aliased
    (.sync_region ompt_sync_region_barrier ompt_scope_begin (some 1) (some 3) 0) 4096 4112
    rfl (by decide) (by decide) (by decide)
  ⟨_, _, _, _, rfl, rfl,
    (h.1 true 0 Registry.init _ two_running _ rfl).trans (by decide),
    (h.2.1 true 0 Registry.init _ two_running _ rfl).trans (by decide)⟩

/-- Claim C14 fails as stated: the label of the region begun from call site `0x1` is
"OpenMP Parallel Region: UNRESOLVED ADDR 0x1", not "Parallel Region: UNRESOLVED ADDR 0x1". -/
theorem parallel_region_scenario_counterexample :
    ∃ st1 st2, apex_parallel_region_begin State.init none (some 1) 1 = .ok st1 ∧
      apex_parallel_region_end true st1 (some 1) = .ok st2 ∧
      st2.trace = [Call.new_task "OpenMP Parallel Region: UNRESOLVED ADDR 0x1" UINT64_MAX none 1,
        Call.start 1, Call.stop 1] ∧
      "OpenMP Parallel Region: UNRESOLVED ADDR 0x1" ≠ "Parallel Region: UNRESOLVED ADDR 0x1" :=
  ⟨_, _, rfl, rfl, by decide, by decide⟩

/-- Claim C14 as amended, scenario 1. A parallel region begun with call-site address `0x1` on
a null slot and then ended: both events succeed; the engine calls are one `new_task` with
the label "OpenMP Parallel Region: UNRESOLVED ADDR 0x1", one `start` and one `stop` on its
task wrapper; the slot of the region is null afterwards. Assumed: the encountering task's
slot holds null or a live context. -/
theorem parallel_region_scenario (asserts : Bool) (st : State) (enc : Option Nat) (par : Nat)
    (hpar : st.slots par = 0) (henc : ∀ e, enc = some e → st.okPtr (st.slots e)) :
    ∃ st1 st2 parent, apex_parallel_region_begin st enc (some par) 1 = .ok st1 ∧
      apex_parallel_region_end asserts st1 (some par) = .ok st2 ∧
      st2.trace = st.trace ++
        [Call.new_task "OpenMP Parallel Region: UNRESOLVED ADDR 0x1" UINT64_MAX parent
          (st.tasks + 1), Call.start (st.tasks + 1), Call.stop (st.tasks + 1)] ∧
      starts (st2.trace.drop st.trace.length) = [st.tasks + 1] ∧
      stops (st2.trace.drop st.trace.length) = [st.tasks + 1] ∧
      st2.slots par = 0 := by
  have hb := apex_ompt_start_eq st "OpenMP Parallel Region: UNRESOLVED ADDR 0x1" par enc true
    (fun r hr _ => henc r hr)
  have hlabel : "OpenMP Parallel Region: UNRESOLVED ADDR " ++ fmt_p 1
      = "OpenMP Parallel Region: UNRESOLVED ADDR 0x1" := by decide
  generalize hst1 : started st "OpenMP Parallel Region: UNRESOLVED ADDR 0x1" par
    (engine_parent st par enc) true = st1 at hb
  have h1slot : st1.slots par = st.brk + 1 := by
    subst hst1
    show Function.update st.slots par _ par = _
    rw [Function.update_same]
  have h1ne : st1.slots par ≠ 0 := by rw [h1slot]; exact Nat.succ_ne_zero _
  have h1live : st1.heap (st1.slots par) = some ⟨0, st.tasks + 1, true⟩ := by
    rw [h1slot]
    subst hst1
    show Function.update st.heap (st.brk + 1) _ (st.brk + 1) = _
    rw [Function.update_same, hpar]
  have h1trace : st1.trace = st.trace ++
      [Call.new_task "OpenMP Parallel Region: UNRESOLVED ADDR 0x1" UINT64_MAX
        (engine_parent st par enc) (st.tasks + 1), Call.start (st.tasks + 1)] := by
    subst hst1
    show st.trace ++ _ = _
    rw [if_pos hpar]
    rfl
  have he := apex_ompt_stop_eq asserts h1ne h1live
  have htr : (stopped st1 par (st1.slots par) ⟨0, st.tasks + 1, true⟩).trace = st.trace ++
      [Call.new_task "OpenMP Parallel Region: UNRESOLVED ADDR 0x1" UINT64_MAX
        (engine_parent st par enc) (st.tasks + 1), Call.start (st.tasks + 1),
        Call.stop (st.tasks + 1)] := by
    show st1.trace ++ [Call.stop (st.tasks + 1)] = _
    rw [h1trace, List.append_assoc]
    rfl
  refine ⟨st1, _, engine_parent st par enc, ?_, he, htr, ?_, ?_, ?_⟩
  · unfold apex_parallel_region_begin
    rw [hlabel]
    exact hb
  · rw [htr, List.drop_left]
    rfl
  · rw [htr, List.drop_left]
    rfl
  · show Function.update st1.slots par 0 par = 0
    rw [Function.update_same]

/-- Instance of C14 as amended: a region begun on the null slot `3` inside `two_running`. -/
theorem parallel_region_scenario_witness :
    two_running.slots 3 = 0 ∧
    ∃ st1 st2 parent, apex_parallel_region_begin two_running (some 2) (some 3) 1 = .ok st1 ∧
      apex_parallel_region_end false st1 (some 3) = .ok st2 ∧
      st2.trace = two_running.trace ++
        [Call.new_task "OpenMP Parallel Region: UNRESOLVED ADDR 0x1" UINT64_MAX parent 3,
          Call.start 3, Call.stop 3] ∧
      st2.slots 3 = 0 :=
  ⟨rfl,
    let ⟨s1, s2, p, h1, h2, h3, _, _, h4⟩ :=
      parallel_region_scenario false two_running (some 2) 3 rfl
        (fun e he => by cases he; exact Or.inr ⟨⟨0, 2, true⟩, rfl⟩)
    ⟨s1, s2, p, h1, h2, h3, h4⟩⟩

/-- Claim C15, cancel with combined flags. On a task slot holding a live context `c`,
`apex_ompt_cancel` succeeds; it makes one `sample_value` call of value `1` for each cancel
flag set in `flags`, in the order parallel, sections, loop, taskgroup, activated, detected,
discarded task, each named after its flag (with the call-site suffix when the address is
not null), and then deletes `c`, the context of the task slot: one `stop` call when `c` is
timing, one deletion, the slot rewound to `c.prev`. For parallel|taskgroup the samples are
the two of those flags. -/
theorem cancel_samples_then_finalize (asserts : Bool) (st : State) (d : Nat)
    (c : linked_timer) (flags : Int) (codeptr_ra : Nat)
    (hd : st.slots d ≠ 0) (hlive : st.heap (st.slots d) = some c) :
    (∃ st', apex_ompt_cancel asserts st (some d) flags codeptr_ra = .ok st' ∧
      st'.trace = st.trace ++ cancel_samples flags codeptr_ra
        ++ (if c.timing then [Call.stop c.tw] else []) ∧
      st'.freed = st.freed ++ [st.slots d] ∧
      st'.heap = Function.update st.heap (st.slots d) none ∧
      st'.slots = Function.update st.slots d c.prev) ∧
    cancel_samples (Int.lor ompt_cancel_parallel ompt_cancel_taskgroup) codeptr_ra =
      [Call.sample_value (if codeptr_ra ≠ 0 then
          "OpenMP Cancel Parallel: UNRESOLVED ADDR " ++ fmt_p codeptr_ra
          else "OpenMP Cancel Parallel") 1,
       Call.sample_value (if codeptr_ra ≠ 0 then
          "OpenMP Cancel Taskgroup: UNRESOLVED ADDR " ++ fmt_p codeptr_ra
          else "OpenMP Cancel Taskgroup") 1] := by
  constructor
  · rw [apex_ompt_cancel_eq]
    have hd' : ({ st with trace := st.trace ++ cancel_samples flags codeptr_ra } : State).slots d
        ≠ 0 := hd
    have hlive' : ({ st with trace := st.trace ++ cancel_samples flags codeptr_ra } : State).heap
        (({ st with trace := st.trace ++ cancel_samples flags codeptr_ra } : State).slots d)
        = some c := hlive
    exact ⟨_, apex_ompt_stop_eq asserts hd' hlive', rfl, rfl, rfl, rfl⟩
  · have hf : (cancel_flag_labels.filter fun p =>
        Int.land (Int.lor ompt_cancel_parallel ompt_cancel_taskgroup) p.1 ≠ 0)
        = [(ompt_cancel_parallel, "OpenMP Cancel Parallel"),
           (ompt_cancel_taskgroup, "OpenMP Cancel Taskgroup")] := by decide
    unfold cancel_samples
    rw [hf]
    rfl

/-- Instance of C15: cancel with parallel|taskgroup on slot `2` of `two_running`. -/
theorem cancel_samples_then_finalize_witness :
    two_running.slots 2 ≠ 0 ∧
    ∃ st', apex_ompt_cancel true two_running (some 2)
        (Int.lor ompt_cancel_parallel ompt_cancel_taskgroup) 0 = .ok st' ∧
      st'.trace = two_running.trace ++
        [Call.sample_value "OpenMP Cancel Parallel" 1,
         Call.sample_value "OpenMP Cancel Taskgroup" 1, Call.stop 2] ∧
      st'.freed = [2] :=
  ⟨by decide,
    let ⟨⟨s, h1, h2, h3, _⟩, h4⟩ := cancel_samples_then_finalize true two_running 2 ⟨0, 2, true⟩
      (Int.lor ompt_cancel_parallel ompt_cancel_taskgroup) 0 (by decide) rfl
    ⟨s, h1, by rw [h2, h4]; rfl, h3⟩⟩

/-- Claim C16 fails as stated: a cancel with parallel|taskgroup on slot `2` of `two_running`
contributes two samples, deletes the context of the slot and leaves the slot null. -/
theorem cancel_single_shot_counterexample :
    two_running.slots 2 = 2 ∧
    ∃ st', apex_ompt_cancel true two_running (some 2)
        (Int.lor ompt_cancel_parallel ompt_cancel_taskgroup) 0 = .ok st' ∧
      samples (st'.trace.drop two_running.trace.length) =
        [("OpenMP Cancel Parallel", 1), ("OpenMP Cancel Taskgroup", 1)] ∧
      st'.slots 2 = 0 ∧ st'.freed = [2] ∧ st'.heap 2 = none :=
  ⟨rfl, _, rfl, by decide, rfl, rfl, rfl⟩

/-- Claim C16 as amended, effect of a cancel event. On a task slot `d` holding a live context
`c`, a cancel event creates no context (`brk` and `tasks` unchanged), contributes as many
samples as cancel flags are set in `flags`, each of value `1`, and finalizes `c`: the slot
`d` receives `c.prev`, `c` is deleted, and every other slot and every other context is
unchanged. -/
theorem cancel_samples_and_rewinds (asserts : Bool) (st : State) (d : Nat)
    (c : linked_timer) (flags : Int) (codeptr_ra : Nat)
    (hd : st.slots d ≠ 0) (hlive : st.heap (st.slots d) = some c) :
    ∃ st' T, apex_ompt_cancel asserts st (some d) flags codeptr_ra = .ok st' ∧
      st'.trace = st.trace ++ T ∧
      (samples T).length
        = (cancel_flag_labels.filter fun p => Int.land flags p.1 ≠ 0).length ∧
      (∀ s ∈ samples T, s.2 = 1) ∧
      st'.brk = st.brk ∧ st'.tasks = st.tasks ∧
      st'.slots d = c.prev ∧ (∀ x, x ≠ d → st'.slots x = st.slots x) ∧
      st'.heap (st.slots d) = none ∧
      (∀ a, a ≠ st.slots d → st'.heap a = st.heap a) ∧
      st'.freed = st.freed ++ [st.slots d] := by
  rw [apex_ompt_cancel_eq]
  have hd' : ({ st with trace := st.trace ++ cancel_samples flags codeptr_ra } : State).slots d
      ≠ 0 := hd
  have hlive' : ({ st with trace := st.trace ++ cancel_samples flags codeptr_ra } : State).heap
      (({ st with trace := st.trace ++ cancel_samples flags codeptr_ra } : State).slots d)
      = some c := hlive
  have hs : samples (cancel_samples flags codeptr_ra ++ (if c.timing then [Call.stop c.tw]
      else [])) = (cancel_flag_labels.filter fun p => Int.land flags p.1 ≠ 0).map
        fun p => (with_addr p.2 codeptr_ra, 1) := by
    rw [samples_append, samples_cancel_samples]
    cases c.timing <;> simp [samples]
  refine ⟨_, cancel_samples flags codeptr_ra ++ (if c.timing then [Call.stop c.tw] else []),
    apex_ompt_stop_eq asserts hd' hlive', ?_, ?_, ?_, rfl, rfl, ?_, ?_, ?_, ?_, rfl⟩
  · show (st.trace ++ _) ++ _ = _
    rw [List.append_assoc]
  · rw [hs, List.length_map]
  · intro s hsm
    rw [hs] at hsm
    obtain ⟨p, _, rfl⟩ := List.mem_map.mp hsm
    rfl
  · show Function.update st.slots d c.prev d = _
    rw [Function.update_same]
  · intro x hx
    show Function.update st.slots d c.prev x = _
    rw [Function.update_noteq hx]
  · show Function.update st.heap (st.slots d) none (st.slots d) = _
    rw [Function.update_same]
  · intro a ha
    show Function.update st.heap (st.slots d) none a = _
    rw [Function.update_noteq ha]

/-- Instance of C16 as amended: cancel with the loop flag on slot `2` of `two_running`. -/
theorem cancel_samples_and_rewinds_witness :
    two_running.slots 2 ≠ 0 ∧
    ∃ st', apex_ompt_cancel false two_running (some 2) ompt_cancel_loop 0 = .ok st' ∧
      st'.brk = two_running.brk ∧ st'.slots 2 = 0 ∧ st'.slots 1 = 1 :=
  ⟨by decide,
    let ⟨s, _, h1, _, _, _, h2, _, h3, h4, _⟩ :=
      cancel_samples_and_rewinds false two_running 2 ⟨0, 2, true⟩ ompt_cancel_loop 0
        (by decide) rfl
    ⟨s, h1, h2, h3, by rw [h4 1 (by decide)]; rfl⟩⟩

/-- Claim C17, flush and thread begin are single-shot samples. A flush event makes one engine
call, `sample_value` with value `1` and the label "OpenMP Flush" (with the call-site suffix
when the address is not null). A thread-begin event registers the thread with the engine and
makes one `sample_value` call with value `1`, both under the label of its thread type. Neither
makes a `start`, `yield` or `stop` call, creates or deletes a context, or writes a slot. -/
theorem flush_and_thread_begin_single_sample (reg : Registry) (st : State) (self : Nat)
    (thread_type : Int) (codeptr_ra : Nat) :
    ((apex_ompt_flush st codeptr_ra).trace = st.trace ++
        [Call.sample_value (if codeptr_ra ≠ 0 then
          "OpenMP Flush: UNRESOLVED ADDR " ++ fmt_p codeptr_ra else "OpenMP Flush") 1] ∧
      (apex_ompt_flush st codeptr_ra).slots = st.slots ∧
      (apex_ompt_flush st codeptr_ra).heap = st.heap ∧
      (apex_ompt_flush st codeptr_ra).brk = st.brk ∧
      (apex_ompt_flush st codeptr_ra).freed = st.freed) ∧
    ((apex_thread_begin reg st self thread_type).2.trace = st.trace ++
        [Call.register_thread (if thread_type = ompt_thread_initial then "OpenMP Initial Thread"
          else if thread_type = ompt_thread_worker then "OpenMP Worker Thread"
          else if thread_type = ompt_thread_other then "OpenMP Other Thread"
          else "OpenMP Unknown Thread"),
         Call.sample_value (if thread_type = ompt_thread_initial then "OpenMP Initial Thread"
          else if thread_type = ompt_thread_worker then "OpenMP Worker Thread"
          else if thread_type = ompt_thread_other then "OpenMP Other Thread"
          else "OpenMP Unknown Thread") 1] ∧
      (apex_thread_begin reg st self thread_type).2.slots = st.slots ∧
      (apex_thread_begin reg st self thread_type).2.heap = st.heap ∧
      (apex_thread_begin reg st self thread_type).2.brk = st.brk ∧
      (apex_thread_begin reg st self thread_type).2.freed = st.freed) := by
  constructor
  · by_cases h : codeptr_ra = 0 <;> simp [apex_ompt_flush, h, State.emit]
  · rw [apex_thread_begin_eq]
    exact ⟨rfl, rfl, rfl, rfl, rfl⟩

/-- Claim C18 fails as stated: from the counter value `2 ^ 64 - 1` two registering threads
get the ids `2 ^ 64 - 1` and `0`, and the counter ends at `1`. -/
theorem thread_ids_counterexample :
    (thread_begins { apex_numthreads := 2 ^ 64 - 1, apex_threadid := fun _ => UINT64_MAX }
      State.init [(0, ompt_thread_initial), (1, ompt_thread_worker)]).1.apex_threadid 0
      = 2 ^ 64 - 1 ∧
    (thread_begins { apex_numthreads := 2 ^ 64 - 1, apex_threadid := fun _ => UINT64_MAX }
      State.init [(0, ompt_thread_initial), (1, ompt_thread_worker)]).1.apex_threadid 1 = 0 ∧
    (thread_begins { apex_numthreads := 2 ^ 64 - 1, apex_threadid := fun _ => UINT64_MAX }
      State.init [(0, ompt_thread_initial), (1, ompt_thread_worker)]).1.apex_numthreads = 1 := by
  refine ⟨?_, ?_, ?_⟩ <;> decide

/-- Claim C18 as amended, thread ids. Let `N` distinct threads run `apex_thread_begin` one
after the other, in any order, from the counter value `c`, with `c + N < 2 ^ 64`. Then the
counter ends at `c + N`, the thread registering in position `i` holds the id `c + i`, and
the ids increase strictly in registration order (so they are distinct). -/
theorem thread_ids_dense (reg : Registry) (st : State) (ts : List (Nat × Int))
    (hthreads : (ts.map Prod.fst).Nodup)
    (hwrap : reg.apex_numthreads + ts.length < 2 ^ 64) :
    (thread_begins reg st ts).1.apex_numthreads = reg.apex_numthreads + ts.length ∧
    (∀ i t ty, ts[i]? = some (t, ty) →
      (thread_begins reg st ts).1.apex_threadid t = reg.apex_numthreads + i) ∧
    (∀ (i j t : Nat) (ty : Int) (u : Nat) (tu : Int),
      ts[i]? = some (t, ty) → ts[j]? = some (u, tu) → i < j →
      (thread_begins reg st ts).1.apex_threadid t
        < (thread_begins reg st ts).1.apex_threadid u) := by
  obtain ⟨h1, h2, _⟩ := thread_begins_registry ts reg st hthreads hwrap
  refine ⟨h1, h2, ?_⟩
  intro i j t ty u tu hi hj hij
  rw [h2 i t ty hi, h2 j u tu hj]
  omega

/-- Instance of C18 as amended: two threads from the counter value `0` get `0` and `1`, and
the counter ends at `2`. -/
theorem thread_ids_dense_witness :
    (thread_begins Registry.init State.init
      [(7, ompt_thread_initial), (3, ompt_thread_worker)]).1.apex_numthreads = 2 ∧
    (thread_begins Registry.init State.init
      [(7, ompt_thread_initial), (3, ompt_thread_worker)]).1.apex_threadid 7 = 0 ∧
    (thread_begins Registry.init State.init
      [(7, ompt_thread_initial), (3, ompt_thread_worker)]).1.apex_threadid 3 = 1 :=
  have h := thread_ids_dense Registry.init State.init
    [(7, ompt_thread_initial), (3, ompt_thread_worker)] (by decide) (by decide)
  ⟨h.1, h.2.1 0 7 ompt_thread_initial rfl, h.2.1 1 3 ompt_thread_worker rfl⟩

/-- Claim C19 fails as stated: the thread that ran `ompt_initialize` holds the id `0`; its
own thread-begin event gives it the id `1` and moves the counter from `1` to `2`. -/
theorem thread_id_assigned_once_counterexample :
    ∃ reg1 tool1 st1,
      ( ompt_initialize plain_runtime 0 Registry.init Tool.init State.init)
        = .ok (1, reg1, tool1, st1) ∧
      reg1.apex_threadid 0 = 0 ∧ reg1.apex_numthreads = 1 ∧
      (apex_thread_begin reg1 st1 0 ompt_thread_initial).1.apex_threadid 0 = 1 ∧
      (apex_thread_begin reg1 st1 0 ompt_thread_initial).1.apex_numthreads = 2 :=
  ⟨_, _, _, ompt_initialize_eq plain_runtime 0 Registry.init Tool.init State.init rfl,
    by decide, by decide, by decide, by decide⟩

/-- Claim C19 as amended, thread ids are assigned at every registration. `apex_thread_begin`
and `ompt_initialize` each store the current counter value as the id of the calling thread,
whatever id it held, and increment the counter (modulo `2 ^ 64`); the ids of the other
threads are unchanged. Assumed for `ompt_initialize`: the runtime resolves
`ompt_set_callback`. -/
theorem thread_id_assigned_at_every_registration (rt : Runtime) (reg : Registry)
    (tool : Tool) (st : State) (self : Nat) (thread_type : Int)
    (h : rt.lookup "ompt_set_callback" = true) :
    ((apex_thread_begin reg st self thread_type).1.apex_threadid self = reg.apex_numthreads ∧
      (apex_thread_begin reg st self thread_type).1.apex_numthreads
        = (reg.apex_numthreads + 1) % 2 ^ 64 ∧
      ∀ t, t ≠ self →
        (apex_thread_begin reg st self thread_type).1.apex_threadid t = reg.apex_threadid t) ∧
    ∃ reg' tool' st', ( ompt_initialize rt self reg tool st) = .ok (1, reg', tool', st') ∧
      reg'.apex_threadid self = reg.apex_numthreads ∧
      reg'.apex_numthreads = (reg.apex_numthreads + 1) % 2 ^ 64 ∧
      ∀ t, t ≠ self → reg'.apex_threadid t = reg.apex_threadid t := by
  have hassign : (apex_threadid_assign reg self).apex_threadid self = reg.apex_numthreads ∧
      (apex_threadid_assign reg self).apex_numthreads = (reg.apex_numthreads + 1) % 2 ^ 64 ∧
      ∀ t, t ≠ self → (apex_threadid_assign reg self).apex_threadid t = reg.apex_threadid t := by
    refine ⟨?_, rfl, ?_⟩
    · show Function.update reg.apex_threadid self _ self = _
      rw [Function.update_same]
    · intro t ht
      show Function.update reg.apex_threadid self _ t = _
      rw [Function.update_noteq ht]
  constructor
  · rw [apex_thread_begin_eq]
    exact hassign
  · exact ⟨_, _, _, ompt_initialize_eq rt self reg tool st h, hassign⟩

/-- Instance of C19 as amended: a thread holding the id `2` registers at counter value `5`. -/
theorem thread_id_assigned_at_every_registration_witness :
    plain_runtime.lookup "ompt_set_callback" = true ∧
    (apex_thread_begin { apex_numthreads := 5, apex_threadid := fun _ => 2 } State.init 0
      ompt_thread_worker).1.apex_threadid 0 = 5 ∧
    (apex_thread_begin { apex_numthreads := 5, apex_threadid := fun _ => 2 } State.init 0
      ompt_thread_worker).1.apex_numthreads = (5 + 1) % 2 ^ 64 :=
  have h := (thread_id_assigned_at_every_registration plain_runtime
    { apex_numthreads := 5, apex_threadid := fun _ => 2 } Tool.init State.init 0
    ompt_thread_worker rfl).1
  ⟨rfl, h.1, h.2.1⟩

/-- Claim C20, subscription policy. When the runtime resolves `ompt_set_callback`,
`ompt_initialize` returns `1` and the events it requests, each once, are: thread begin,
thread end, parallel begin and parallel end always; task create, task schedule and implicit
task iff the high-overhead option is set; work, master, flush and cancel iff the
required-events-only option is not set; sync region wait and sync region iff the
high-overhead option is set and the required-events-only option is not; no other event. -/
theorem subscription_policy (rt : Runtime) (self : Nat) (reg : Registry) (tool : Tool)
    (st : State) (h : rt.lookup "ompt_set_callback" = true) :
    ∃ reg' tool' st', ( ompt_initialize rt self reg tool st) = .ok (1, reg', tool', st') ∧
      ∃ es, tool'.requests = tool.requests ++ es ∧ es.Nodup ∧
        ∀ e : ompt_callbacks_t, e ∈ es ↔
          (e = .ompt_callback_thread_begin ∨ e = .ompt_callback_thread_end ∨
            e = .ompt_callback_parallel_begin ∨ e = .ompt_callback_parallel_end) ∨
          (rt.ompt_high_overhead_events = true ∧
            (e = .ompt_callback_task_create ∨ e = .ompt_callback_task_schedule ∨
              e = .ompt_callback_implicit_task)) ∨
          (rt.ompt_required_events_only = false ∧
            (e = .ompt_callback_work ∨ e = .ompt_callback_master ∨
              e = .ompt_callback_flush ∨ e = .ompt_callback_cancel)) ∨
          (rt.ompt_high_overhead_events = true ∧ rt.ompt_required_events_only = false ∧
            (e = .ompt_callback_sync_region_wait ∨ e = .ompt_callback_sync_region)) := by
  refine ⟨_, _, _, ompt_initialize_eq rt self reg tool st h,
    subscription rt.ompt_high_overhead_events rt.ompt_required_events_only, rfl, ?_, ?_⟩
  · cases rt.ompt_high_overhead_events <;> cases rt.ompt_required_events_only <;> decide
  · intro e
    cases rt.ompt_high_overhead_events <;> cases rt.ompt_required_events_only <;>
      cases e <;> simp [subscription]

/-- Instance of C20: with only the mandatory events wanted, thread begin is requested and
work is not. -/
theorem subscription_policy_witness :
    plain_runtime.lookup "ompt_set_callback" = true ∧
    ∃ reg' tool' st', ( ompt_initialize plain_runtime 0 Registry.init Tool.init State.init)
        = .ok (1, reg', tool', st') ∧
      ∃ es, tool'.requests = [] ++ es ∧ es.Nodup ∧
        (ompt_callbacks_t.ompt_callback_thread_begin ∈ es) ∧
        ¬ (ompt_callbacks_t.ompt_callback_work ∈ es) :=
  ⟨rfl,
    let ⟨r, t, s, h1, es, h2, h3, h4⟩ :=
      subscription_policy plain_runtime 0 Registry.init Tool.init State.init rfl
    ⟨r, t, s, h1, es, h2, h3, (h4 _).2 (Or.inl (Or.inl rfl)),
      fun hw => by
        have := (h4 _).1 hw
        revert this
        decide⟩⟩

/-! ## Shutdown, paired events, the chains of contexts and the order of engine calls -/

/-- When the lookup does not resolve `ompt_set_callback`, the first registration of
`ompt_initialize` calls through a null function pointer. -/
theorem ompt_initialize_fault (rt : Runtime) (self : Nat) (reg : Registry) (tool : Tool)
    (st : State) (h : rt.lookup "ompt_set_callback" = false) :
    ( ompt_initialize rt self reg tool st) = .error Fault.null_deref := by
  have hmem : "ompt_set_callback" ∈ looked_up := by decide
  have h0 : (fun name => if name ∈ looked_up then rt.lookup name else tool.fn name)
      "ompt_set_callback" = false := by
    show (if "ompt_set_callback" ∈ looked_up then _ else _) = false
    rw [if_pos hmem]
    exact h
  simp [ ompt_initialize, apex_ompt_register, h0, bind, Except.bind]

/-- The conversion to `double` drops at most `e + fuel` bits. -/
theorem double_shift_le (n : Nat) : ∀ fuel e : Nat, double_shift n fuel e ≤ e + fuel := by
  intro fuel
  induction fuel with
  | zero => intro e; exact Nat.le_refl _
  | succ fuel ih =>
    intro e
    unfold double_shift
    split_ifs
    · omega
    · have := ih (e + 1)
      omega

/-- A count below `2 ^ 53` is converted to `double` exactly. -/
theorem uint64_to_double_exact (n : Nat) (h : n < 2 ^ 53) : uint64_to_double n = n := by
  have he : double_shift n 11 0 = 0 := by
    unfold double_shift
    rw [if_pos (by simpa using h)]
  unfold uint64_to_double
  simp [he, Nat.mod_one]

/-- The conversion to `double` moves a count by at most `1024`. -/
theorem uint64_to_double_near (n : Nat) :
    uint64_to_double n ≤ n + 1024 ∧ n ≤ uint64_to_double n + 1024 := by
  have he : double_shift n 11 0 ≤ 11 := by
    have := double_shift_le n 11 0
    omega
  unfold uint64_to_double
  generalize double_shift n 11 0 = e at he
  have hP : 2 ^ e ≤ 2048 := by
    calc 2 ^ e ≤ 2 ^ 11 := Nat.pow_le_pow_right (by decide) he
      _ = 2048 := by decide
  have hpos : 0 < 2 ^ e := Nat.two_pow_pos e
  have hr : n % 2 ^ e < 2 ^ e := Nat.mod_lt _ hpos
  have hn : 2 ^ e * (n / 2 ^ e) + n % 2 ^ e = n := Nat.div_add_mod n (2 ^ e)
  simp only
  generalize 2 ^ e = P at hP hr hn
  generalize hq : n / P = q at hn
  generalize n % P = r at hr hn
  split_ifs with hc
  · rw [Nat.mul_comm q P]
    generalize P * q = X at hn
    omega
  · rw [Nat.add_mul, Nat.one_mul, Nat.mul_comm q P]
    generalize P * q = X at hn
    have : P ≤ 2 * r := by
      by_contra hlt
      exact hc (Or.inl (by omega))
    omega

/-- The shift found brings the number below `2 ^ 53` when the last shift tried does. -/
theorem double_shift_lt (n : Nat) :
    ∀ fuel e : Nat, n / 2 ^ (e + fuel) < 2 ^ 53 → n / 2 ^ double_shift n fuel e < 2 ^ 53 := by
  intro fuel
  induction fuel with
  | zero => intro e h; exact h
  | succ fuel ih =>
    intro e h
    unfold double_shift
    split_ifs with hc
    · exact hc
    · apply ih (e + 1)
      have : e + 1 + fuel = e + (fuel + 1) := by omega
      rw [this]
      exact h

/-- The conversion of a 64-bit count gives a `double`: a significand `m` of at most 53 bits
(or `2 ^ 53` itself) times a power of two, within half of that power of two of the count. -/
theorem uint64_to_double_rounds (n : Nat) (h : n < 2 ^ 64) :
    ∃ m e, e ≤ 11 ∧ m ≤ 2 ^ 53 ∧ uint64_to_double n = m * 2 ^ e ∧
      2 * (m * 2 ^ e) ≤ 2 * n + 2 ^ e ∧ 2 * n ≤ 2 * (m * 2 ^ e) + 2 ^ e := by
  have he : double_shift n 11 0 ≤ 11 := by
    have := double_shift_le n 11 0
    omega
  have hq : n / 2 ^ double_shift n 11 0 < 2 ^ 53 := by
    apply double_shift_lt n 11 0
    rw [Nat.div_lt_iff_lt_mul (Nat.two_pow_pos _)]
    exact h
  unfold uint64_to_double
  generalize double_shift n 11 0 = e at he hq
  suffices H : ∃ m, m ≤ 2 ^ 53 ∧
      (if 2 * (n % 2 ^ e) < 2 ^ e ∨ (2 * (n % 2 ^ e) = 2 ^ e ∧ n / 2 ^ e % 2 = 0)
        then n / 2 ^ e * 2 ^ e else (n / 2 ^ e + 1) * 2 ^ e) = m * 2 ^ e ∧
      2 * (m * 2 ^ e) ≤ 2 * n + 2 ^ e ∧ 2 * n ≤ 2 * (m * 2 ^ e) + 2 ^ e by
    obtain ⟨m, h1, h2, h3, h4⟩ := H
    exact ⟨m, e, he, h1, h2, h3, h4⟩
  have hpos : 0 < 2 ^ e := Nat.two_pow_pos e
  have hr : n % 2 ^ e < 2 ^ e := Nat.mod_lt _ hpos
  have hn : 2 ^ e * (n / 2 ^ e) + n % 2 ^ e = n := Nat.div_add_mod n (2 ^ e)
  generalize 2 ^ e = P at hr hn hq
  generalize n / P = q at hn hq
  generalize n % P = r at hr hn
  split_ifs with hc
  · refine ⟨q, Nat.le_of_lt hq, rfl, ?_, ?_⟩
    · rw [Nat.mul_comm q P]
      generalize P * q = X at hn
      omega
    · rw [Nat.mul_comm q P]
      generalize P * q = X at hn
      omega
  · have hge : P ≤ 2 * r := by
      by_contra hlt
      exact hc (Or.inl (by omega))
    refine ⟨q + 1, hq, rfl, ?_, ?_⟩
    · rw [Nat.add_mul, Nat.one_mul, Nat.mul_comm q P]
      generalize P * q = X at hn
      omega
    · rw [Nat.add_mul, Nat.one_mul, Nat.mul_comm q P]
      generalize P * q = X at hn
      omega

/-- The state a work-region Begin returns: `apex_ompt_start` with the work label, then one
`sample_value` call named after that label. -/
theorem apex_ompt_work_begin_eq (asserts : Bool) (st : State) (wstype : Int)
    (par : Option Nat) (task count codeptr_ra : Nat)
    (hpar : ∀ r, par = some r → st.slots task = 0 → st.okPtr (st.slots r)) :
    apex_ompt_work asserts st wstype ompt_scope_begin par (some task) count codeptr_ra =
      .ok ((started st (with_addr ("OpenMP Work " ++ work_str wstype) codeptr_ra) task
        (engine_parent st task par) true).emit
          (Call.sample_value (work_count_type wstype ++ ": " ++
            with_addr ("OpenMP Work " ++ work_str wstype) codeptr_ra)
            (uint64_to_double count))) := by
  unfold apex_ompt_work with_addr
  by_cases hc : codeptr_ra = 0
  · simp only [hc, ne_eq, not_true_eq_false, if_false, if_true]
    rw [apex_ompt_start_eq st _ task par true hpar]
    rfl
  · simp only [hc, ne_eq, not_false_eq_true, if_true]
    rw [apex_ompt_start_eq st _ task par true hpar]
    rfl

/-- A successful `linked_timer::start` made one `start` call and no other. -/
theorem linked_timer_start_call {st st' : State} {p : Nat}
    (h : linked_timer.start st p = .ok st') : ∃ tw, st'.trace = st.trace ++ [Call.start tw] := by
  obtain ⟨t, ht, _⟩ := bind_ok h
  obtain ⟨hp, hl⟩ := deref_ok ht
  rw [linked_timer_start_eq hp hl] at h
  simp only [Except.ok.injEq] at h
  subst h
  exact ⟨t.tw, rfl⟩

/-- A successful `linked_timer::yield` made one `yield` call and no other. -/
theorem linked_timer_yield_call {st st' : State} {p : Nat}
    (h : linked_timer.yield st p = .ok st') : ∃ tw, st'.trace = st.trace ++ [Call.yield tw] := by
  obtain ⟨t, ht, _⟩ := bind_ok h
  obtain ⟨hp, hl⟩ := deref_ok ht
  rw [linked_timer_yield_eq hp hl] at h
  simp only [Except.ok.injEq] at h
  subst h
  exact ⟨t.tw, rfl⟩

/-- A successful `delete` made no engine call, or one `stop` call. -/
theorem delete_linked_timer_call {st st' : State} {p : Nat}
    (h : delete_linked_timer st p = .ok st') :
    st'.trace = st.trace ∨ ∃ tw, st'.trace = st.trace ++ [Call.stop tw] := by
  by_cases hp : p = 0
  · simp only [delete_linked_timer, hp, if_true, Except.ok.injEq] at h
    subst h
    exact Or.inl rfl
  · cases hh : st.heap p with
    | none => simp [delete_linked_timer, hp, hh] at h
    | some t =>
      rw [delete_linked_timer_eq hp hh] at h
      simp only [Except.ok.injEq] at h
      subst h
      cases t.timing
      · left
        simp
      · right
        exact ⟨t.tw, rfl⟩

/-- Every task-schedule event that returns has made its engine calls in this order: at most
one `yield` or `stop` call, then at most one `start` call. -/
theorem apex_task_schedule_calls {st st' : State} {pr nx : Option Nat} {s : Int}
    (h : apex_task_schedule st pr s nx = .ok st') :
    ∃ P S, st'.trace = st.trace ++ P ++ S ∧
      (P = [] ∨ ∃ tw, P = [Call.yield tw] ∨ P = [Call.stop tw]) ∧
      (S = [] ∨ ∃ tw, S = [Call.start tw]) := by
  unfold apex_task_schedule at h
  obtain ⟨s1, hprior, h⟩ := bind_ok h
  obtain ⟨nd, _, h⟩ := bind_ok h
  have h1 : ∃ P, s1.trace = st.trace ++ P ∧
      (P = [] ∨ ∃ tw, P = [Call.yield tw] ∨ P = [Call.stop tw]) := by
    cases pr with
    | none =>
      simp only [pure, Except.pure, Except.ok.injEq] at hprior
      subst hprior
      exact ⟨[], by simp, Or.inl rfl⟩
    | some pd =>
      simp only at hprior
      by_cases hp : st.slots pd = 0
      · simp only [hp, ne_eq, not_true_eq_false, if_false, pure, Except.pure,
          Except.ok.injEq] at hprior
        subst hprior
        exact ⟨[], by simp, Or.inl rfl⟩
      · simp only [hp, ne_eq, not_false_eq_true, if_true] at hprior
        by_cases hs : s = ompt_task_yield ∨ s = ompt_task_detach ∨ s = ompt_task_switch
        · simp only [hs, if_true] at hprior
          obtain ⟨tw, htw⟩ := linked_timer_yield_call hprior
          exact ⟨[Call.yield tw], htw, Or.inr ⟨tw, Or.inl rfl⟩⟩
        · simp only [hs, if_false] at hprior
          obtain ⟨t, _, hprior⟩ := bind_ok hprior
          obtain ⟨s2, hdel, hprior⟩ := bind_ok hprior
          simp only [pure, Except.pure, Except.ok.injEq] at hprior
          subst hprior
          rcases delete_linked_timer_call hdel with h0 | ⟨tw, htw⟩
          · exact ⟨[], by simpa using h0, Or.inl rfl⟩
          · exact ⟨[Call.stop tw], htw, Or.inr ⟨tw, Or.inr rfl⟩⟩
  have h2 : ∃ S, st'.trace = s1.trace ++ S ∧ (S = [] ∨ ∃ tw, S = [Call.start tw]) := by
    simp only at h
    by_cases hn : s1.slots nd = 0
    · simp only [hn, ne_eq, not_true_eq_false, if_false, pure, Except.pure,
        Except.ok.injEq] at h
      subst h
      exact ⟨[], by simp, Or.inl rfl⟩
    · simp only [hn, ne_eq, not_false_eq_true, if_true] at h
      obtain ⟨tw, htw⟩ := linked_timer_start_call h
      exact ⟨[Call.start tw], htw, Or.inr ⟨tw, rfl⟩⟩
  obtain ⟨P, hP, hPs⟩ := h1
  obtain ⟨S, hS, hSs⟩ := h2
  exact ⟨P, S, by rw [hS, hP], hPs, hSs⟩

/-- A Begin callback of a paired event is `apex_ompt_start` with `auto_start = true` on its
slot, followed by the engine calls `S` (the sample of a work region, nothing for the
others). -/
theorem dispatch_begin (asserts : Bool) (self : Nat) (reg : Registry) (d : Nat) (b : Event)
    (hb : b.begins_on d = true) :
    ∃ (label : String) (S : List Call), ∀ st : State,
      dispatch asserts self reg st b =
        (apex_ompt_start st label (some d) b.enclosing true).map
          fun s => (reg, { s with trace := s.trace ++ S }) := by
  have plain : ∀ (x : Except Fault State),
      x.map (fun s => (reg, s)) =
        x.map (fun s => (reg, { s with trace := s.trace ++ [] })) := by
    intro x
    cases x with
    | error f => rfl
    | ok s => simp [Except.map]
  cases b with
  | parallel_begin enc par codeptr_ra =>
    simp only [Event.begins_on, decide_eq_true_eq] at hb
    subst hb
    exact ⟨_, [], fun st => plain _⟩
  | implicit_task endpoint par task flags =>
    simp only [Event.begins_on, decide_eq_true_eq] at hb
    obtain ⟨rfl, rfl⟩ := hb
    by_cases hf : flags = ompt_task_initial
    · refine ⟨"OpenMP Initial Task", [], fun st => ?_⟩
      rw [← plain]
      simp [dispatch, apex_implicit_task, hf, Event.enclosing]
    · refine ⟨"OpenMP Implicit Task", [], fun st => ?_⟩
      rw [← plain]
      simp [dispatch, apex_implicit_task, hf, Event.enclosing]
  | sync_region_wait kind endpoint par task codeptr_ra =>
    simp only [Event.begins_on, decide_eq_true_eq] at hb
    obtain ⟨rfl, rfl⟩ := hb
    by_cases hc : codeptr_ra = 0
    · refine ⟨"OpenMP " ++ sync_region_wait_str kind, [], fun st => ?_⟩
      rw [← plain]
      simp [dispatch, apex_sync_region_wait, hc, Event.enclosing]
    · refine ⟨"OpenMP " ++ sync_region_wait_str kind ++ ": UNRESOLVED ADDR " ++
        fmt_p codeptr_ra, [], fun st => ?_⟩
      rw [← plain]
      simp [dispatch, apex_sync_region_wait, hc, Event.enclosing]
  | work wstype endpoint par task count codeptr_ra =>
    simp only [Event.begins_on, decide_eq_true_eq] at hb
    obtain ⟨rfl, rfl⟩ := hb
    by_cases hc : codeptr_ra = 0
    · refine ⟨"OpenMP Work " ++ work_str wstype,
        [Call.sample_value (work_count_type wstype ++ ": " ++
          ("OpenMP Work " ++ work_str wstype)) (uint64_to_double count)], fun st => ?_⟩
      cases hs : apex_ompt_start st ("OpenMP Work " ++ work_str wstype) (some d) par true <;>
        simp [dispatch, apex_ompt_work, hc, Event.enclosing, hs, Except.map, State.emit,
          bind, Except.bind, pure, Except.pure]
    · refine ⟨"OpenMP Work " ++ work_str wstype ++ ": UNRESOLVED ADDR " ++ fmt_p codeptr_ra,
        [Call.sample_value (work_count_type wstype ++ ": " ++
          ("OpenMP Work " ++ work_str wstype ++ ": UNRESOLVED ADDR " ++ fmt_p codeptr_ra))
          (uint64_to_double count)], fun st => ?_⟩
      cases hs : apex_ompt_start st
          ("OpenMP Work " ++ work_str wstype ++ ": UNRESOLVED ADDR " ++ fmt_p codeptr_ra)
          (some d) par true <;>
        simp [dispatch, apex_ompt_work, hc, Event.enclosing, hs, Except.map, State.emit,
          bind, Except.bind, pure, Except.pure]
  | master endpoint par task codeptr_ra =>
    simp only [Event.begins_on, decide_eq_true_eq] at hb
    obtain ⟨rfl, rfl⟩ := hb
    by_cases hc : codeptr_ra = 0
    · refine ⟨"OpenMP Master", [], fun st => ?_⟩
      rw [← plain]
      simp [dispatch, apex_ompt_master, hc, Event.enclosing]
    · refine ⟨"OpenMP Master: UNRESOLVED ADDR " ++ fmt_p codeptr_ra, [], fun st => ?_⟩
      rw [← plain]
      simp [dispatch, apex_ompt_master, hc, Event.enclosing]
  | sync_region kind endpoint par task codeptr_ra =>
    simp only [Event.begins_on, decide_eq_true_eq] at hb
    obtain ⟨rfl, rfl⟩ := hb
    by_cases hc : codeptr_ra = 0
    · refine ⟨"OpenMP " ++ sync_region_str kind, [], fun st => ?_⟩
      rw [← plain]
      simp [dispatch, apex_ompt_sync_region, hc, Event.enclosing]
    · refine ⟨"OpenMP " ++ sync_region_str kind ++ ": UNRESOLVED ADDR " ++
        fmt_p codeptr_ra, [], fun st => ?_⟩
      rw [← plain]
      simp [dispatch, apex_ompt_sync_region, hc, Event.enclosing]
  | thread_begin _ => cases hb
  | thread_end => cases hb
  | parallel_end _ => cases hb
  | task_create _ _ _ _ => cases hb
  | task_schedule _ _ _ => cases hb
  | flush _ => cases hb
  | cancel _ _ _ => cases hb

/-- An End callback of a paired event is `apex_ompt_stop` on its slot. -/
theorem dispatch_end (asserts : Bool) (self : Nat) (reg : Registry) (d : Nat) (e : Event)
    (he : e.ends_on d = true) (st : State) :
    dispatch asserts self reg st e =
      (apex_ompt_stop asserts st (some d)).map fun s => (reg, s) := by
  cases e with
  | parallel_end par =>
    simp only [Event.ends_on, decide_eq_true_eq] at he
    subst he
    rfl
  | implicit_task endpoint par task flags =>
    simp only [Event.ends_on, decide_eq_true_eq] at he
    obtain ⟨hne, rfl⟩ := he
    simp [dispatch, apex_implicit_task, hne]
  | sync_region_wait kind endpoint par task codeptr_ra =>
    simp only [Event.ends_on, decide_eq_true_eq] at he
    obtain ⟨hne, rfl⟩ := he
    simp [dispatch, apex_sync_region_wait, hne]
  | work wstype endpoint par task count codeptr_ra =>
    simp only [Event.ends_on, decide_eq_true_eq] at he
    obtain ⟨hne, rfl⟩ := he
    simp [dispatch, apex_ompt_work, hne]
  | master endpoint par task codeptr_ra =>
    simp only [Event.ends_on, decide_eq_true_eq] at he
    obtain ⟨hne, rfl⟩ := he
    simp [dispatch, apex_ompt_master, hne]
  | sync_region kind endpoint par task codeptr_ra =>
    simp only [Event.ends_on, decide_eq_true_eq] at he
    obtain ⟨hne, rfl⟩ := he
    simp [dispatch, apex_ompt_sync_region, hne]
  | thread_begin _ => cases he
  | thread_end => cases he
  | parallel_begin _ _ _ => cases he
  | task_create _ _ _ _ => cases he
  | task_schedule _ _ _ => cases he
  | flush _ => cases he
  | cancel _ _ _ => cases he

/-- The initial state has the shape `SlotChains`: there is no context. -/
theorem inv_init : SlotChains State.init where
  live := fun a t h => by cases h
  slot := fun d => Or.inl rfl
  slot_inj := fun d d' _ h => absurd rfl h
  prev_inj := fun a b ta tb h => by cases h
  slot_prev := fun d a t h => by cases h
  referred := fun a t h => by cases h
  freed := fun a h => by cases h

/-- The shape `SlotChains` does not depend on the trace or on the task wrappers handed out. -/
theorem inv_same {a b : State} (hs : b.slots = a.slots) (hh : b.heap = a.heap)
    (hb : b.brk = a.brk) (hf : b.freed = a.freed) (h : SlotChains a) : SlotChains b := by
  obtain ⟨h1, h2, h3, h4, h5, h6, h7⟩ := h
  refine ⟨?_, ?_, ?_, ?_, ?_, ?_, ?_⟩
  · intro x t hx
    rw [hh] at hx
    unfold State.okPtr
    rw [hh, hb]
    exact h1 x t hx
  · intro d
    unfold State.okPtr
    rw [hh, hs]
    exact h2 d
  · rw [hs]
    exact h3
  · rw [hh]
    exact h4
  · rw [hs, hh]
    exact h5
  · rw [hs, hh]
    exact h6
  · rw [hf, hh, hb]
    exact h7

/-- Pushing a new context on a slot keeps the shape: the new context takes the old head of
the chain as its parent link and becomes the head. -/
theorem inv_push {a b : State} (d tw : Nat) (running : Bool)
    (hs : b.slots = Function.update a.slots d (a.brk + 1))
    (hh : b.heap = Function.update a.heap (a.brk + 1) (some ⟨a.slots d, tw, running⟩))
    (hb : b.brk = a.brk + 1) (hf : b.freed = a.freed) (h : SlotChains a) : SlotChains b := by
  obtain ⟨h1, h2, h3, h4, h5, h6, h7⟩ := h
  have fresh : a.heap (a.brk + 1) = none := by
    cases hx : a.heap (a.brk + 1) with
    | none => rfl
    | some t =>
      have := (h1 _ t hx).2.1
      omega
  have le_of_ok : ∀ p, a.okPtr p → p ≤ a.brk := by
    intro p hp
    rcases hp with rfl | ⟨t, ht⟩
    · exact Nat.zero_le _
    · exact (h1 p t ht).2.1
  have keep : ∀ p, a.okPtr p → b.okPtr p := by
    intro p hp
    rcases hp with h0 | ⟨t, ht⟩
    · exact Or.inl h0
    · right
      refine ⟨t, ?_⟩
      rw [hh, Function.update_noteq]
      · exact ht
      · intro e
        rw [e, fresh] at ht
        cases ht
  have old : ∀ x t, x ≠ a.brk + 1 → b.heap x = some t → a.heap x = some t := by
    intro x t hx hxt
    rw [hh, Function.update_noteq hx] at hxt
    exact hxt
  have new : ∀ t, b.heap (a.brk + 1) = some t → t = ⟨a.slots d, tw, running⟩ := by
    intro t ht
    rw [hh, Function.update_same] at ht
    exact (Option.some.inj ht).symm
  have bslot_d : b.slots d = a.brk + 1 := by rw [hs, Function.update_same]
  have bslot_o : ∀ d', d' ≠ d → b.slots d' = a.slots d' := by
    intro d' hd
    rw [hs, Function.update_noteq hd]
  refine ⟨?_, ?_, ?_, ?_, ?_, ?_, ?_⟩
  · intro x t hx
    by_cases e : x = a.brk + 1
    · subst e
      have ht := new t hx
      subst ht
      have := le_of_ok _ (h2 d)
      exact ⟨Nat.succ_ne_zero _, by rw [hb], Nat.lt_succ_of_le this, keep _ (h2 d)⟩
    · obtain ⟨p1, p2, p3, p4⟩ := h1 x t (old x t e hx)
      exact ⟨p1, by rw [hb]; omega, p3, keep _ p4⟩
  · intro d'
    by_cases e : d' = d
    · subst e
      rw [bslot_d]
      right
      exact ⟨_, by rw [hh, Function.update_same]⟩
    · rw [bslot_o d' e]
      exact keep _ (h2 d')
  · intro d1 d2 heq hne
    by_cases e1 : d1 = d
    · by_cases e2 : d2 = d
      · rw [e1, e2]
      · exfalso
        rw [e1, bslot_d, bslot_o d2 e2] at heq
        have := le_of_ok _ (h2 d2)
        omega
    · by_cases e2 : d2 = d
      · exfalso
        rw [e2, bslot_d, bslot_o d1 e1] at heq
        have := le_of_ok _ (h2 d1)
        omega
      · rw [bslot_o d1 e1, bslot_o d2 e2] at heq
        rw [bslot_o d1 e1] at hne
        exact h3 d1 d2 heq hne
  · intro x y tx ty hx hy heq hne
    by_cases ex : x = a.brk + 1
    · by_cases ey : y = a.brk + 1
      · rw [ex, ey]
      · exfalso
        subst ex
        have ht := new tx hx
        subst ht
        exact h5 d y ty (old y ty ey hy) (by rw [← heq]; exact hne) heq
    · by_cases ey : y = a.brk + 1
      · exfalso
        subst ey
        have ht := new ty hy
        subst ht
        exact h5 d x tx (old x tx ex hx) hne heq.symm
      · exact h4 x y tx ty (old x tx ex hx) (old y ty ey hy) heq hne
  · intro d' x t hx hne heq
    by_cases e : d' = d
    · rw [e, bslot_d] at heq
      by_cases ex : x = a.brk + 1
      · subst ex
        have ht := new t hx
        subst ht
        have := le_of_ok _ (h2 d)
        simp only at heq
        omega
      · obtain ⟨_, p2, p3, _⟩ := h1 x t (old x t ex hx)
        omega
    · rw [bslot_o d' e] at heq
      by_cases ex : x = a.brk + 1
      · subst ex
        have ht := new t hx
        subst ht
        exact e (h3 d' d heq (by rw [heq]; exact hne))
      · exact h5 d' x t (old x t ex hx) hne heq
  · intro x t hx
    by_cases ex : x = a.brk + 1
    · left
      exact ⟨d, by rw [bslot_d, ex]⟩
    · rcases h6 x t (old x t ex hx) with ⟨d', hd'⟩ | ⟨y, ty, hy, hyp⟩
      · by_cases e : d' = d
        · right
          refine ⟨a.brk + 1, ⟨a.slots d, tw, running⟩, by rw [hh, Function.update_same], ?_⟩
          rw [← hd', e]
        · left
          exact ⟨d', by rw [bslot_o d' e]; exact hd'⟩
      · right
        refine ⟨y, ty, ?_, hyp⟩
        rw [hh, Function.update_noteq]
        · exact hy
        · intro e
          rw [e, fresh] at hy
          cases hy
  · intro x hx
    rw [hf] at hx
    obtain ⟨p1, p2⟩ := h7 x hx
    refine ⟨?_, by rw [hb]; omega⟩
    rw [hh, Function.update_noteq (by omega)]
    exact p1

/-- Deleting the head of the chain of a slot and rewinding the slot to its parent link keeps
the shape. -/
theorem inv_pop {a b : State} (d : Nat) (t : linked_timer)
    (hc : a.slots d ≠ 0) (hl : a.heap (a.slots d) = some t)
    (hs : b.slots = Function.update a.slots d t.prev)
    (hh : b.heap = Function.update a.heap (a.slots d) none)
    (hb : b.brk = a.brk) (hf : b.freed = a.freed ++ [a.slots d]) (h : SlotChains a) : SlotChains b := by
  obtain ⟨h1, h2, h3, h4, h5, h6, h7⟩ := h
  have old : ∀ x tx, b.heap x = some tx → x ≠ a.slots d ∧ a.heap x = some tx := by
    intro x tx hx
    by_cases e : x = a.slots d
    · rw [hh, e, Function.update_same] at hx
      cases hx
    · rw [hh, Function.update_noteq e] at hx
      exact ⟨e, hx⟩
  have keep : ∀ p, a.okPtr p → p ≠ a.slots d → b.okPtr p := by
    intro p hp hne
    rcases hp with h0 | ⟨tp, htp⟩
    · exact Or.inl h0
    · right
      exact ⟨tp, by rw [hh, Function.update_noteq hne]; exact htp⟩
  have bslot_d : b.slots d = t.prev := by rw [hs, Function.update_same]
  have bslot_o : ∀ d', d' ≠ d → b.slots d' = a.slots d' := by
    intro d' hd
    rw [hs, Function.update_noteq hd]
  obtain ⟨_, c_le, prev_lt, prev_ok⟩ := h1 _ t hl
  refine ⟨?_, ?_, ?_, ?_, ?_, ?_, ?_⟩
  · intro x tx hx
    obtain ⟨hne, hx⟩ := old x tx hx
    obtain ⟨p1, p2, p3, p4⟩ := h1 x tx hx
    refine ⟨p1, by rw [hb]; exact p2, p3, keep _ p4 ?_⟩
    intro e
    by_cases h0 : tx.prev = 0
    · exact hc (by rw [← e, h0])
    · exact h5 d x tx hx h0 e.symm
  · intro d'
    by_cases e : d' = d
    · rw [e, bslot_d]
      exact keep _ prev_ok (by omega)
    · rw [bslot_o d' e]
      refine keep _ (h2 d') ?_
      intro heq
      exact e (h3 d' d heq (by rw [heq]; exact hc))
  · intro d1 d2 heq hne
    by_cases e1 : d1 = d
    · by_cases e2 : d2 = d
      · rw [e1, e2]
      · exfalso
        rw [e1, bslot_d, bslot_o d2 e2] at heq
        rw [e1, bslot_d] at hne
        exact h5 d2 _ t hl hne heq.symm
    · by_cases e2 : d2 = d
      · exfalso
        rw [e2, bslot_d, bslot_o d1 e1] at heq
        rw [bslot_o d1 e1] at hne
        exact h5 d1 _ t hl (by rw [← heq]; exact hne) heq
      · rw [bslot_o d1 e1, bslot_o d2 e2] at heq
        rw [bslot_o d1 e1] at hne
        exact h3 d1 d2 heq hne
  · intro x y tx ty hx hy heq hne
    exact h4 x y tx ty (old x tx hx).2 (old y ty hy).2 heq hne
  · intro d' x tx hx hne heq
    obtain ⟨hxc, hx⟩ := old x tx hx
    by_cases e : d' = d
    · rw [e, bslot_d] at heq
      exact hxc (h4 x _ tx t hx hl heq.symm hne)
    · rw [bslot_o d' e] at heq
      exact h5 d' x tx hx hne heq
  · intro x tx hx
    obtain ⟨hxc, hx⟩ := old x tx hx
    rcases h6 x tx hx with ⟨d', hd'⟩ | ⟨y, ty, hy, hyp⟩
    · left
      refine ⟨d', ?_⟩
      rw [bslot_o d' ?_]
      · exact hd'
      · intro e
        rw [e] at hd'
        exact hxc hd'.symm
    · by_cases ey : y = a.slots d
      · left
        refine ⟨d, ?_⟩
        rw [bslot_d, ← hyp]
        rw [ey, hl] at hy
        rw [Option.some.inj hy]
      · right
        exact ⟨y, ty, by rw [hh, Function.update_noteq ey]; exact hy, hyp⟩
  · intro x hx
    rw [hf, List.mem_append, List.mem_singleton] at hx
    rcases hx with hx | hx
    · obtain ⟨p1, p2⟩ := h7 x hx
      refine ⟨?_, by rw [hb]; exact p2⟩
      by_cases e : x = a.slots d
      · rw [hh, e, Function.update_same]
      · rw [hh, Function.update_noteq e]
        exact p1
    · rw [hx, hh, Function.update_same, hb]
      exact ⟨rfl, c_le⟩

/-- Writing the running flag of a live context keeps the shape. -/
theorem inv_retime {a b : State} (c : Nat) (t : linked_timer) (running : Bool)
    (hl : a.heap c = some t) (hs : b.slots = a.slots)
    (hh : b.heap = Function.update a.heap c (some { t with timing := running }))
    (hb : b.brk = a.brk) (hf : b.freed = a.freed) (h : SlotChains a) : SlotChains b := by
  obtain ⟨h1, h2, h3, h4, h5, h6, h7⟩ := h
  have old : ∀ x tx, b.heap x = some tx → ∃ t0, a.heap x = some t0 ∧ t0.prev = tx.prev := by
    intro x tx hx
    by_cases e : x = c
    · rw [hh, e, Function.update_same] at hx
      refine ⟨t, by rw [e]; exact hl, ?_⟩
      rw [← Option.some.inj hx]
    · rw [hh, Function.update_noteq e] at hx
      exact ⟨tx, hx, rfl⟩
  have new : ∀ x t0, a.heap x = some t0 → ∃ tx, b.heap x = some tx ∧ tx.prev = t0.prev := by
    intro x t0 hx
    by_cases e : x = c
    · refine ⟨{ t with timing := running }, by rw [hh, e, Function.update_same], ?_⟩
      rw [e, hl] at hx
      rw [← Option.some.inj hx]
    · exact ⟨t0, by rw [hh, Function.update_noteq e]; exact hx, rfl⟩
  have keep : ∀ p, a.okPtr p → b.okPtr p := by
    intro p hp
    rcases hp with h0 | ⟨tp, htp⟩
    · exact Or.inl h0
    · obtain ⟨tx, hx, _⟩ := new p tp htp
      exact Or.inr ⟨tx, hx⟩
  refine ⟨?_, ?_, ?_, ?_, ?_, ?_, ?_⟩
  · intro x tx hx
    obtain ⟨t0, h0, hp⟩ := old x tx hx
    obtain ⟨p1, p2, p3, p4⟩ := h1 x t0 h0
    rw [hp] at p3 p4
    exact ⟨p1, by rw [hb]; exact p2, p3, keep _ p4⟩
  · intro d
    rw [hs]
    exact keep _ (h2 d)
  · rw [hs]
    exact h3
  · intro x y tx ty hx hy heq hne
    obtain ⟨t0, h0, hp⟩ := old x tx hx
    obtain ⟨t1, h1', hq⟩ := old y ty hy
    exact h4 x y t0 t1 h0 h1' (by rw [hp, hq]; exact heq) (by rw [hp]; exact hne)
  · intro d x tx hx hne
    obtain ⟨t0, h0, hp⟩ := old x tx hx
    rw [hs, ← hp]
    exact h5 d x t0 h0 (by rw [hp]; exact hne)
  · intro x tx hx
    obtain ⟨t0, h0, _⟩ := old x tx hx
    rcases h6 x t0 h0 with ⟨d, hd⟩ | ⟨y, ty, hy, hyp⟩
    · exact Or.inl ⟨d, by rw [hs]; exact hd⟩
    · obtain ⟨ty', hy', hp'⟩ := new y ty hy
      exact Or.inr ⟨y, ty', hy', by rw [hp']; exact hyp⟩
  · intro x hx
    rw [hf] at hx
    obtain ⟨p1, p2⟩ := h7 x hx
    refine ⟨?_, by rw [hb]; exact p2⟩
    by_cases e : x = c
    · rw [e, hl] at p1
      cases p1
    · rw [hh, Function.update_noteq e]
      exact p1

/-- Each way a handler changes the slots and the contexts keeps their shape. -/
theorem inv_moves {a b : State} (m : Moves a b) : SlotChains a → SlotChains b := by
  induction m with
  | same hs hh hb hf => exact inv_same hs hh hb hf
  | push d tw running hs hh hb hf => exact inv_push d tw running hs hh hb hf
  | pop d t hc hl hs hh hb hf => exact inv_pop d t hc hl hs hh hb hf
  | retime c t running _ hl hs hh hb hf => exact inv_retime c t running hl hs hh hb hf
  | trans _ _ ih1 ih2 => exact fun h => ih2 (ih1 h)

/-- An engine call changes neither slots nor contexts. -/
theorem moves_emit (st : State) (c : Call) : Moves st (st.emit c) :=
  Moves.same rfl rfl rfl rfl

/-- A successful `linked_timer::start` wrote the running flag of a live context. -/
theorem linked_timer_start_moves {st st' : State} {p : Nat}
    (h : linked_timer.start st p = .ok st') : Moves st st' := by
  obtain ⟨t, ht, _⟩ := bind_ok h
  obtain ⟨hp, hl⟩ := deref_ok ht
  rw [linked_timer_start_eq hp hl] at h
  simp only [Except.ok.injEq] at h
  subst h
  exact Moves.retime p t true hp hl rfl rfl rfl rfl

/-- A successful `linked_timer::yield` wrote the running flag of a live context. -/
theorem linked_timer_yield_moves {st st' : State} {p : Nat}
    (h : linked_timer.yield st p = .ok st') : Moves st st' := by
  obtain ⟨t, ht, _⟩ := bind_ok h
  obtain ⟨hp, hl⟩ := deref_ok ht
  rw [linked_timer_yield_eq hp hl] at h
  simp only [Except.ok.injEq] at h
  subst h
  exact Moves.retime p t false hp hl rfl rfl rfl rfl

/-- A successful `apex_ompt_start` pushed one new context on its slot. -/
theorem apex_ompt_start_moves {st st' : State} {name : String} {od rd : Option Nat}
    {auto_start : Bool} (h : apex_ompt_start st name od rd auto_start = .ok st') :
    Moves st st' := by
  unfold apex_ompt_start at h
  obtain ⟨d, _, h⟩ := bind_ok h
  have key : ∀ (parent : Option Nat) (id : Nat),
      (new_linked_timer st name id (st.slots d) parent auto_start >>= fun r =>
        (pure (r.2.setPtr d r.1) : Except Fault State)) = .ok st' → Moves st st' := by
    intro parent id hk
    rw [new_linked_timer_eq] at hk
    simp only [bind, Except.bind, pure, Except.pure, Except.ok.injEq] at hk
    subst hk
    exact Moves.push d (st.tasks + 1) auto_start rfl rfl rfl rfl
  by_cases hc : st.slots d = 0 ∧ rd ≠ none
  · simp only [hc, and_self, ne_eq, not_false_eq_true, if_true] at h
    obtain ⟨r, _, h⟩ := bind_ok h
    by_cases hp : st.slots r = 0
    · simp only [hp, not_true_eq_false, if_false] at h
      have h' := key none 0
      rw [hc.1] at h'
      exact h' h
    · simp only [hp, not_false_eq_true, if_true] at h
      obtain ⟨pt, _, h⟩ := bind_ok h
      have h' := key (some pt.tw) 0
      rw [hc.1] at h'
      exact h' h
  · simp only [hc, if_false] at h
    exact key none _ h

/-- A successful `apex_ompt_stop` deleted the context of its slot and rewound the slot. -/
theorem apex_ompt_stop_moves {asserts : Bool} {st st' : State} {od : Option Nat}
    (h : apex_ompt_stop asserts st od = .ok st') : Moves st st' := by
  unfold apex_ompt_stop at h
  obtain ⟨d, _, h⟩ := bind_ok h
  by_cases hc : (asserts && st.slots d == 0) = true
  · simp [hc, bind, Except.bind, throw, throwThe, MonadExceptOf.throw] at h
  · simp only [hc] at h
    obtain ⟨_, _, h⟩ := bind_ok h
    obtain ⟨t, ht, h⟩ := bind_ok h
    obtain ⟨hp, hl⟩ := deref_ok ht
    rw [delete_linked_timer_eq hp hl] at h
    simp only [bind, Except.bind, pure, Except.pure, Except.ok.injEq] at h
    subst h
    exact Moves.pop d t hp hl rfl rfl rfl rfl

/-- A successful `apex_task_schedule` suspended or deleted the prior context, then wrote the
running flag of the next one. -/
theorem apex_task_schedule_moves {st st' : State} {pr nx : Option Nat} {s : Int}
    (h : apex_task_schedule st pr s nx = .ok st') : Moves st st' := by
  unfold apex_task_schedule at h
  obtain ⟨s1, hprior, h⟩ := bind_ok h
  obtain ⟨nd, _, h⟩ := bind_ok h
  have h1 : Moves st s1 := by
    cases pr with
    | none =>
      simp only [pure, Except.pure, Except.ok.injEq] at hprior
      subst hprior
      exact Moves.same rfl rfl rfl rfl
    | some pd =>
      simp only at hprior
      by_cases hp : st.slots pd = 0
      · simp only [hp, ne_eq, not_true_eq_false, if_false, pure, Except.pure,
          Except.ok.injEq] at hprior
        subst hprior
        exact Moves.same rfl rfl rfl rfl
      · simp only [hp, ne_eq, not_false_eq_true, if_true] at hprior
        by_cases hs : s = ompt_task_yield ∨ s = ompt_task_detach ∨ s = ompt_task_switch
        · simp only [hs, if_true] at hprior
          exact linked_timer_yield_moves hprior
        · simp only [hs, if_false] at hprior
          obtain ⟨t, ht, hprior⟩ := bind_ok hprior
          obtain ⟨_, hl⟩ := deref_ok ht
          rw [delete_linked_timer_eq hp hl] at hprior
          simp only [bind, Except.bind, pure, Except.pure, Except.ok.injEq] at hprior
          subst hprior
          exact Moves.pop pd t hp hl rfl rfl rfl rfl
  have h2 : Moves s1 st' := by
    simp only at h
    by_cases hn : s1.slots nd = 0
    · simp only [hn, ne_eq, not_true_eq_false, if_false, pure, Except.pure,
        Except.ok.injEq] at h
      subst h
      exact Moves.same rfl rfl rfl rfl
    · simp only [hn, ne_eq, not_false_eq_true, if_true] at h
      exact linked_timer_start_moves h
  exact Moves.trans h1 h2

/-- A successful `apex_ompt_work` pushed one context (Begin) or deleted one (End). -/
theorem apex_ompt_work_moves {asserts : Bool} {st st' : State} {wstype endpoint : Int}
    {par task : Option Nat} {count codeptr_ra : Nat}
    (h : apex_ompt_work asserts st wstype endpoint par task count codeptr_ra = .ok st') :
    Moves st st' := by
  unfold apex_ompt_work at h
  by_cases he : endpoint = ompt_scope_begin
  · simp only [he, if_true] at h
    by_cases hc : codeptr_ra = 0
    · simp only [hc, ne_eq, not_true_eq_false, if_false] at h
      obtain ⟨s1, hs, h⟩ := bind_ok h
      simp only [pure, Except.pure, Except.ok.injEq] at h
      subst h
      exact Moves.trans (apex_ompt_start_moves hs) (moves_emit _ _)
    · simp only [hc, ne_eq, not_false_eq_true, if_true] at h
      obtain ⟨s1, hs, h⟩ := bind_ok h
      simp only [pure, Except.pure, Except.ok.injEq] at h
      subst h
      exact Moves.trans (apex_ompt_start_moves hs) (moves_emit _ _)
  · simp only [he, if_false] at h
    exact apex_ompt_stop_moves h

/-- Every handler that returns has changed the slots and the contexts by pushes, deletions
with rewind, and writes of the running flag only. -/
theorem dispatch_moves {asserts : Bool} {self : Nat} {reg r : Registry} {st st' : State}
    {e : Event} (h : dispatch asserts self reg st e = .ok (r, st')) : Moves st st' := by
  cases e with
  | thread_begin thread_type =>
    simp only [dispatch, Except.ok.injEq] at h
    rw [apex_thread_begin_eq] at h
    simp only [Prod.mk.injEq] at h
    obtain ⟨_, rfl⟩ := h
    exact Moves.same rfl rfl rfl rfl
  | thread_end =>
    simp only [dispatch, Except.ok.injEq, Prod.mk.injEq] at h
    obtain ⟨_, rfl⟩ := h
    exact Moves.same rfl rfl rfl rfl
  | parallel_begin enc par codeptr_ra =>
    obtain ⟨s, hs, he⟩ := map_ok h
    simp only [Prod.mk.injEq] at he
    obtain ⟨_, rfl⟩ := he
    exact apex_ompt_start_moves hs
  | parallel_end par =>
    obtain ⟨s, hs, he⟩ := map_ok h
    simp only [Prod.mk.injEq] at he
    obtain ⟨_, rfl⟩ := he
    exact apex_ompt_stop_moves hs
  | task_create enc new type codeptr_ra =>
    obtain ⟨s, hs, he⟩ := map_ok h
    simp only [Prod.mk.injEq] at he
    obtain ⟨_, rfl⟩ := he
    rw [apex_task_create_eq] at hs
    exact apex_ompt_start_moves hs
  | task_schedule prior status next =>
    obtain ⟨s, hs, he⟩ := map_ok h
    simp only [Prod.mk.injEq] at he
    obtain ⟨_, rfl⟩ := he
    exact apex_task_schedule_moves hs
  | implicit_task endpoint par task flags =>
    obtain ⟨s, hs, he⟩ := map_ok h
    simp only [Prod.mk.injEq] at he
    obtain ⟨_, rfl⟩ := he
    unfold apex_implicit_task at hs
    by_cases hb : endpoint = ompt_scope_begin
    · simp only [hb, if_true] at hs
      by_cases hf : flags = ompt_task_initial
      · simp only [hf, if_true] at hs
        exact apex_ompt_start_moves hs
      · simp only [hf, if_false] at hs
        exact apex_ompt_start_moves hs
    · simp only [hb, if_false] at hs
      exact apex_ompt_stop_moves hs
  | sync_region_wait kind endpoint par task codeptr_ra =>
    obtain ⟨s, hs, he⟩ := map_ok h
    simp only [Prod.mk.injEq] at he
    obtain ⟨_, rfl⟩ := he
    unfold apex_sync_region_wait at hs
    by_cases hb : endpoint = ompt_scope_begin
    · simp only [hb, if_true] at hs
      by_cases hc : codeptr_ra = 0
      · simp only [hc, ne_eq, not_true_eq_false, if_false] at hs
        exact apex_ompt_start_moves hs
      · simp only [hc, ne_eq, not_false_eq_true, if_true] at hs
        exact apex_ompt_start_moves hs
    · simp only [hb, if_false] at hs
      exact apex_ompt_stop_moves hs
  | work wstype endpoint par task count codeptr_ra =>
    obtain ⟨s, hs, he⟩ := map_ok h
    simp only [Prod.mk.injEq] at he
    obtain ⟨_, rfl⟩ := he
    exact apex_ompt_work_moves hs
  | master endpoint par task codeptr_ra =>
    obtain ⟨s, hs, he⟩ := map_ok h
    simp only [Prod.mk.injEq] at he
    obtain ⟨_, rfl⟩ := he
    unfold apex_ompt_master at hs
    by_cases hb : endpoint = ompt_scope_begin
    · simp only [hb, if_true] at hs
      by_cases hc : codeptr_ra = 0
      · simp only [hc, ne_eq, not_true_eq_false, if_false] at hs
        exact apex_ompt_start_moves hs
      · simp only [hc, ne_eq, not_false_eq_true, if_true] at hs
        exact apex_ompt_start_moves hs
    · simp only [hb, if_false] at hs
      exact apex_ompt_stop_moves hs
  | sync_region kind endpoint par task codeptr_ra =>
    obtain ⟨s, hs, he⟩ := map_ok h
    simp only [Prod.mk.injEq] at he
    obtain ⟨_, rfl⟩ := he
    unfold apex_ompt_sync_region at hs
    by_cases hb : endpoint = ompt_scope_begin
    · simp only [hb, if_true] at hs
      by_cases hc : codeptr_ra = 0
      · simp only [hc, ne_eq, not_true_eq_false, if_false] at hs
        exact apex_ompt_start_moves hs
      · simp only [hc, ne_eq, not_false_eq_true, if_true] at hs
        exact apex_ompt_start_moves hs
    · simp only [hb, if_false] at hs
      exact apex_ompt_stop_moves hs
  | flush codeptr_ra =>
    simp only [dispatch, Except.ok.injEq, Prod.mk.injEq] at h
    obtain ⟨_, rfl⟩ := h
    unfold apex_ompt_flush
    by_cases hc : codeptr_ra = 0
    · simp only [hc, ne_eq, not_true_eq_false, if_false]
      exact moves_emit _ _
    · simp only [hc, ne_eq, not_false_eq_true, if_true]
      exact moves_emit _ _
  | cancel task flags codeptr_ra =>
    obtain ⟨s, hs, he⟩ := map_ok h
    simp only [Prod.mk.injEq] at he
    obtain ⟨_, rfl⟩ := he
    rw [apex_ompt_cancel_eq] at hs
    have h1 : Moves st { st with trace := st.trace ++ cancel_samples flags codeptr_ra } :=
      Moves.same rfl rfl rfl rfl
    exact Moves.trans h1 (apex_ompt_stop_moves hs)

/-- The shape `SlotChains` holds after every run of callbacks that starts where it holds. -/
theorem run_dispatch_inv (asserts : Bool) (es : List (Nat × Event)) :
    ∀ (reg r : Registry) (st st' : State), SlotChains st →
      run_dispatch asserts reg st es = .ok (r, st') → SlotChains st' := by
  induction es with
  | nil =>
    intro reg r st st' hi h
    simp only [run_dispatch, Except.ok.injEq, Prod.mk.injEq] at h
    rw [← h.2]
    exact hi
  | cons p es ih =>
    intro reg r st st' hi h
    obtain ⟨self, e⟩ := p
    unfold run_dispatch at h
    cases hd : dispatch asserts self reg st e with
    | error f =>
      rw [hd] at h
      cases h
    | ok q =>
      obtain ⟨r1, s1⟩ := q
      rw [hd] at h
      exact ih r1 r s1 st' (inv_moves (dispatch_moves hd) hi) h

/-- Both ends of a path of parent links are non-null pointers. -/
theorem reaches_ne_zero {st : State} {a b : Nat} (h : st.reaches a b) : a ≠ 0 ∧ b ≠ 0 := by
  induction h with
  | here h0 => exact ⟨h0, h0⟩
  | link h0 _ _ ih => exact ⟨h0, ih.2⟩

/-- Extending a path by one parent link at its far end. -/
theorem reaches_snoc {st : State} {a b : Nat} {t : linked_timer} (h : st.reaches a b)
    (hb : st.heap b = some t) (hp : t.prev ≠ 0) : st.reaches a t.prev := by
  induction h with
  | here h0 => exact State.reaches.link h0 hb (State.reaches.here hp)
  | link h0 hl _ ih => exact State.reaches.link h0 hl (ih hb)

/-- The last link of a path: the path is empty, or its end is the parent link of a live
context on the path. -/
theorem reaches_last {st : State} {a b : Nat} (h : st.reaches a b) :
    a = b ∨ ∃ c t, st.reaches a c ∧ st.heap c = some t ∧ t.prev = b := by
  induction h with
  | here _ => exact Or.inl rfl
  | @link a b t h0 hl hr ih =>
    right
    rcases ih with e | ⟨c, tc, hc, hlc, hpc⟩
    · exact ⟨a, t, State.reaches.here h0, hl, e⟩
    · exact ⟨c, tc, State.reaches.link h0 hl hc, hlc, hpc⟩

/-- Everything a live context leads to through parent links is live. -/
theorem reaches_live {st : State} (hi : SlotChains st) {a b : Nat} (h : st.reaches a b) :
    (∃ t, st.heap a = some t) → ∃ t, st.heap b = some t := by
  induction h with
  | here _ => exact id
  | @link a b t h0 hl hr ih =>
    intro _
    apply ih
    rcases (hi.live a t hl).2.2.2 with e | ht
    · exact absurd e (reaches_ne_zero hr).1
    · exact ht

/-- Two paths to the same context: one of them runs through the start of the other. -/
theorem reaches_comparable {st : State} (hi : SlotChains st) {x y a : Nat} (hx : st.reaches x a)
    (hy : st.reaches y a) : st.reaches x y ∨ st.reaches y x := by
  induction hx with
  | here _ => exact Or.inr hy
  | @link x a t h0 hl hr ih =>
    rcases ih hy with h | h
    · exact Or.inl (State.reaches.link h0 hl h)
    · rcases reaches_last h with e | ⟨c, tc, hc, hlc, hpc⟩
      · left
        rw [e]
        exact State.reaches.link h0 hl (State.reaches.here (reaches_ne_zero hr).1)
      · right
        have : c = x := hi.prev_inj c x tc t hlc hl hpc (by rw [hpc]; exact (reaches_ne_zero hr).1)
        rw [← this]
        exact hc

/-- No context is reachable from two slots. -/
theorem owns_unique {st : State} (hi : SlotChains st) {d d' a : Nat} (h : st.owns d a)
    (h' : st.owns d' a) : d = d' := by
  have key : ∀ d1 d2, st.reaches (st.slots d1) (st.slots d2) → d1 = d2 := by
    intro d1 d2 hr
    rcases reaches_last hr with e | ⟨c, tc, _, hlc, hpc⟩
    · exact hi.slot_inj d1 d2 e (reaches_ne_zero hr).1
    · exact absurd hpc.symm
        (hi.slot_prev d2 c tc hlc (by rw [hpc]; exact (reaches_ne_zero hr).2))
  rcases reaches_comparable hi h h' with hr | hr
  · exact key d d' hr
  · exact (key d' d hr).symm

/-- Every live context is reachable from some slot. -/
theorem owns_exists {st : State} (hi : SlotChains st) :
    ∀ (n a : Nat) (t : linked_timer), st.brk - a ≤ n → st.heap a = some t →
      ∃ d, st.owns d a := by
  intro n
  induction n with
  | zero =>
    intro a t hn hl
    rcases hi.referred a t hl with ⟨d, hd⟩ | ⟨b, tb, hb, hp⟩
    · exact ⟨d, by unfold State.owns; rw [hd]; exact State.reaches.here (hi.live a t hl).1⟩
    · exfalso
      have h1 := (hi.live b tb hb).2
      have h2 := (hi.live a t hl).2.1
      omega
  | succ n ih =>
    intro a t hn hl
    rcases hi.referred a t hl with ⟨d, hd⟩ | ⟨b, tb, hb, hp⟩
    · exact ⟨d, by unfold State.owns; rw [hd]; exact State.reaches.here (hi.live a t hl).1⟩
    · have h1 := (hi.live b tb hb).2
      obtain ⟨d, hd⟩ := ih b tb (by omega) hb
      refine ⟨d, ?_⟩
      have := reaches_snoc hd hb (by rw [hp]; exact (hi.live a t hl).1)
      rw [hp] at this
      exact this

/-! ## The properties of the bootstrap, the paired events and the task switch -/

/-- Claim C21, a failed subscription never aborts the rest. With `ompt_set_callback` resolved
and whatever `answers` the runtime gives to the set-callback requests, `ompt_initialize`
returns `1`, and the events it requests, in order, are those it requests when every answer is
a success (`tool2`, all answers `1`); the registry and the engine calls are the same too. The
answers are visible on `stderr` only: one failure message per request answered `0`, in the
order of the requests, and none when all succeed. -/
theorem failed_subscription_never_aborts (rt : Runtime) (answers : ompt_callbacks_t → Int)
    (self : Nat) (reg : Registry) (tool : Tool) (st : State)
    (h : rt.lookup "ompt_set_callback" = true) :
    ∃ reg' tool' tool2 st',
      ( ompt_initialize { rt with set_callback := answers } self reg tool st)
        = .ok (1, reg', tool', st') ∧
      ( ompt_initialize { rt with set_callback := fun _ => 1 } self reg tool st)
        = .ok (1, reg', tool2, st') ∧
      tool'.requests = tool2.requests ∧
      tool2.stderr = tool.stderr ∧
      tool'.stderr = tool.stderr ++ ((tool'.requests.drop tool.requests.length).filter
        fun e => answers e = 0).map
          fun e => "\n\tFailed to register OMPT callback " ++ callback_name e ++ "!\n" := by
  have h1 := ompt_initialize_eq { rt with set_callback := answers } self reg tool st h
  have h2 := ompt_initialize_eq { rt with set_callback := fun _ => 1 } self reg tool st h
  refine ⟨_, _, _, _, h1, h2, rfl, ?_, ?_⟩
  · show tool.stderr ++ _ = tool.stderr
    have : ∀ es : List ompt_callbacks_t,
        (es.map fun e => register_failure { rt with set_callback := fun _ => 1 } e
          (callback_name e)).flatten = [] := by
      intro es
      induction es with
      | nil => rfl
      | cons e es ih =>
        rw [List.map_cons, List.flatten_cons, ih]
        simp [register_failure]
    rw [this, List.append_nil]
  · show tool.stderr ++ _ = tool.stderr ++ _
    congr 1
    show _ = (((tool.requests ++ subscription rt.ompt_high_overhead_events
      rt.ompt_required_events_only).drop tool.requests.length).filter _).map _
    rw [List.drop_left]
    induction (subscription rt.ompt_high_overhead_events rt.ompt_required_events_only) with
    | nil => rfl
    | cons e es ih =>
      rw [List.map_cons, List.flatten_cons, ih]
      by_cases he : answers e = 0
      · simp [register_failure, List.filter_cons, he]
      · simp [register_failure, List.filter_cons, he]

/-- Instance of C21: with every request answered `0` and both option flags off, the four
mandatory events are still requested, in the usual order. -/
theorem failed_subscription_never_aborts_witness :
    plain_runtime.lookup "ompt_set_callback" = true ∧
    ∃ reg' tool' st',
      ( ompt_initialize { plain_runtime with set_callback := fun _ => 0 } 0 Registry.init
        Tool.init State.init) = .ok (1, reg', tool', st') ∧
      tool'.requests = [.ompt_callback_thread_begin, .ompt_callback_thread_end,
        .ompt_callback_parallel_begin, .ompt_callback_parallel_end] :=
  ⟨rfl,
    let ⟨r, t, t2, s, h1, h2, h3, _⟩ := failed_subscription_never_aborts plain_runtime
      (fun _ => 0) 0 Registry.init Tool.init State.init rfl
    ⟨r, t, s, h1, by
      rw [h3]
      have := ompt_initialize_eq { plain_runtime with set_callback := fun _ => 1 } 0
        Registry.init Tool.init State.init rfl
      rw [this] at h2
      simp only [Except.ok.injEq, Prod.mk.injEq] at h2
      rw [← h2.2.2.1]
      rfl⟩⟩

/-- Claim C22 fails as stated: a lookup that resolves every named function except
`ompt_set_callback` makes `ompt_initialize` call through a null pointer at its first
registration. -/
theorem missing_capability_counterexample :
    ( ompt_initialize { plain_runtime with lookup := fun name => name ≠ "ompt_set_callback" }
      0 Registry.init Tool.init State.init) = .error Fault.null_deref :=
  ompt_initialize_fault _ 0 Registry.init Tool.init State.init (by decide)

/-- Claim C22 as amended, missing capabilities. For every lookup function: when it resolves
`ompt_set_callback`, `ompt_initialize` returns `1` whichever of the other named functions are
absent, it stores each looked-up pointer as the lookup gave it, and it requests the same
events and writes the same messages as with a lookup that resolves every name (`tool2`): no
subscription is skipped on account of an absent function. When it does not resolve
`ompt_set_callback`, `ompt_initialize` does not return: the first registration calls through
the null pointer. -/
theorem missing_capability (rt : Runtime) (lookup : String → Bool) (self : Nat)
    (reg : Registry) (tool : Tool) (st : State) :
    (lookup "ompt_set_callback" = true →
      ∃ reg' tool' tool2 st',
        ( ompt_initialize { rt with lookup := lookup } self reg tool st)
          = .ok (1, reg', tool', st') ∧
        ( ompt_initialize { rt with lookup := fun _ => true } self reg tool st)
          = .ok (1, reg', tool2, st') ∧
        tool'.requests = tool2.requests ∧ tool'.stderr = tool2.stderr ∧
        ∀ name ∈ looked_up, tool'.fn name = lookup name) ∧
    (lookup "ompt_set_callback" = false →
      ( ompt_initialize { rt with lookup := lookup } self reg tool st)
        = .error Fault.null_deref) := by
  constructor
  · intro h
    have h1 := ompt_initialize_eq { rt with lookup := lookup } self reg tool st h
    have h2 := ompt_initialize_eq { rt with lookup := fun _ => true } self reg tool st rfl
    refine ⟨_, _, _, _, h1, h2, rfl, rfl, ?_⟩
    intro name hname
    show (if name ∈ looked_up then lookup name else tool.fn name) = lookup name
    rw [if_pos hname]
  · intro h
    exact ompt_initialize_fault { rt with lookup := lookup } self reg tool st h

/-- Instance of C22 as amended: a lookup resolving `ompt_set_callback` only. -/
theorem missing_capability_witness :
    ∃ reg' tool' st',
      ( ompt_initialize { plain_runtime with lookup := fun name => name = "ompt_set_callback" }
        0 Registry.init Tool.init State.init) = .ok (1, reg', tool', st') ∧
      tool'.fn "ompt_finalize_tool" = false ∧ tool'.fn "ompt_set_callback" = true :=
  let ⟨r, t, _, s, h1, _, _, _, h5⟩ :=
    (missing_capability plain_runtime (fun name => name = "ompt_set_callback") 0
      Registry.init Tool.init State.init).1 (by decide)
  ⟨r, t, s, h1, by rw [h5 _ (by decide)]; decide, by rw [h5 _ (by decide)]; decide⟩

/-- Claim C23, forced shutdown. After an `ompt_initialize` that returned, `ompt_force_shutdown`
calls the runtime through `ompt_finalize_tool` once when the lookup resolved that name, and
makes no call when the lookup gave null; before any initialization (`Tool.init`, the runtime
never attached) it makes no call either. In general it makes one call when the stored pointer
is not null and none otherwise, and it always returns. -/
theorem forced_shutdown (rt : Runtime) (self : Nat) (reg : Registry) (tool : Tool)
    (st : State) (calls : Nat) (h : rt.lookup "ompt_set_callback" = true) :
    (∃ reg' tool' st', ( ompt_initialize rt self reg tool st) = .ok (1, reg', tool', st') ∧
      (rt.lookup "ompt_finalize_tool" = true → ompt_force_shutdown tool' calls = calls + 1) ∧
      (rt.lookup "ompt_finalize_tool" = false → ompt_force_shutdown tool' calls = calls)) ∧
    ompt_force_shutdown Tool.init calls = calls ∧
    (tool.fn "ompt_finalize_tool" = true → ompt_force_shutdown tool calls = calls + 1) ∧
    (tool.fn "ompt_finalize_tool" = false → ompt_force_shutdown tool calls = calls) := by
  have hmem : "ompt_finalize_tool" ∈ looked_up := by decide
  refine ⟨⟨_, _, _, ompt_initialize_eq rt self reg tool st h, ?_, ?_⟩, rfl, ?_, ?_⟩
  · intro hf
    show (if (if "ompt_finalize_tool" ∈ looked_up then rt.lookup "ompt_finalize_tool"
      else tool.fn "ompt_finalize_tool") = true then calls + 1 else calls) = calls + 1
    rw [if_pos hmem, hf, if_pos rfl]
  · intro hf
    show (if (if "ompt_finalize_tool" ∈ looked_up then rt.lookup "ompt_finalize_tool"
      else tool.fn "ompt_finalize_tool") = true then calls + 1 else calls) = calls
    rw [if_pos hmem, hf]
    rfl
  · intro hf
    simp [ompt_force_shutdown, hf]
  · intro hf
    simp [ompt_force_shutdown, hf]

/-- Instance of C23: one call after initialization under `plain_runtime`, none on the statics
as loaded. -/
theorem forced_shutdown_witness :
    plain_runtime.lookup "ompt_set_callback" = true ∧
    ∃ reg' tool' st',
      ( ompt_initialize plain_runtime 0 Registry.init Tool.init State.init)
        = .ok (1, reg', tool', st') ∧
      ompt_force_shutdown tool' 0 = 1 ∧ ompt_force_shutdown Tool.init 0 = 0 :=
  ⟨rfl,
    let ⟨⟨r, t, s, h1, h2, _⟩, h3, _⟩ :=
      forced_shutdown plain_runtime 0 Registry.init Tool.init State.init 0 rfl
    ⟨r, t, s, h1, h2 rfl, h3⟩⟩

/-- Claim C24 fails as stated: a parallel region begins on slot `1`, its implicit task begins
on the task slot `2`, and a work region begins and ends on the same task slot. The End of the
work region restores the context of the implicit task (address `2`, still live) into the
slot, not null. -/
theorem end_leaves_null_counterexample :
    ∃ reg st, run_dispatch true Registry.init State.init
        [(0, .parallel_begin none (some 1) 0),
         (0, .implicit_task ompt_scope_begin (some 1) (some 2) ompt_task_implicit),
         (0, .work ompt_work_loop ompt_scope_begin (some 1) (some 2) 8 0),
         (0, .work ompt_work_loop ompt_scope_end (some 1) (some 2) 8 0)] = .ok (reg, st) ∧
      st.slots 2 = 2 ∧ st.slots 2 ≠ 0 ∧ st.heap 2 = some ⟨0, 2, true⟩ :=
  ⟨_, _, rfl, rfl, by decide, rfl⟩

/-- Claim C24 as amended, End restores what the slot held at Begin. For a Begin callback `b`
of a parallel region, implicit task, sync region wait, work region, master region or sync
region on the slot `d`, whatever `d` holds, then a well-nested sequence `mid` of Begin and
End events on `d`, then an End callback `e` of any of these kinds on `d`: the three steps
return; Begin leaves the new context in the slot, with the old content of the slot as its
parent link; End restores into the slot the value it held when Begin was delivered, which is
null exactly when the slot was null then; every slot and every live context is as before
Begin. Assumed: `new` never returns the address of a live context, and the enclosing slots
read hold null or a live context. -/
theorem end_restores_begin_value (asserts : Bool) (self : Nat) (reg : Registry) (st : State)
    (d : Nat) (b e : Event) (mid : List Ev)
    (hb : b.begins_on d = true) (he : e.ends_on d = true)
    (hmid : nested_from 0 mid = true)
    (halloc : ∀ a, st.brk < a → st.heap a = none)
    (hreg : ∀ r, b.enclosing = some r → st.slots d = 0 → st.okPtr (st.slots r))
    (hmidreg : ∀ name r, Ev.Begin name (some r) ∈ mid → st.okPtr (st.slots r)) :
    ∃ s1 s2 s3, dispatch asserts self reg st b = .ok (reg, s1) ∧
      s1.slots d = st.brk + 1 ∧
      s1.heap (st.brk + 1) = some ⟨st.slots d, st.tasks + 1, true⟩ ∧
      run_events asserts d s1 mid = .ok s2 ∧
      dispatch asserts self reg s2 e = .ok (reg, s3) ∧
      s3.slots d = st.slots d ∧ (s3.slots d = 0 ↔ st.slots d = 0) ∧
      s3.slots = st.slots ∧ s3.heap = st.heap := by
  obtain ⟨label, S, hbegin⟩ := dispatch_begin asserts self reg d b hb
  have h1 := hbegin st
  rw [apex_ompt_start_eq st label d b.enclosing true hreg] at h1
  have hfresh : st.heap (st.brk + 1) = none := halloc _ (Nat.lt_succ_self _)
  obtain ⟨s2, hrun, hbal⟩ := run_well_nested asserts d (wellNested_of_nested_from hmid)
    { started st label d (engine_parent st d b.enclosing) true with
      trace := (started st label d (engine_parent st d b.enclosing) true).trace ++ S }
    (fun a ha => by
      have ha' : st.brk + 1 < a := ha
      show Function.update st.heap (st.brk + 1) _ a = none
      rw [Function.update_noteq (by omega)]
      exact halloc a (by omega))
    (fun name r hr => by
      show State.okPtr _ (Function.update st.slots d (st.brk + 1) r)
      by_cases e : r = d
      · rw [e, Function.update_same]
        right
        exact ⟨_, Function.update_same _ _ _⟩
      · rw [Function.update_noteq e]
        rcases hmidreg name r hr with h0 | ⟨t, ht⟩
        · exact Or.inl h0
        · right
          refine ⟨t, ?_⟩
          show Function.update st.heap (st.brk + 1) _ (st.slots r) = _
          rw [Function.update_noteq]
          · exact ht
          · intro e'
            rw [e', hfresh] at ht
            cases ht)
  have hs2 : s2.slots d = st.brk + 1 := by
    rw [hbal.slots]
    exact Function.update_same _ _ _
  have hl2 : s2.heap (s2.slots d) = some ⟨st.slots d, st.tasks + 1, true⟩ := by
    rw [hs2, hbal.heap]
    exact Function.update_same _ _ _
  have h3 := dispatch_end asserts self reg d e he s2
  rw [apex_ompt_stop_eq asserts (by rw [hs2]; exact Nat.succ_ne_zero _) hl2] at h3
  have hslots : (stopped s2 d (s2.slots d) ⟨st.slots d, st.tasks + 1, true⟩).slots
      = st.slots := by
    show Function.update s2.slots d (st.slots d) = st.slots
    rw [hbal.slots]
    show Function.update (Function.update st.slots d (st.brk + 1)) d (st.slots d) = st.slots
    rw [Function.update_idem, Function.update_eq_self]
  refine ⟨_, s2, _, h1, Function.update_same _ _ _, Function.update_same _ _ _, hrun, h3,
    ?_, ?_, hslots, ?_⟩
  · rw [hslots]
  · rw [hslots]
  · show Function.update s2.heap (s2.slots d) none = st.heap
    rw [hs2, hbal.heap]
    show Function.update (Function.update st.heap (st.brk + 1) _) (st.brk + 1) none = st.heap
    rw [Function.update_idem, Function.update_eq_self_iff]
    exact hfresh.symm

/-- Instance of C24 as amended: a work region begun and ended on slot `2` of `two_running`,
which holds the context of the implicit task at address `2`; the slot holds `2` again after
End. -/
theorem end_restores_begin_value_witness :
    Event.begins_on 2 (.work ompt_work_loop ompt_scope_begin (some 1) (some 2) 8 0) = true ∧
    Event.ends_on 2 (.work ompt_work_loop ompt_scope_end (some 1) (some 2) 8 0) = true ∧
    two_running.slots 2 = 2 ∧
    ∃ s1 s3, dispatch true 0 Registry.init two_running
        (.work ompt_work_loop ompt_scope_begin (some 1) (some 2) 8 0)
        = .ok (Registry.init, s1) ∧
      s1.slots 2 = 3 ∧
      dispatch true 0 Registry.init s1
        (.work ompt_work_loop ompt_scope_end (some 1) (some 2) 8 0)
        = .ok (Registry.init, s3) ∧
      s3.slots 2 = 2 :=
  ⟨rfl, rfl, rfl,
    let ⟨s1, _, s3, h1, h2, _, h3, h4, h5, _⟩ :=
      end_restores_begin_value true 0 Registry.init two_running 2
        (.work ompt_work_loop ompt_scope_begin (some 1) (some 2) 8 0)
        (.work ompt_work_loop ompt_scope_end (some 1) (some 2) 8 0) [] rfl rfl rfl
        (fun a ha => by
          have h2 : 2 < a := ha
          show (if a = 1 then some _ else if a = 2 then some _ else none) = none
          rw [if_neg (by omega), if_neg (by omega)])
        (fun r _ h => absurd h (by decide))
        (fun _ _ h => absurd h (List.not_mem_nil _))
    ⟨s1, s3, h1, h2, by
      simp only [run_events, Except.ok.injEq] at h3
      rw [h3]
      exact h4, h5⟩⟩

/-- Claim C25, single-owner invariant. In every state `st` reached from the initial state by
a run of callbacks that all returned (any callbacks, any threads): every live context is
reachable, through slot content and parent links, from one slot and from no other; no context
is reachable from two slots; everything reachable from a slot is live; every parent link and
every slot is null or the address of a live context; and an address passed to `delete` is
not live and not reachable from any slot. -/
theorem single_owner (asserts : Bool) (es : List (Nat × Event)) (reg : Registry) (st : State)
    (h : run_dispatch asserts Registry.init State.init es = .ok (reg, st)) :
    (∀ a t, st.heap a = some t → ∃ d, st.owns d a ∧ ∀ d', st.owns d' a → d' = d) ∧
    (∀ d d' a, st.owns d a → st.owns d' a → d = d') ∧
    (∀ d a, st.owns d a → ∃ t, st.heap a = some t) ∧
    (∀ a t, st.heap a = some t → t.prev = 0 ∨ ∃ t', st.heap t.prev = some t') ∧
    (∀ d, st.slots d = 0 ∨ ∃ t, st.heap (st.slots d) = some t) ∧
    (∀ a, a ∈ st.freed → st.heap a = none ∧ ∀ d, ¬ st.owns d a) := by
  have hi : SlotChains st := run_dispatch_inv asserts es _ _ _ _ inv_init h
  have live : ∀ d a, st.owns d a → ∃ t, st.heap a = some t := by
    intro d a ho
    apply reaches_live hi ho
    rcases hi.slot d with e | ht
    · exact absurd e (reaches_ne_zero ho).1
    · exact ht
  refine ⟨?_, ?_, live, ?_, hi.slot, ?_⟩
  · intro a t hl
    obtain ⟨d, hd⟩ := owns_exists hi (st.brk - a) a t (Nat.le_refl _) hl
    exact ⟨d, hd, fun d' hd' => owns_unique hi hd' hd⟩
  · intro d d' a h1 h2
    exact owns_unique hi h1 h2
  · intro a t hl
    exact (hi.live a t hl).2.2.2
  · intro a ha
    refine ⟨(hi.freed a ha).1, ?_⟩
    intro d ho
    obtain ⟨t, ht⟩ := live d a ho
    rw [(hi.freed a ha).1] at ht
    cases ht

/-- Instance of C25: after parallel region begin on slot `1`, implicit task begin and work
begin on slot `2`, the context of the implicit task (address `2`) lies under the work context
in the chain of slot `2` and is reachable from that slot only. -/
theorem single_owner_witness :
    ∃ reg st, run_dispatch true Registry.init State.init
        [(0, .parallel_begin none (some 1) 0),
         (0, .implicit_task ompt_scope_begin (some 1) (some 2) ompt_task_implicit),
         (0, .work ompt_work_loop ompt_scope_begin (some 1) (some 2) 8 0)] = .ok (reg, st) ∧
      st.heap 2 = some ⟨0, 2, true⟩ ∧ st.slots 2 = 3 ∧
      ∃ d, st.owns d 2 ∧ ∀ d', st.owns d' 2 → d' = d :=
  ⟨_, _, rfl, rfl, rfl,
    (single_owner true
      [(0, .parallel_begin none (some 1) 0),
       (0, .implicit_task ompt_scope_begin (some 1) (some 2) ompt_task_implicit),
       (0, .work ompt_work_loop ompt_scope_begin (some 1) (some 2) 8 0)] _ _ rfl).1 2 _ rfl⟩

/-- Claim C26 fails as stated: two contexts created on null slots (unknown id `0`) are both
handed to the engine with the identifier `UINT64_MAX`; they are distinct contexts in distinct
slots. -/
theorem unknown_id_counterexample :
    ∃ st1 st2, apex_ompt_start State.init "a" (some 1) none true = .ok st1 ∧
      apex_ompt_start st1 "b" (some 2) none true = .ok st2 ∧
      st2.trace = [Call.new_task "a" UINT64_MAX none 1, Call.start 1,
        Call.new_task "b" UINT64_MAX none 2, Call.start 2] ∧
      st2.slots 1 ≠ st2.slots 2 :=
  ⟨_, _, rfl, rfl, by decide, by decide⟩

/-- Claim C26 as amended, unknown id. For every two contexts created one after the other with
the unknown id `0`, the constructor hands the engine the same identifier, the sentinel
`UINT64_MAX`, in both `new_task` calls; what tells the two contexts apart is the task wrapper
the engine answers with (`st.tasks + 1`, then `st.tasks + 2`) and their addresses. -/
theorem unknown_id_sentinel (st : State) (name name' : String) (p p' : Nat)
    (parent parent' : Option Nat) (auto_start auto_start' : Bool) :
    ∃ a st1, new_linked_timer st name 0 p parent auto_start = .ok (a, st1) ∧
      st1.trace = st.trace ++ Call.new_task name UINT64_MAX parent (st.tasks + 1) ::
        (if auto_start then [Call.start (st.tasks + 1)] else []) ∧
      ∃ a' st2, new_linked_timer st1 name' 0 p' parent' auto_start' = .ok (a', st2) ∧
        st2.trace = st1.trace ++ Call.new_task name' UINT64_MAX parent' (st.tasks + 2) ::
          (if auto_start' then [Call.start (st.tasks + 2)] else []) ∧
        a ≠ a' := by
  refine ⟨_, _, new_linked_timer_eq st name 0 p parent auto_start, rfl, _, _,
    new_linked_timer_eq _ name' 0 p' parent' auto_start', rfl, ?_⟩
  show st.brk + 1 ≠ st.brk + 1 + 1
  omega

/-- Claim C27, no address, no suffix: the code departs from it at parallel-region begin. For
every other event kind that takes a call-site address, the labels read off an event with a
null address are the base labels of the kind. For parallel-region begin with a null address
the label is "OpenMP Parallel Region: UNRESOLVED ADDR (nil)", the base label followed by the
suffix with `%p` of the null pointer: from the initial state the handler hands exactly this
label to `new_task`, where a master begin with a null address hands "OpenMP Master". -/
theorem null_address_parallel_label :
    (∀ e : Event, e.has_codeptr = true → (∀ enc par c, e ≠ .parallel_begin enc par c) →
      event_names (e.at_codeptr 0) = event_bases e) ∧
    (∀ enc par, event_names (.parallel_begin enc par 0)
        = ["OpenMP Parallel Region: UNRESOLVED ADDR (nil)"] ∧
      event_bases (.parallel_begin enc par 0) = ["OpenMP Parallel Region"]) ∧
    (∃ st', apex_parallel_region_begin State.init none (some 1) 0 = .ok st' ∧
      st'.trace = [Call.new_task "OpenMP Parallel Region: UNRESOLVED ADDR (nil)" UINT64_MAX
        none 1, Call.start 1]) ∧
    (∃ st', apex_ompt_master true State.init ompt_scope_begin none (some 1) 0 = .ok st' ∧
      st'.trace = [Call.new_task "OpenMP Master" UINT64_MAX none 1, Call.start 1]) := by
  refine ⟨?_, fun enc par => ⟨rfl, rfl⟩, ⟨_, rfl, by decide⟩, ⟨_, rfl, by decide⟩⟩
  intro e he hne
  cases e with
  | parallel_begin enc par c => exact absurd rfl (hne enc par c)
  | task_create enc new type c => simp [event_names, event_bases, Event.at_codeptr, with_addr]
  | sync_region_wait kind endpoint par task c =>
    simp [event_names, event_bases, Event.at_codeptr, with_addr]
  | work wstype endpoint par task count c =>
    simp [event_names, event_bases, Event.at_codeptr, with_addr]
  | master endpoint par task c => simp [event_names, event_bases, Event.at_codeptr, with_addr]
  | sync_region kind endpoint par task c =>
    simp [event_names, event_bases, Event.at_codeptr, with_addr]
  | flush c => simp [event_names, event_bases, Event.at_codeptr, with_addr]
  | cancel task flags c => simp [event_names, event_bases, Event.at_codeptr, with_addr]
  | thread_begin _ => cases he
  | thread_end => cases he
  | parallel_end _ => cases he
  | task_schedule _ _ _ => cases he
  | implicit_task _ _ _ _ => cases he

/-- Claim C28 fails as stated: a loop Begin with count `2 ^ 53 + 1` in `two_running` makes
its `sample_value` call with the value `2 ^ 53`, the `double` nearest to the count, not with
the count. -/
theorem work_sample_value_counterexample :
    ∃ st', apex_ompt_work true two_running ompt_work_loop ompt_scope_begin (some 1) (some 2)
        (2 ^ 53 + 1) 0 = .ok st' ∧
      samples (st'.trace.drop two_running.trace.length)
        = [("Iterations: OpenMP Work Loop", 2 ^ 53)] ∧
      (2 ^ 53 : Nat) ≠ 2 ^ 53 + 1 :=
  ⟨_, rfl, by decide, by decide⟩

/-- Claim C28 as amended, derived sample name on work begin. A work-region Begin makes three
engine calls: `new_task` with the timer label, `start`, and one `sample_value` whose name is
the count-type string of the work kind, then ": ", then that same timer label, and whose
value is `count` converted to `double`; the label is the work label with the call-site suffix
when the address is not null. The converted value is `count` itself when `count` is at most
`2 ^ 53`, and is never further than `1024` from `count`; for a 64-bit `count` it is a
significand `m` of at most `2 ^ 53` times a power of two `2 ^ e`, `e ≤ 11`, within half of
`2 ^ e` of `count`. A work-region End on a slot holding a live context makes no
`sample_value` call. Assumed for Begin: the parallel slot read holds null or a live
context. -/
theorem work_sample_name (asserts : Bool) (st : State) (wstype : Int) (par : Option Nat)
    (task count codeptr_ra : Nat) :
    ((∀ r, par = some r → st.slots task = 0 → st.okPtr (st.slots r)) →
      ∃ st' label id parent,
        apex_ompt_work asserts st wstype ompt_scope_begin par (some task) count codeptr_ra
          = .ok st' ∧
        st'.trace = st.trace ++ [Call.new_task label id parent (st.tasks + 1),
          Call.start (st.tasks + 1),
          Call.sample_value (work_count_type wstype ++ ": " ++ label)
            (uint64_to_double count)] ∧
        label = (if codeptr_ra ≠ 0 then
          "OpenMP Work " ++ work_str wstype ++ ": UNRESOLVED ADDR " ++ fmt_p codeptr_ra
          else "OpenMP Work " ++ work_str wstype)) ∧
    (count ≤ 2 ^ 53 → uint64_to_double count = count) ∧
    (uint64_to_double count ≤ count + 1024 ∧ count ≤ uint64_to_double count + 1024) ∧
    (count < 2 ^ 64 → ∃ m e, e ≤ 11 ∧ m ≤ 2 ^ 53 ∧ uint64_to_double count = m * 2 ^ e ∧
      2 * (m * 2 ^ e) ≤ 2 * count + 2 ^ e ∧ 2 * count ≤ 2 * (m * 2 ^ e) + 2 ^ e) ∧
    (∀ (endpoint : Int) (c : linked_timer), endpoint ≠ ompt_scope_begin →
      st.slots task ≠ 0 → st.heap (st.slots task) = some c →
      ∃ st' T, apex_ompt_work asserts st wstype endpoint par (some task) count codeptr_ra
          = .ok st' ∧
        st'.trace = st.trace ++ T ∧ samples T = []) := by
  refine ⟨?_, ?_, uint64_to_double_near count, uint64_to_double_rounds count, ?_⟩
  · intro hpar
    refine ⟨_, with_addr ("OpenMP Work " ++ work_str wstype) codeptr_ra,
      (if st.slots task = 0 then UINT64_MAX else st.slots task), engine_parent st task par,
      apex_ompt_work_begin_eq asserts st wstype par task count codeptr_ra hpar, ?_, rfl⟩
    show (st.trace ++ _) ++ _ = _
    rw [List.append_assoc]
    rfl
  · intro hle
    rcases Nat.lt_or_eq_of_le hle with hlt | heq
    · exact uint64_to_double_exact count hlt
    · rw [heq]
      decide
  · intro endpoint c he hd hlive
    have : apex_ompt_work asserts st wstype endpoint par (some task) count codeptr_ra
        = apex_ompt_stop asserts st (some task) := by
      unfold apex_ompt_work
      simp only [he, if_false]
    rw [this, apex_ompt_stop_eq asserts hd hlive]
    refine ⟨_, _, rfl, rfl, ?_⟩
    cases c.timing <;> rfl

/-- Instance of C28 as amended: a sections Begin with count `4` and no call-site address, in
`two_running`; the value of the sample is `4`. -/
theorem work_sample_name_witness :
    ∃ st' label id parent,
      apex_ompt_work true two_running ompt_work_sections ompt_scope_begin (some 1) (some 2) 4 0
        = .ok st' ∧
      st'.trace = two_running.trace ++ [Call.new_task label id parent 3, Call.start 3,
        Call.sample_value ("Sections" ++ ": " ++ label) 4] ∧
      label = "OpenMP Work Sections" :=
  let ⟨s, l, i, p, h1, h2, h3⟩ :=
    (work_sample_name true two_running ompt_work_sections (some 1) 2 4 0).1
      (fun r hr h0 => by cases hr; exact Or.inr ⟨⟨0, 1, true⟩, rfl⟩)
  ⟨s, l, i, p, h1, by rw [h2]; rfl, by rw [h3]; decide⟩

/-- Claim C29, order inside a task switch. With a live prior context `c` and a live next
context `x`: under status yield, detach or switch the engine calls of the event are
`yield c` then `start x`; under any other status they are the `stop` of `c` (when `c` was
running) then `start x`, `x` being what the next slot holds after the rewind of the prior
slot. For every task-schedule event that returns, whatever its arguments, the engine calls
are at most one `yield` or `stop` followed by at most one `start`: the `start` is last and
there is at most one. -/
theorem schedule_order (st : State) (p n : Nat) (c x : linked_timer) (s : Int)
    (hp : st.slots p ≠ 0) (hlive : st.heap (st.slots p) = some c) :
    ((s = ompt_task_yield ∨ s = ompt_task_detach ∨ s = ompt_task_switch) →
      st.slots n ≠ 0 → st.heap (st.slots n) = some x →
      ∃ st', apex_task_schedule st (some p) s (some n) = .ok st' ∧
        st'.trace = st.trace ++ [Call.yield c.tw, Call.start x.tw]) ∧
    (¬ (s = ompt_task_yield ∨ s = ompt_task_detach ∨ s = ompt_task_switch) →
      Function.update st.slots p c.prev n ≠ 0 →
      Function.update st.slots p c.prev n ≠ st.slots p →
      st.heap (Function.update st.slots p c.prev n) = some x →
      ∃ st', apex_task_schedule st (some p) s (some n) = .ok st' ∧
        st'.trace = st.trace ++ (if c.timing then [Call.stop c.tw] else [])
          ++ [Call.start x.tw]) ∧
    ∀ (pr nx : Option Nat) (st' : State), apex_task_schedule st pr s nx = .ok st' →
      ∃ P S, st'.trace = st.trace ++ P ++ S ∧
        (P = [] ∨ ∃ tw, P = [Call.yield tw] ∨ P = [Call.stop tw]) ∧
        (S = [] ∨ ∃ tw, S = [Call.start tw]) ∧
        (starts (P ++ S)).length ≤ 1 := by
  refine ⟨?_, ?_, ?_⟩
  · intro hs hn hx
    rw [schedule_prior_yield _ hs hp hlive]
    have hn1 : (yielded st (st.slots p) c).slots n ≠ 0 := hn
    by_cases hsame : st.slots n = st.slots p
    · have hl : (yielded st (st.slots p) c).heap ((yielded st (st.slots p) c).slots n)
          = some { c with timing := false } := by
        show Function.update st.heap (st.slots p) _ (st.slots n) = _
        rw [hsame, Function.update_same]
      have hxc : x = c := by
        rw [hsame, hlive] at hx
        exact (Option.some.inj hx).symm
      rw [start_next_live hn1 hl, hxc]
      refine ⟨_, rfl, ?_⟩
      show (st.trace ++ _) ++ _ = _
      rw [List.append_assoc]
      rfl
    · have hl : (yielded st (st.slots p) c).heap ((yielded st (st.slots p) c).slots n)
          = some x := by
        show Function.update st.heap (st.slots p) _ (st.slots n) = _
        rw [Function.update_noteq hsame]
        exact hx
      rw [start_next_live hn1 hl]
      refine ⟨_, rfl, ?_⟩
      show (st.trace ++ _) ++ _ = _
      rw [List.append_assoc]
      rfl
  · intro hs hn hne hx
    rw [schedule_prior_terminal _ hs hp hlive]
    have hn1 : (stopped st p (st.slots p) c).slots n ≠ 0 := hn
    have hl : (stopped st p (st.slots p) c).heap ((stopped st p (st.slots p) c).slots n)
        = some x := by
      show Function.update st.heap (st.slots p) none (Function.update st.slots p c.prev n) = _
      rw [Function.update_noteq hne]
      exact hx
    rw [start_next_live hn1 hl]
    exact ⟨_, rfl, rfl⟩
  · intro pr nx st' h
    obtain ⟨P, S, hT, hP, hS⟩ := apex_task_schedule_calls h
    refine ⟨P, S, hT, hP, hS, ?_⟩
    rw [starts_append]
    have h1 : starts P = [] := by
      rcases hP with rfl | ⟨tw, rfl | rfl⟩ <;> rfl
    rw [h1]
    rcases hS with rfl | ⟨tw, rfl⟩
    · exact Nat.zero_le _
    · exact Nat.le_refl _

/-- Instance of C29: a switch from slot `1` to slot `2` in `two_running`. -/
theorem schedule_order_witness :
    two_running.slots 1 ≠ 0 ∧ two_running.slots 2 ≠ 0 ∧
    ∃ st', apex_task_schedule two_running (some 1) ompt_task_switch (some 2) = .ok st' ∧
      st'.trace = two_running.trace ++ [Call.yield 1, Call.start 2] :=
  ⟨by decide, by decide,
    (schedule_order two_running 1 2 ⟨0, 1, true⟩ ⟨0, 2, true⟩ ompt_task_switch (by decide)
      rfl).1 (Or.inr (Or.inr rfl)) (by decide) rfl⟩

/-- Claim C30, aliased prior and next. The same slot `p` given as prior and next, with a
terminal status and a live context `c` in the slot: the event returns; `c` is stopped (when
running) and released, and the slot is rewound to the parent link of `c`. When that parent
link is null no `start` call is made. When it is the address of a live context `x`, the one
`start` call is on `x`, whose running flag is set, and the released `c` is neither started
nor written: its address stays released. In every state reached from the initial state by
callbacks that returned, one of the two cases applies: the parent link of `c` is null, or it
is the address of a live context other than `c`. -/
theorem aliased_prior_next (st : State) (p : Nat) (c : linked_timer) (s : Int)
    (hs : ¬ (s = ompt_task_yield ∨ s = ompt_task_detach ∨ s = ompt_task_switch))
    (hp : st.slots p ≠ 0) (hlive : st.heap (st.slots p) = some c) :
    (c.prev = 0 →
      ∃ st', apex_task_schedule st (some p) s (some p) = .ok st' ∧
        st'.trace = st.trace ++ (if c.timing then [Call.stop c.tw] else []) ∧
        starts (st'.trace.drop st.trace.length) = [] ∧
        st'.slots p = 0 ∧ st'.heap (st.slots p) = none ∧
        st'.freed = st.freed ++ [st.slots p]) ∧
    (∀ x : linked_timer, c.prev ≠ 0 → c.prev ≠ st.slots p → st.heap c.prev = some x →
      ∃ st', apex_task_schedule st (some p) s (some p) = .ok st' ∧
        st'.trace = st.trace ++ (if c.timing then [Call.stop c.tw] else [])
          ++ [Call.start x.tw] ∧
        st'.slots p = c.prev ∧ st'.heap (st.slots p) = none ∧
        st'.heap c.prev = some { x with timing := true } ∧
        st'.freed = st.freed ++ [st.slots p]) ∧
    (∀ (asserts : Bool) (es : List (Nat × Event)) (reg : Registry),
      run_dispatch asserts Registry.init State.init es = .ok (reg, st) →
      c.prev = 0 ∨ (c.prev ≠ st.slots p ∧ ∃ x, st.heap c.prev = some x)) := by
  have hslot : (stopped st p (st.slots p) c).slots p = c.prev := by
    show Function.update st.slots p c.prev p = _
    rw [Function.update_same]
  refine ⟨?_, ?_, ?_⟩
  · intro h0
    rw [schedule_prior_terminal _ hs hp hlive]
    have hn : (stopped st p (st.slots p) c).slots p = 0 := by rw [hslot, h0]
    rw [start_next_null hn]
    refine ⟨_, rfl, rfl, ?_, hn, ?_, rfl⟩
    · show starts ((st.trace ++ _).drop st.trace.length) = []
      rw [List.drop_left]
      cases c.timing <;> rfl
    · show Function.update st.heap (st.slots p) none (st.slots p) = none
      rw [Function.update_same]
  · intro x h0 hne hx
    rw [schedule_prior_terminal _ hs hp hlive]
    have hn : (stopped st p (st.slots p) c).slots p ≠ 0 := by rw [hslot]; exact h0
    have hl : (stopped st p (st.slots p) c).heap ((stopped st p (st.slots p) c).slots p)
        = some x := by
      rw [hslot]
      show Function.update st.heap (st.slots p) none c.prev = _
      rw [Function.update_noteq hne]
      exact hx
    rw [start_next_live hn hl]
    refine ⟨_, rfl, rfl, hslot, ?_, ?_, rfl⟩
    · show Function.update (Function.update st.heap (st.slots p) none)
        ((stopped st p (st.slots p) c).slots p) _ (st.slots p) = none
      rw [hslot, Function.update_noteq (fun h => hne h.symm), Function.update_same]
    · show Function.update (Function.update st.heap (st.slots p) none)
        ((stopped st p (st.slots p) c).slots p) _ c.prev = _
      rw [hslot, Function.update_same]
  · intro asserts es reg hrun
    have hi := run_dispatch_inv asserts es _ _ _ _ inv_init hrun
    obtain ⟨_, _, hlt, hok⟩ := hi.live _ c hlive
    rcases hok with h0 | hx
    · exact Or.inl h0
    · exact Or.inr ⟨by omega, hx⟩

/-- Instance of C30: slot `2` of `two_running` completes with itself as next; its context is
stopped and released, the slot is null and no `start` follows. -/
theorem aliased_prior_next_witness :
    two_running.slots 2 ≠ 0 ∧
    ∃ st', apex_task_schedule two_running (some 2) ompt_task_complete (some 2) = .ok st' ∧
      st'.trace = two_running.trace ++ [Call.stop 2] ∧ st'.slots 2 = 0 ∧
      st'.heap 2 = none :=
  ⟨by decide,
    let ⟨s, h1, h2, _, h3, h4, _⟩ :=
      (aliased_prior_next two_running 2 ⟨0, 2, true⟩ ompt_task_complete (by decide)
        (by decide) rfl).1 rfl
    ⟨s, h1, h2, h3, h4⟩⟩

/-! ## Occupied slots, cancel within a pair and the length of labels -/

/-- A Begin callback of a paired event is `apex_ompt_start` with `auto_start = true` on its
slot, followed by no engine call or by one `sample_value` call (work regions). -/
theorem dispatch_begin_calls (asserts : Bool) (self : Nat) (reg : Registry) (d : Nat)
    (b : Event) (hb : b.begins_on d = true) :
    ∃ (label : String) (S : List Call), (S = [] ∨ ∃ n v, S = [Call.sample_value n v]) ∧
      ∀ st : State,
        dispatch asserts self reg st b =
          (apex_ompt_start st label (some d) b.enclosing true).map
            fun s => (reg, { s with trace := s.trace ++ S }) := by
  have plain : ∀ (x : Except Fault State),
      x.map (fun s => (reg, s)) =
        x.map (fun s => (reg, { s with trace := s.trace ++ [] })) := by
    intro x
    cases x with
    | error f => rfl
    | ok s => simp [Except.map]
  cases b with
  | parallel_begin enc par codeptr_ra =>
    simp only [Event.begins_on, decide_eq_true_eq] at hb
    subst hb
    exact ⟨_, [], Or.inl rfl, fun st => plain _⟩
  | implicit_task endpoint par task flags =>
    simp only [Event.begins_on, decide_eq_true_eq] at hb
    obtain ⟨rfl, rfl⟩ := hb
    by_cases hf : flags = ompt_task_initial
    · refine ⟨"OpenMP Initial Task", [], Or.inl rfl, fun st => ?_⟩
      rw [← plain]
      simp [dispatch, apex_implicit_task, hf, Event.enclosing]
    · refine ⟨"OpenMP Implicit Task", [], Or.inl rfl, fun st => ?_⟩
      rw [← plain]
      simp [dispatch, apex_implicit_task, hf, Event.enclosing]
  | sync_region_wait kind endpoint par task codeptr_ra =>
    simp only [Event.begins_on, decide_eq_true_eq] at hb
    obtain ⟨rfl, rfl⟩ := hb
    by_cases hc : codeptr_ra = 0
    · refine ⟨"OpenMP " ++ sync_region_wait_str kind, [], Or.inl rfl, fun st => ?_⟩
      rw [← plain]
      simp [dispatch, apex_sync_region_wait, hc, Event.enclosing]
    · refine ⟨"OpenMP " ++ sync_region_wait_str kind ++ ": UNRESOLVED ADDR " ++
        fmt_p codeptr_ra, [], Or.inl rfl, fun st => ?_⟩
      rw [← plain]
      simp [dispatch, apex_sync_region_wait, hc, Event.enclosing]
  | work wstype endpoint par task count codeptr_ra =>
    simp only [Event.begins_on, decide_eq_true_eq] at hb
    obtain ⟨rfl, rfl⟩ := hb
    by_cases hc : codeptr_ra = 0
    · refine ⟨"OpenMP Work " ++ work_str wstype,
        [Call.sample_value (work_count_type wstype ++ ": " ++
          ("OpenMP Work " ++ work_str wstype)) (uint64_to_double count)],
        Or.inr ⟨_, _, rfl⟩, fun st => ?_⟩
      cases hs : apex_ompt_start st ("OpenMP Work " ++ work_str wstype) (some d) par true <;>
        simp [dispatch, apex_ompt_work, hc, Event.enclosing, hs, Except.map, State.emit,
          bind, Except.bind, pure, Except.pure]
    · refine ⟨"OpenMP Work " ++ work_str wstype ++ ": UNRESOLVED ADDR " ++ fmt_p codeptr_ra,
        [Call.sample_value (work_count_type wstype ++ ": " ++
          ("OpenMP Work " ++ work_str wstype ++ ": UNRESOLVED ADDR " ++ fmt_p codeptr_ra))
          (uint64_to_double count)], Or.inr ⟨_, _, rfl⟩, fun st => ?_⟩
      cases hs : apex_ompt_start st
          ("OpenMP Work " ++ work_str wstype ++ ": UNRESOLVED ADDR " ++ fmt_p codeptr_ra)
          (some d) par true <;>
        simp [dispatch, apex_ompt_work, hc, Event.enclosing, hs, Except.map, State.emit,
          bind, Except.bind, pure, Except.pure]
  | master endpoint par task codeptr_ra =>
    simp only [Event.begins_on, decide_eq_true_eq] at hb
    obtain ⟨rfl, rfl⟩ := hb
    by_cases hc : codeptr_ra = 0
    · refine ⟨"OpenMP Master", [], Or.inl rfl, fun st => ?_⟩
      rw [← plain]
      simp [dispatch, apex_ompt_master, hc, Event.enclosing]
    · refine ⟨"OpenMP Master: UNRESOLVED ADDR " ++ fmt_p codeptr_ra, [], Or.inl rfl,
        fun st => ?_⟩
      rw [← plain]
      simp [dispatch, apex_ompt_master, hc, Event.enclosing]
  | sync_region kind endpoint par task codeptr_ra =>
    simp only [Event.begins_on, decide_eq_true_eq] at hb
    obtain ⟨rfl, rfl⟩ := hb
    by_cases hc : codeptr_ra = 0
    · refine ⟨"OpenMP " ++ sync_region_str kind, [], Or.inl rfl, fun st => ?_⟩
      rw [← plain]
      simp [dispatch, apex_ompt_sync_region, hc, Event.enclosing]
    · refine ⟨"OpenMP " ++ sync_region_str kind ++ ": UNRESOLVED ADDR " ++
        fmt_p codeptr_ra, [], Or.inl rfl, fun st => ?_⟩
      rw [← plain]
      simp [dispatch, apex_ompt_sync_region, hc, Event.enclosing]
  | thread_begin _ => cases hb
  | thread_end => cases hb
  | parallel_end _ => cases hb
  | task_create _ _ _ _ => cases hb
  | task_schedule _ _ _ => cases hb
  | flush _ => cases hb
  | cancel _ _ _ => cases hb

/-- On an occupied slot `apex_ompt_start` passes no parent to the engine. -/
theorem engine_parent_occupied (st : State) (d : Nat) (region : Option Nat)
    (hd : st.slots d ≠ 0) : engine_parent st d region = none := by
  cases region with
  | none => rfl
  | some r => simp [engine_parent, hd]

/-- On a null slot `apex_ompt_stop` does not return: the assertion fails when it is checked,
the null context is dereferenced when it is not. -/
theorem apex_ompt_stop_null (asserts : Bool) (st : State) (d : Nat) (h : st.slots d = 0) :
    apex_ompt_stop asserts st (some d) =
      .error (if asserts then Fault.assertion else Fault.null_deref) := by
  cases asserts <;>
    simp [apex_ompt_stop, cell, h, State.deref, bind, Except.bind, pure, Except.pure, throw,
      throwThe, MonadExceptOf.throw]

/-- The hexadecimal digit characters are one-byte characters. -/
theorem digitChar_ascii (d : Nat) (h : d < 16) : (Nat.digitChar d).toNat < 128 := by
  interval_cases d <;> decide

/-- A number below `16 ^ (k + 1)` has at most `k + 1` hexadecimal digits, each a one-byte
character. -/
theorem toDigitsCore_length (fuel : Nat) :
    ∀ (n k : Nat) (ds : List Char), n < fuel → n < 16 ^ (k + 1) →
      ∃ pre, Nat.toDigitsCore 16 fuel n ds = pre ++ ds ∧ pre.length ≤ k + 1 ∧
        ∀ c ∈ pre, c.toNat < 128 := by
  induction fuel with
  | zero => intro n k ds h; omega
  | succ fuel ih =>
    intro n k ds h hk
    by_cases h0 : n / 16 = 0
    · refine ⟨[Nat.digitChar (n % 16)], ?_, ?_, ?_⟩
      · simp [Nat.toDigitsCore, h0]
      · simp
      · intro c hc
        rw [List.mem_singleton] at hc
        rw [hc]
        exact digitChar_ascii _ (Nat.mod_lt _ (by decide))
    · have hlt : n / 16 < fuel := by omega
      cases k with
      | zero =>
        exfalso
        have : n < 16 := by simpa using hk
        omega
      | succ k =>
        have hk' : n / 16 < 16 ^ (k + 1) := by
          rw [Nat.div_lt_iff_lt_mul (by decide)]
          rw [pow_succ] at hk
          exact hk
        obtain ⟨pre, hpre, hlen, hasc⟩ := ih (n / 16) k (Nat.digitChar (n % 16) :: ds) hlt hk'
        refine ⟨pre ++ [Nat.digitChar (n % 16)], ?_, ?_, ?_⟩
        · simp [Nat.toDigitsCore, h0, hpre]
        · simp
          omega
        · intro c hc
          rw [List.mem_append, List.mem_singleton] at hc
          rcases hc with hc | hc
          · exact hasc c hc
          · rw [hc]
            exact digitChar_ascii _ (Nat.mod_lt _ (by decide))

/-- A string of one-byte characters takes as many bytes as it has characters. -/
theorem ascii_bytes (cs : List Char) (h : ∀ c ∈ cs, c.toNat < 128) :
    String.utf8ByteSize ⟨cs⟩ = cs.length := by
  induction cs with
  | nil => rfl
  | cons c cs ih =>
    have hc : c.toNat < 128 := h c (List.mem_cons_self _ _)
    have ih' := ih (fun x hx => h x (List.mem_cons_of_mem _ hx))
    have h1 : c.utf8Size = 1 := by
      unfold Char.utf8Size
      have hle : c.val ≤ 127 := by
        show c.val.toNat ≤ 127
        have : c.toNat = c.val.toNat := rfl
        omega
      exact if_pos hle
    show String.utf8ByteSize.go (c :: cs) = _
    unfold String.utf8ByteSize.go
    rw [h1]
    show String.utf8ByteSize ⟨cs⟩ + 1 = _
    rw [ih']
    rfl

/-- Lengths add up when two strings are put together. -/
theorem fits_append {m n : Nat} {s t : String} (hs : fits m s) (ht : fits n t) :
    fits (m + n) (s ++ t) := by
  refine ⟨?_, ?_⟩
  · rw [String.length_append]
    exact Nat.add_le_add hs.1 ht.1
  · intro c hc
    rw [String.data_append, List.mem_append] at hc
    rcases hc with hc | hc
    · exact hs.2 c hc
    · exact ht.2 c hc

/-- A string that fits a bound fits every larger bound. -/
theorem fits_mono {m n : Nat} {s : String} (h : fits m s) (hmn : m ≤ n) : fits n s :=
  ⟨Nat.le_trans h.1 hmn, h.2⟩

/-- A string that fits `n` takes at most `n` bytes. -/
theorem fits_bytes {n : Nat} {s : String} (h : fits n s) : s.utf8ByteSize ≤ n := by
  have := ascii_bytes s.data h.2
  have e : (⟨s.data⟩ : String) = s := rfl
  rw [e] at this
  rw [this]
  exact h.1

/-- The conversion `%p` of a 64-bit address takes at most 18 characters: `0x` and up to 16
digits, or `(nil)`. -/
theorem fmt_p_fits (a : Nat) (ha : a < 2 ^ 64) : fits 18 (fmt_p a) := by
  unfold fmt_p
  by_cases h0 : a = 0
  · rw [if_pos h0]
    exact ⟨by decide, by decide⟩
  · rw [if_neg h0]
    obtain ⟨pre, hpre, hlen, hasc⟩ := toDigitsCore_length (a + 1) a 15 [] (Nat.lt_succ_self a)
      (by simpa using ha)
    have hd : Nat.toDigits 16 a = pre := by
      unfold Nat.toDigits
      rw [hpre, List.append_nil]
    rw [hd]
    have h2 : fits 2 "0x" := ⟨by decide, by decide⟩
    have hp : fits 16 (String.mk pre) := ⟨hlen, hasc⟩
    exact fits_append h2 hp

/-- A base label with its call-site suffix is at most 36 characters longer than the base. -/
theorem with_addr_fits {m : Nat} {base : String} (hb : fits m base) (a : Nat)
    (ha : a < 2 ^ 64) : fits (m + 36) (with_addr base a) := by
  unfold with_addr
  by_cases h0 : a = 0
  · simp only [h0, ne_eq, not_true_eq_false, if_false]
    exact fits_mono hb (Nat.le_add_right _ _)
  · simp only [h0, ne_eq, not_false_eq_true, if_true]
    have hs : fits 18 ": UNRESOLVED ADDR " := ⟨by decide, by decide⟩
    exact fits_mono (fits_append (fits_append hb hs) (fmt_p_fits a ha)) (by omega)

/-- The task-create labels are short. -/
theorem task_create_type_str_fits (type : Int) : fits 40 (task_create_type_str type) := by
  unfold task_create_type_str
  split_ifs <;> exact ⟨by decide, by decide⟩

/-- The sync-region-wait names are short. -/
theorem sync_region_wait_str_fits (kind : Int) : fits 30 (sync_region_wait_str kind) := by
  unfold sync_region_wait_str
  split_ifs <;> exact ⟨by decide, by decide⟩

/-- The sync-region names are short. -/
theorem sync_region_str_fits (kind : Int) : fits 30 (sync_region_str kind) := by
  unfold sync_region_str
  split_ifs <;> exact ⟨by decide, by decide⟩

/-- The work names are short. -/
theorem work_str_fits (wstype : Int) : fits 20 (work_str wstype) := by
  unfold work_str
  split_ifs <;> exact ⟨by decide, by decide⟩

/-- The count-type names are short. -/
theorem work_count_type_fits (wstype : Int) : fits 25 (work_count_type wstype) := by
  unfold work_count_type
  split_ifs <;> exact ⟨by decide, by decide⟩

/-- The thread labels are short. -/
theorem thread_begin_str_fits (thread_type : Int) : fits 40 (thread_begin_str thread_type) := by
  unfold thread_begin_str
  split_ifs <;> exact ⟨by decide, by decide⟩

/-- Every label an event hands to the engine has at most 127 one-byte characters, whatever
the 64-bit call-site address. -/
theorem event_names_fit (e : Event) (a : Nat) (ha : a < 2 ^ 64) :
    ∀ l ∈ event_names (e.at_codeptr a), fits 127 l := by
  have lit : ∀ s : String, fits 40 s → fits 127 s := fun s h => fits_mono h (by decide)
  have openmp : fits 7 "OpenMP " := ⟨by decide, by decide⟩
  cases e with
  | thread_begin thread_type =>
    intro l hl
    simp only [Event.at_codeptr, event_names, List.mem_cons, List.mem_singleton,
      List.not_mem_nil, or_false, or_self] at hl
    rw [hl]
    exact lit _ (thread_begin_str_fits thread_type)
  | thread_end => intro l hl; cases hl
  | parallel_begin enc par c =>
    intro l hl
    simp only [Event.at_codeptr, event_names, List.mem_singleton] at hl
    rw [hl]
    have hb : fits 40 "OpenMP Parallel Region: UNRESOLVED ADDR " := ⟨by decide, by decide⟩
    exact fits_mono (fits_append hb (fmt_p_fits a ha)) (by decide)
  | parallel_end par => intro l hl; cases hl
  | task_create enc new type c =>
    intro l hl
    simp only [Event.at_codeptr, event_names, List.mem_singleton] at hl
    rw [hl]
    exact fits_mono (with_addr_fits (task_create_type_str_fits type) a ha) (by decide)
  | task_schedule prior status next => intro l hl; cases hl
  | implicit_task endpoint par task flags =>
    intro l hl
    simp only [Event.at_codeptr, event_names] at hl
    split_ifs at hl
    · rw [List.mem_singleton] at hl
      rw [hl]
      exact ⟨by decide, by decide⟩
    · rw [List.mem_singleton] at hl
      rw [hl]
      exact ⟨by decide, by decide⟩
    · cases hl
  | sync_region_wait kind endpoint par task c =>
    intro l hl
    simp only [Event.at_codeptr, event_names] at hl
    split_ifs at hl
    · rw [List.mem_singleton] at hl
      rw [hl]
      exact fits_mono (with_addr_fits (fits_append openmp (sync_region_wait_str_fits kind))
        a ha) (by decide)
    · cases hl
  | work wstype endpoint par task count c =>
    intro l hl
    simp only [Event.at_codeptr, event_names] at hl
    have hw : fits 12 "OpenMP Work " := ⟨by decide, by decide⟩
    have hlabel := with_addr_fits (fits_append hw (work_str_fits wstype)) a ha
    have hsep : fits 2 ": " := ⟨by decide, by decide⟩
    split_ifs at hl
    · simp only [List.mem_cons, List.mem_singleton, List.not_mem_nil, or_false] at hl
      rcases hl with hl | hl
      · rw [hl]
        exact fits_mono hlabel (by decide)
      · rw [hl]
        exact fits_mono (fits_append (fits_append (work_count_type_fits wstype) hsep) hlabel)
          (by decide)
    · cases hl
  | master endpoint par task c =>
    intro l hl
    simp only [Event.at_codeptr, event_names] at hl
    have hm : fits 13 "OpenMP Master" := ⟨by decide, by decide⟩
    split_ifs at hl
    · rw [List.mem_singleton] at hl
      rw [hl]
      exact fits_mono (with_addr_fits hm a ha) (by decide)
    · cases hl
  | sync_region kind endpoint par task c =>
    intro l hl
    simp only [Event.at_codeptr, event_names] at hl
    split_ifs at hl
    · rw [List.mem_singleton] at hl
      rw [hl]
      exact fits_mono (with_addr_fits (fits_append openmp (sync_region_str_fits kind))
        a ha) (by decide)
    · cases hl
  | flush c =>
    intro l hl
    simp only [Event.at_codeptr, event_names, List.mem_singleton] at hl
    rw [hl]
    have hf : fits 12 "OpenMP Flush" := ⟨by decide, by decide⟩
    exact fits_mono (with_addr_fits hf a ha) (by decide)
  | cancel task flags c =>
    intro l hl
    simp only [Event.at_codeptr, event_names, List.mem_map, List.mem_filter] at hl
    obtain ⟨p, ⟨hp, _⟩, rfl⟩ := hl
    have hall : ∀ q ∈ cancel_flag_labels, fits 40 q.2 := by
      intro q hq
      simp only [cancel_flag_labels, List.mem_cons, List.mem_singleton, List.not_mem_nil,
        or_false] at hq
      rcases hq with rfl | rfl | rfl | rfl | rfl | rfl | rfl <;> exact ⟨by decide, by decide⟩
    exact fits_mono (with_addr_fits (hall p hp) a ha) (by decide)

/-! ## The properties of occupied slots, cancelled pairs and label buffers -/

/-- Claim C31, Begin on an occupied slot. A Begin callback (parallel region, implicit task,
sync region wait, work, master or sync region) on a slot `d` that holds a live context `c`,
whatever the enclosing slot holds: the callback returns; its engine calls are `new_task` with
no parent, `start` on the new task wrapper, and for a work region one `sample_value`; no
`yield` and no `stop` call is made. The new context is in the slot with the address of `c`
as its parent link; `c` is as it was, running flag included; every other slot and every
other context is unchanged, and nothing is deleted. Assumed: `new` does not return the
address of a live context. -/
theorem begin_on_occupied_slot (asserts : Bool) (self : Nat) (reg : Registry) (st : State)
    (d : Nat) (b : Event) (c : linked_timer) (hb : b.begins_on d = true)
    (hd : st.slots d ≠ 0) (hlive : st.heap (st.slots d) = some c)
    (hfresh : st.heap (st.brk + 1) = none) :
    ∃ st' label S,
      dispatch asserts self reg st b = .ok (reg, st') ∧
      st'.trace = st.trace ++ [Call.new_task label (st.slots d) none (st.tasks + 1),
        Call.start (st.tasks + 1)] ++ S ∧
      (S = [] ∨ ∃ n v, S = [Call.sample_value n v]) ∧
      yields (st'.trace.drop st.trace.length) = [] ∧
      stops (st'.trace.drop st.trace.length) = [] ∧
      st'.slots d = st.brk + 1 ∧
      st'.heap (st.brk + 1) = some ⟨st.slots d, st.tasks + 1, true⟩ ∧
      st'.heap (st.slots d) = some c ∧
      (∀ r, r ≠ d → st'.slots r = st.slots r) ∧
      (∀ a, a ≠ st.brk + 1 → st'.heap a = st.heap a) ∧
      st'.freed = st.freed := by
  obtain ⟨label, S, hS, hbegin⟩ := dispatch_begin_calls asserts self reg d b hb
  have h1 := hbegin st
  rw [apex_ompt_start_eq st label d b.enclosing true (fun r _ h0 => absurd h0 hd),
    engine_parent_occupied st d b.enclosing hd] at h1
  have hne : st.slots d ≠ st.brk + 1 := by
    intro e
    rw [e, hfresh] at hlive
    cases hlive
  have htrace : ({ started st label d none true with
      trace := (started st label d none true).trace ++ S } : State).trace =
      st.trace ++ [Call.new_task label (st.slots d) none (st.tasks + 1),
        Call.start (st.tasks + 1)] ++ S := by
    show (st.trace ++ Call.new_task label (if st.slots d = 0 then UINT64_MAX else st.slots d)
      none (st.tasks + 1) :: (if true = true then [Call.start (st.tasks + 1)] else [])) ++ S
      = _
    rw [if_neg hd, if_pos rfl]
  refine ⟨_, label, S, h1, htrace, hS, ?_, ?_, Function.update_same _ _ _,
    Function.update_same _ _ _, ?_, ?_, ?_, rfl⟩
  · rw [htrace, List.append_assoc, List.drop_left]
    rcases hS with rfl | ⟨n, v, rfl⟩ <;> rfl
  · rw [htrace, List.append_assoc, List.drop_left]
    rcases hS with rfl | ⟨n, v, rfl⟩ <;> rfl
  · show Function.update st.heap (st.brk + 1) _ (st.slots d) = some c
    rw [Function.update_noteq hne]
    exact hlive
  · intro r hr
    exact Function.update_noteq hr _ _
  · intro a ha
    exact Function.update_noteq ha _ _

/-- Instance of C31: a master region begun on slot `2` of `two_running`, which holds the
running context of the implicit task. -/
theorem begin_on_occupied_slot_witness :
    Event.begins_on 2 (.master ompt_scope_begin (some 1) (some 2) 0) = true ∧
    two_running.slots 2 = 2 ∧ two_running.heap 2 = some ⟨0, 2, true⟩ ∧
    ∃ st', dispatch true 0 Registry.init two_running
        (.master ompt_scope_begin (some 1) (some 2) 0) = .ok (Registry.init, st') ∧
      stops (st'.trace.drop two_running.trace.length) = [] ∧
      st'.slots 2 = 3 ∧ st'.heap 3 = some ⟨2, 3, true⟩ ∧
      st'.heap 2 = some ⟨0, 2, true⟩ ∧ st'.slots 1 = 1 :=
  ⟨rfl, rfl, rfl,
    let ⟨s, _, _, h1, _, _, _, h2, h3, h4, h5, h6, _⟩ :=
      begin_on_occupied_slot true 0 Registry.init two_running 2
        (.master ompt_scope_begin (some 1) (some 2) 0) ⟨0, 2, true⟩ rfl (by decide) rfl rfl
    ⟨s, h1, h2, h3, h4, h5, h6 1 (by decide)⟩⟩

/-- Claim C32, cancel inside a Begin/End pair. On a slot `d` holding `v`: a Begin callback,
then a cancel event on `d`. Both return, and after them every slot (so `d` holds `v` again)
and every live context is as before Begin, the context Begin created being deleted by the
cancel. The End callback that follows therefore meets `v`: when `v` is null, `apex_ompt_stop`
does not return (the assertion fails when `APEX_ASSERT` is checked, the null context is
dereferenced when it is not); when `v` is the address of a live context `cv`, which the pair
did not create, End stops and deletes `cv` and rewinds the slot to its parent link. Assumed:
`new` does not return the address of a live context, and the enclosing slot read by Begin
holds null or a live context. -/
theorem cancel_inside_pair (asserts : Bool) (self : Nat) (reg : Registry) (st : State)
    (d : Nat) (b e : Event) (flags : Int) (codeptr_ra : Nat)
    (hb : b.begins_on d = true) (he : e.ends_on d = true)
    (hfresh : st.heap (st.brk + 1) = none)
    (hreg : ∀ r, b.enclosing = some r → st.slots d = 0 → st.okPtr (st.slots r)) :
    ∃ s1 s2, dispatch asserts self reg st b = .ok (reg, s1) ∧
      s1.slots d = st.brk + 1 ∧
      dispatch asserts self reg s1 (.cancel (some d) flags codeptr_ra) = .ok (reg, s2) ∧
      s2.slots = st.slots ∧ s2.heap = st.heap ∧ s2.freed = st.freed ++ [st.brk + 1] ∧
      (st.slots d = 0 →
        dispatch asserts self reg s2 e =
          .error (if asserts then Fault.assertion else Fault.null_deref)) ∧
      (∀ cv : linked_timer, st.slots d ≠ 0 → st.heap (st.slots d) = some cv →
        ∃ s3, dispatch asserts self reg s2 e = .ok (reg, s3) ∧
          s3.slots d = cv.prev ∧ s3.heap (st.slots d) = none ∧
          s3.freed = st.freed ++ [st.brk + 1, st.slots d] ∧
          s3.trace = s2.trace ++ (if cv.timing then [Call.stop cv.tw] else [])) := by
  obtain ⟨label, S, hbegin⟩ := dispatch_begin asserts self reg d b hb
  have h1 := hbegin st
  rw [apex_ompt_start_eq st label d b.enclosing true hreg] at h1
  replace h1 : dispatch asserts self reg st b = .ok (reg,
      { started st label d (engine_parent st d b.enclosing) true with
        trace := (started st label d (engine_parent st d b.enclosing) true).trace ++ S }) :=
    h1
  generalize hs1 : ({ started st label d (engine_parent st d b.enclosing) true with
      trace := (started st label d (engine_parent st d b.enclosing) true).trace ++ S }
      : State) = s1 at h1
  have e1 : s1.slots = Function.update st.slots d (st.brk + 1) := by rw [← hs1]; rfl
  have e2 : s1.heap = Function.update st.heap (st.brk + 1)
      (some ⟨st.slots d, st.tasks + 1, true⟩) := by rw [← hs1]; rfl
  have e3 : s1.freed = st.freed := by rw [← hs1]; rfl
  generalize hsc : ({ s1 with trace := s1.trace ++ cancel_samples flags codeptr_ra } : State)
    = sc
  have c1 : sc.slots = s1.slots := by rw [← hsc]
  have c2 : sc.heap = s1.heap := by rw [← hsc]
  have c3 : sc.freed = s1.freed := by rw [← hsc]
  have hslot : sc.slots d = st.brk + 1 := by rw [c1, e1, Function.update_same]
  have hlive : sc.heap (sc.slots d) = some ⟨st.slots d, st.tasks + 1, true⟩ := by
    rw [hslot, c2, e2, Function.update_same]
  have h2 : dispatch asserts self reg s1 (.cancel (some d) flags codeptr_ra) =
      .ok (reg, stopped sc d (sc.slots d) ⟨st.slots d, st.tasks + 1, true⟩) := by
    show (apex_ompt_cancel asserts s1 (some d) flags codeptr_ra).map _ = _
    rw [apex_ompt_cancel_eq, hsc,
      apex_ompt_stop_eq asserts (by rw [hslot]; exact Nat.succ_ne_zero _) hlive]
    rfl
  generalize hs2 : stopped sc d (sc.slots d) ⟨st.slots d, st.tasks + 1, true⟩ = s2 at h2
  have f1 : s2.slots = st.slots := by
    rw [← hs2]
    show Function.update sc.slots d (st.slots d) = st.slots
    rw [c1, e1, Function.update_idem, Function.update_eq_self]
  have f2 : s2.heap = st.heap := by
    rw [← hs2]
    show Function.update sc.heap (sc.slots d) none = st.heap
    rw [hslot, c2, e2, Function.update_idem, Function.update_eq_self_iff]
    exact hfresh.symm
  have f3 : s2.freed = st.freed ++ [st.brk + 1] := by
    rw [← hs2]
    show sc.freed ++ [sc.slots d] = _
    rw [hslot, c3, e3]
  have h3 := dispatch_end asserts self reg d e he s2
  refine ⟨s1, s2, h1, by rw [e1, Function.update_same], h2, f1, f2, f3, ?_, ?_⟩
  · intro h0
    rw [h3, apex_ompt_stop_null asserts s2 d (by rw [f1]; exact h0)]
    rfl
  · intro cv hne hcv
    have hl2 : s2.heap (s2.slots d) = some cv := by rw [f1, f2]; exact hcv
    rw [apex_ompt_stop_eq asserts (by rw [f1]; exact hne) hl2] at h3
    refine ⟨_, h3, Function.update_same _ _ _, ?_, ?_, rfl⟩
    · show Function.update s2.heap (s2.slots d) none (st.slots d) = none
      rw [f1, Function.update_same]
    · show s2.freed ++ [s2.slots d] = _
      rw [f3, f1, List.append_assoc]
      rfl

/-- Instance of C32: work Begin, cancel and work End on slot `2` of `two_running`; the End
deletes the context of the implicit task (address `2`). -/
theorem cancel_inside_pair_witness :
    Event.begins_on 2 (.work ompt_work_loop ompt_scope_begin (some 1) (some 2) 8 0) = true ∧
    Event.ends_on 2 (.work ompt_work_loop ompt_scope_end (some 1) (some 2) 8 0) = true ∧
    two_running.slots 2 = 2 ∧ two_running.heap 2 = some ⟨0, 2, true⟩ ∧
    ∃ s1 s2 s3, dispatch true 0 Registry.init two_running
        (.work ompt_work_loop ompt_scope_begin (some 1) (some 2) 8 0)
        = .ok (Registry.init, s1) ∧
      dispatch true 0 Registry.init s1 (.cancel (some 2) ompt_cancel_loop 0)
        = .ok (Registry.init, s2) ∧
      s2.slots = two_running.slots ∧
      dispatch true 0 Registry.init s2
        (.work ompt_work_loop ompt_scope_end (some 1) (some 2) 8 0)
        = .ok (Registry.init, s3) ∧
      s3.slots 2 = 0 ∧ s3.heap 2 = none ∧ s3.freed = [3, 2] :=
  ⟨rfl, rfl, rfl, rfl,
    let ⟨s1, s2, h1, _, h2, h3, _, _, _, h4⟩ :=
      cancel_inside_pair true 0 Registry.init two_running 2
        (.work ompt_work_loop ompt_scope_begin (some 1) (some 2) 8 0)
        (.work ompt_work_loop ompt_scope_end (some 1) (some 2) 8 0) ompt_cancel_loop 0
        rfl rfl rfl (fun r _ h => absurd h (by decide))
    let ⟨s3, h5, h6, h7, h8, _⟩ := h4 ⟨0, 2, true⟩ (by decide) rfl
    ⟨s1, s2, s3, h1, h2, h3, h5, h6, h7, h8⟩⟩

/-- Claim C33, label buffer bound. For every event and every call-site address below
`2 ^ 64`, each label of the event (the base label, alone or followed by ": UNRESOLVED ADDR "
and `%p` of the address; the sample name of a work region too) has at most 127 characters,
all of them one-byte characters, so that with its terminator it takes at most 128 bytes.
These are the labels every handler that returns has handed to the engine. -/
theorem label_buffer_bound (e : Event) (a : Nat) (ha : a < 2 ^ 64) :
    (∀ l ∈ event_names (e.at_codeptr a),
      l.length ≤ 127 ∧ (∀ c ∈ l.data, c.toNat < 128) ∧ l.utf8ByteSize + 1 ≤ 128) ∧
    ∀ (asserts : Bool) (self : Nat) (reg r : Registry) (st st' : State),
      dispatch asserts self reg st (e.at_codeptr a) = .ok (r, st') →
      ∀ l ∈ names (st'.trace.drop st.trace.length),
        l.length ≤ 127 ∧ (∀ c ∈ l.data, c.toNat < 128) ∧ l.utf8ByteSize + 1 ≤ 128 := by
  have key : ∀ l ∈ event_names (e.at_codeptr a),
      l.length ≤ 127 ∧ (∀ c ∈ l.data, c.toNat < 128) ∧ l.utf8ByteSize + 1 ≤ 128 := by
    intro l hl
    have h := event_names_fit e a ha l hl
    exact ⟨h.1, h.2, Nat.succ_le_succ (fits_bytes h)⟩
  refine ⟨key, ?_⟩
  intro asserts self reg r st st' hd l hl
  rw [passes_names (dispatch_passes hd)] at hl
  exact key l hl

/-- Instance of C33: the label of a barrier-implementation wait from the address
`0xffffffffffffffff` has 70 characters and is within the bound. -/
theorem label_buffer_bound_witness :
    (0xffffffffffffffff : Nat) < 2 ^ 64 ∧
    event_names (.sync_region_wait ompt_sync_region_barrier_implementation ompt_scope_begin
      (some 1) (some 2) 0xffffffffffffffff) =
      ["OpenMP Barrier Implementation Wait: UNRESOLVED ADDR 0xffffffffffffffff"] ∧
    ("OpenMP Barrier Implementation Wait: UNRESOLVED ADDR 0xffffffffffffffff").length = 70 ∧
    ("OpenMP Barrier Implementation Wait: UNRESOLVED ADDR 0xffffffffffffffff").length ≤ 127 :=
  ⟨by decide, by decide, by decide,
    ((label_buffer_bound
      (.sync_region_wait ompt_sync_region_barrier_implementation ompt_scope_begin
        (some 1) (some 2) 0) 0xffffffffffffffff (by decide)).1 _
      (List.mem_singleton.mpr (by decide))).1⟩

end Apex
